import Mathlib

/-! # AVL binary packet protocol: fields, packets, checksum

A shallow embedding of the communication layer of the ground-control
application (`include/util/vector.h`, `include/util/byte.h`,
`src/comms/field.cpp`, `src/comms/packet.cpp`, `src/comms/avl_commands.cpp`)
and the properties of its wire format.

Conventions of the embedding

* `std::vector<uint8_t>` is `List Byte` with `Byte = Fin 256`; a `uint16_t` is
  `U16 = Fin 65536`. Every machine addition is written with an explicit
  remainder (`u8`, `u16`, `size_sub`).
* `size_t` is 64 bits wide and the host is little-endian, so the in-memory
  image that `to_bytes` copies out of a `uint16_t` is low byte first.
* A function that can throw returns `Except Err`. Two constructors of `Err`
  are not C++ exceptions: `undefined_behaviour` (an iterator range that
  leaves the vector) and `out_of_fuel` (the loop counter of the embedding
  ran out; the top-level functions always supply enough).
-/

namespace avl

/-! ## Machine types -/

/-- One `uint8_t`. -/
abbrev Byte := Fin 256

/-- One `uint16_t`. -/
abbrev U16 := Fin 65536

/-- Truncation of a natural number to `uint8_t`. -/
def u8 (n : Nat) : Byte := ⟨n % 256, Nat.mod_lt _ (by decide)⟩

/-- Truncation of a natural number to `uint16_t`. -/
def u16 (n : Nat) : U16 := ⟨n % 65536, Nat.mod_lt _ (by decide)⟩

/-- Subtraction `a - b` of a value `b ≤ 2 ^ 64` from a `size_t` value `a`
(64 bits, wrapping below zero); also the conversion to `size_t` of the `int`
difference of two small values. -/
def size_sub (a b : Nat) : Nat :=
  if b ≤ a then a - b else a + 18446744073709551616 - b

/-- Outcomes other than a normal return. -/
inductive Err
  /-- Message `subvector: start position is past end of vector` -/
  | subvector_start
  /-- Message `subvector: vector length less than subvector size` -/
  | subvector_length
  /-- Message `from_bytes: invalid number of bytes for conversion from bytes` -/
  | from_bytes_size
  /-- Exception `std::out_of_range` thrown by `std::vector::at` -/
  | at_range
  /-- Message `failed to parse improperly formatted field bytes (length does not match)` -/
  | field_length
  /-- Message `validate_bytes: invalid packet (header does not match)` -/
  | header_mismatch
  /-- Message `validate_bytes: invalid packet (payload length does not match)` -/
  | payload_length_mismatch
  /-- Message `validate_bytes: invalid packet (checksum does not match)` -/
  | checksum_mismatch
  /-- Message `set_bytes: failed to parse improperly formatted field bytes` -/
  | malformed_field
  /-- Message `get_field: packet does not have field with descriptor ...` -/
  | field_not_found
  /-- Not an exception: the code leaves the bounds of a vector. -/
  | undefined_behaviour
  /-- Not an exception: the loop counter of the embedding is exhausted. -/
  | out_of_fuel
  deriving DecidableEq, Repr

deriving instance DecidableEq for Except

/-- Whether the outcome is a C++ exception (derived from `std::exception`),
which a `catch (const std::exception&)` handler intercepts. -/
def Err.is_exception : Err → Bool
  | .undefined_behaviour => false
  | .out_of_fuel => false
  | _ => true

/-! ## `util/vector.h` -/

/-- Source `avl::subvector(vect, start, num)`: the two range checks of the source,
then the copy of `[begin + start, begin + start + num)`. The source does not
check `start + num` against the size; an iterator range that leaves the
vector is undefined behaviour. -/
def subvector {α : Type} (vect : List α) (start num : Nat) : Except Err (List α) :=
  if start ≥ vect.length then .error .subvector_start
  else if vect.length < num then .error .subvector_length
  else if start + num ≤ vect.length then .ok ((vect.drop start).take num)
  else .error .undefined_behaviour

/-- Source `avl::append(vector0, vector1)`: returns the new value of `vector0`. -/
def append {α : Type} (vector0 vector1 : List α) : List α := vector0 ++ vector1

/-- Source `avl::remove(vector, start, num)`: `vector.erase(begin + start,
begin + start + num)`; returns the new value of `vector`. Erasing past the
end is undefined behaviour. -/
def remove {α : Type} (vector : List α) (start num : Nat) : Except Err (List α) :=
  if start + num ≤ vector.length then .ok (vector.take start ++ vector.drop (start + num))
  else .error .undefined_behaviour

/-- Source `std::vector::at(i)`. -/
def vector_at {α : Type} (vect : List α) (i : Nat) : Except Err α :=
  match vect.get? i with
  | some x => .ok x
  | none => .error .at_range

/-! ## `util/byte.h` -/

/-- Source `avl::from_bytes<uint16_t>(bytes, reverse)`. -/
def from_bytes_u16 (bytes : List Byte) (reverse : Bool) : Except Err U16 :=
  if bytes.length ≠ 2 then .error .from_bytes_size
  else
    let bytes := if reverse then bytes.reverse else bytes
    .ok (u16 ((bytes.getD 0 0).val + 256 * (bytes.getD 1 0).val))

/-- Source `avl::to_bytes<uint16_t>(var, reverse)`. -/
def to_bytes_u16 (var : U16) (reverse : Bool) : List Byte :=
  let bytes := [u8 var.val, u8 (var.val / 256)]
  if reverse then bytes.reverse else bytes

/-! ## `comms/field.cpp` -/

/-- The data members of `avl::Field`. -/
structure Field where
  length : U16
  descriptor : Byte
  data : List Byte
  deriving DecidableEq, Repr

namespace Field

/-- Source `Field::Field(uint8_t field_descriptor)`. -/
def Field_desc (field_descriptor : Byte) : Field :=
  { descriptor := field_descriptor, data := [], length := 3 }

/-- Source `Field::Field(uint8_t field_descriptor, std::vector<uint8_t> field_data)`. -/
def Field_desc_data (field_descriptor : Byte) (field_data : List Byte) : Field :=
  { descriptor := field_descriptor, data := field_data, length := u16 (3 + field_data.length) }

/-- Source `Field::Field()`, which delegates to `Field(0x00, {})`. -/
def Field_default : Field := Field_desc_data 0x00 []

/-- Source `Field::get_bytes`. -/
def get_bytes (self : Field) : List Byte :=
  let bytes : List Byte := []
  let bytes := append bytes (to_bytes_u16 self.length false)
  let bytes := bytes ++ [self.descriptor]
  let bytes := append bytes self.data
  bytes

/-- Source `Field::validate_bytes`. -/
def validate_bytes (bytes : List Byte) : Except Err Unit := do
  let length_bytes ← subvector bytes 0 2
  let length ← from_bytes_u16 length_bytes false
  if bytes.length ≠ length.val then
    throw Err.field_length
  pure ()

/-- Source `Field::set_bytes`: returns the new state of the object. -/
def set_bytes (self : Field) (field_bytes : List Byte) : Except Err Field := do
  validate_bytes field_bytes
  let length_bytes ← subvector field_bytes 0 2
  let length ← from_bytes_u16 length_bytes false
  let descriptor ← vector_at field_bytes 2
  if length.val > 0 then
    let data ← subvector field_bytes 3 (size_sub length.val 3)
    pure { length := length, descriptor := descriptor, data := data }
  else
    pure { length := length, descriptor := descriptor, data := self.data }

/-- Source `Field::Field(std::vector<uint8_t> field_bytes)`: `set_bytes` on a fresh
object, whose `data` is empty and whose `length` and `descriptor` are
overwritten by `set_bytes` before they are read. -/
def Field_bytes (field_bytes : List Byte) : Except Err Field :=
  set_bytes { length := 0, descriptor := 0, data := [] } field_bytes

/-- Source `Field::get_length`. -/
def get_length (self : Field) : U16 := self.length

/-- Source `Field::get_descriptor`. -/
def get_descriptor (self : Field) : Byte := self.descriptor

/-- Source `Field::set_descriptor`. -/
def set_descriptor (self : Field) (field_descriptor : Byte) : Field :=
  { self with descriptor := field_descriptor }

/-- Source `Field::get_data`. -/
def get_data (self : Field) : List Byte := self.data

/-- Source `Field::set_data`. -/
def set_data (self : Field) (field_data : List Byte) : Field :=
  { self with data := field_data, length := u16 (3 + field_data.length) }

end Field

/-! ## `comms/packet.cpp` -/

/-- Constant `AVL_PACKET_HEADER`, the value of the member `header` of every packet
(no member function assigns to it). -/
def AVL_PACKET_HEADER : List Byte := [0x75, 0x65]

/-- The mutable data members of `avl::Packet`. -/
structure Packet where
  descriptor : Byte
  payload_length : U16
  fields : List Field
  deriving DecidableEq, Repr

/-- A `try { ... } catch (const std::exception&) { throw replacement; }`
block around `body`. -/
def try_catch {α : Type} (body : Except Err α) (replacement : Err) : Except Err α :=
  match body with
  | .ok a => .ok a
  | .error e => if e.is_exception then .error replacement else .error e

namespace Packet

/-- Source `Packet::Packet()`: the default member initialisers. -/
def Packet_default : Packet :=
  { descriptor := 0x00, payload_length := 0x0000, fields := [] }

/-- The loop body of `Packet::get_checksum`, on the pair
`(checksum_msb, checksum_lsb)`. -/
def checksum_step (acc : Byte × Byte) (b : Byte) : Byte × Byte :=
  let checksum_msb := u8 (acc.1.val + b.val)
  let checksum_lsb := u8 (acc.2.val + checksum_msb.val)
  (checksum_msb, checksum_lsb)

/-- Source `Packet::get_checksum`. -/
def get_checksum (bytes : List Byte) : List Byte :=
  let acc := bytes.foldl checksum_step (0x00, 0x00)
  let checksum : List Byte := []
  let checksum := checksum ++ [acc.1]
  let checksum := checksum ++ [acc.2]
  checksum

/-- Source `Packet::get_bytes`. -/
def get_bytes (self : Packet) : List Byte :=
  let bytes : List Byte := []
  let bytes := append bytes AVL_PACKET_HEADER
  let bytes := bytes ++ [self.descriptor]
  let bytes := append bytes (to_bytes_u16 self.payload_length false)
  let bytes := self.fields.foldl (fun bytes field => append bytes field.get_bytes) bytes
  let bytes := append bytes (get_checksum bytes)
  bytes

/-- Source `Packet::validate_bytes`. -/
def validate_bytes (bytes : List Byte) : Except Err Unit := do
  let first_two ← subvector bytes 0 2
  if first_two ≠ AVL_PACKET_HEADER then
    throw Err.header_mismatch
  let length_bytes ← subvector bytes 3 2
  let payload_length ← from_bytes_u16 length_bytes false
  if payload_length.val ≠ size_sub bytes.length 7 then
    throw Err.payload_length_mismatch
  let given_checksum ← subvector bytes (size_sub bytes.length 2) 2
  let checked ← subvector bytes 0 (size_sub bytes.length 2)
  let calculated_checksum := get_checksum checked
  if calculated_checksum ≠ given_checksum then
    throw Err.checksum_mismatch
  pure ()

/-- The `while (payload_bytes.size() > 0)` loop of `Packet::set_bytes`; the
first argument bounds the number of iterations. -/
def set_bytes_loop : Nat → List Byte → List Field → Except Err (List Field)
  | 0, payload_bytes, fields =>
    if payload_bytes.length > 0 then .error .out_of_fuel else .ok fields
  | fuel + 1, payload_bytes, fields =>
    if payload_bytes.length > 0 then do
      let length_bytes ← subvector payload_bytes 0 2
      let field_length ← from_bytes_u16 length_bytes false
      let field_bytes ← subvector payload_bytes 0 field_length.val
      let field ← Field.Field_bytes field_bytes
      let payload_bytes ← remove payload_bytes 0 field_length.val
      set_bytes_loop fuel payload_bytes (fields ++ [field])
    else .ok fields

/-- Source `Packet::set_bytes`: returns the new state of the object. Parsed fields
are pushed onto the fields the object already holds. -/
def set_bytes (self : Packet) (packet_bytes : List Byte) : Except Err Packet := do
  validate_bytes packet_bytes
  let descriptor ← vector_at packet_bytes 2
  let length_bytes ← subvector packet_bytes 3 2
  let payload_length ← from_bytes_u16 length_bytes false
  let payload_bytes ← subvector packet_bytes 5 payload_length.val
  if payload_length.val > 0 then
    let fields ← try_catch
      (set_bytes_loop payload_bytes.length payload_bytes self.fields) Err.malformed_field
    pure { descriptor := descriptor, payload_length := payload_length, fields := fields }
  else
    pure { descriptor := descriptor, payload_length := payload_length, fields := self.fields }

/-- Source `Packet::Packet(std::vector<uint8_t> packet_bytes)`. -/
def Packet_bytes (packet_bytes : List Byte) : Except Err Packet :=
  set_bytes Packet_default packet_bytes

/-- The `while (bytes.size() > 0)` loop of `Packet::parse_multiple`; the
first argument bounds the number of iterations. -/
def parse_multiple_loop : Nat → List Byte → List Packet → Except Err (List Packet)
  | 0, bytes, packets =>
    if bytes.length > 0 then .error .out_of_fuel else .ok packets
  | fuel + 1, bytes, packets =>
    if bytes.length > 0 then do
      let length_bytes ← subvector bytes 3 2
      let payload_length ← from_bytes_u16 length_bytes false
      let packet_length := 2 + 3 + payload_length.val + 2
      let packet_bytes ← subvector bytes 0 packet_length
      let packet ← Packet_bytes packet_bytes
      let bytes ← remove bytes 0 packet_length
      parse_multiple_loop fuel bytes (packets ++ [packet])
    else .ok packets

/-- Source `Packet::parse_multiple`. -/
def parse_multiple (bytes : List Byte) : Except Err (List Packet) :=
  parse_multiple_loop bytes.length bytes []

/-- Source `Packet::get_descriptor`. -/
def get_descriptor (self : Packet) : Byte := self.descriptor

/-- Source `Packet::set_descriptor`. -/
def set_descriptor (self : Packet) (packet_descriptor : Byte) : Packet :=
  { self with descriptor := packet_descriptor }

/-- Source `Packet::get_num_fields`. -/
def get_num_fields (self : Packet) : Nat := self.fields.length

/-- Source `Packet::add_field(Field field)`. -/
def add_field (self : Packet) (field : Field) : Packet :=
  { self with
    fields := self.fields ++ [field]
    payload_length := u16 (self.payload_length.val + field.get_length.val) }

/-- Source `Packet::add_field(uint8_t field_descriptor)`. -/
def add_field_desc (self : Packet) (field_descriptor : Byte) : Packet :=
  let field := Field.Field_desc field_descriptor
  { self with
    fields := self.fields ++ [field]
    payload_length := u16 (self.payload_length.val + field.get_length.val) }

/-- Source `Packet::add_field(uint8_t field_descriptor, std::vector<uint8_t> data)`. -/
def add_field_desc_data (self : Packet) (field_descriptor : Byte) (data : List Byte) : Packet :=
  let field := Field.Field_desc_data field_descriptor data
  { self with
    fields := self.fields ++ [field]
    payload_length := u16 (self.payload_length.val + field.get_length.val) }

/-- Source `Packet::clear_fields`. -/
def clear_fields (self : Packet) : Packet :=
  { self with fields := [], payload_length := 0 }

end Packet

/-! ## `comms/avl_commands.cpp` -/

def RESPONSE_PACKET_DESC : Byte := 0x00
def STATUS_PACKET_DESC : Byte := 0x01
def ACTION_PACKET_DESC : Byte := 0x02
def HELM_PACKET_DESC : Byte := 0x03
def ACOUSTIC_PING_PACKET_DESC : Byte := 0x04
def MISSION_PACKET_DESC : Byte := 0x05
def TASK_PACKET_DESC : Byte := 0x07
def PARAMETER_PACKET_DESC : Byte := 0x08
def PARAMETER_LIST_PACKET_DESC : Byte := 0x09
def COMMS_CHANNEL_DESC : Byte := 0xFE
def VEHICLE_ID_DESC : Byte := 0xFF
def ACTION_PING_DESC : Byte := 0x00
def ACTION_EMERGENCY_STOP_DESC : Byte := 0x01
def MISSION_APPEND_DESC : Byte := 0x06

/-- Source `RESPONSE_PACKET()`. -/
def RESPONSE_PACKET : Packet := Packet.Packet_default.set_descriptor RESPONSE_PACKET_DESC
/-- Source `STATUS_PACKET()`. -/
def STATUS_PACKET : Packet := Packet.Packet_default.set_descriptor STATUS_PACKET_DESC
/-- Source `ACTION_PACKET()`. -/
def ACTION_PACKET : Packet := Packet.Packet_default.set_descriptor ACTION_PACKET_DESC
/-- Source `MISSION_PACKET()`. -/
def MISSION_PACKET : Packet := Packet.Packet_default.set_descriptor MISSION_PACKET_DESC
/-- Source `TASK_PACKET()`. -/
def TASK_PACKET : Packet := Packet.Packet_default.set_descriptor TASK_PACKET_DESC
/-- Source `HELM_PACKET()`. -/
def HELM_PACKET : Packet := Packet.Packet_default.set_descriptor HELM_PACKET_DESC
/-- Source `ACOUSTIC_PING_PACKET()`. -/
def ACOUSTIC_PING_PACKET : Packet :=
  Packet.Packet_default.set_descriptor ACOUSTIC_PING_PACKET_DESC
/-- Source `PARAMETER_PACKET()`. -/
def PARAMETER_PACKET : Packet := Packet.Packet_default.set_descriptor PARAMETER_PACKET_DESC
/-- Source `PARAMETER_LIST_PACKET()`. -/
def PARAMETER_LIST_PACKET : Packet :=
  Packet.Packet_default.set_descriptor PARAMETER_LIST_PACKET_DESC

/-- Source `COMMS_CHANNEL(channel)`. -/
def COMMS_CHANNEL (channel : Byte) : Field := Field.Field_desc_data COMMS_CHANNEL_DESC [channel]

/-- Source `VEHICLE_ID(id)`. -/
def VEHICLE_ID (id : Byte) : Field := Field.Field_desc_data VEHICLE_ID_DESC [id]

/-- Source `ACTION_PING()`. -/
def ACTION_PING : Field := Field.Field_desc ACTION_PING_DESC

/-- Source `ACTION_EMERGENCY_STOP()`. -/
def ACTION_EMERGENCY_STOP : Field := Field.Field_desc ACTION_EMERGENCY_STOP_DESC

/-- Source `MISSION_APPEND(tasks)`. -/
def MISSION_APPEND (tasks : List Packet) : Field :=
  let payload := tasks.foldl (fun payload task => append payload task.get_bytes) []
  Field.Field_desc_data MISSION_APPEND_DESC payload

/-! ## Operation sequences

The states a caller can reach through the public interface, as a start state
and a list of calls. -/

/-- One call of a mutating member function of `Field` other than
`set_bytes`. -/
inductive FieldOp
  | set_data (field_data : List Byte)
  | set_descriptor (field_descriptor : Byte)

/-- Effect of one call. -/
def FieldOp.apply (self : Field) : FieldOp → Field
  | .set_data field_data => self.set_data field_data
  | .set_descriptor field_descriptor => self.set_descriptor field_descriptor

/-- Effect of a sequence of calls, first call first. -/
def Field.run (self : Field) (ops : List FieldOp) : Field := ops.foldl FieldOp.apply self

/-- The result of one of the four constructors of `Field`. -/
def Field.Constructed (f : Field) : Prop :=
  f = Field.Field_default ∨ (∃ d, f = Field.Field_desc d) ∨
    (∃ d data, f = Field.Field_desc_data d data) ∨ ∃ b, Field.Field_bytes b = .ok f

/-- One call of a mutating member function of `Packet` other than
`set_bytes`. -/
inductive PacketOp
  | add_field_desc (field_descriptor : Byte)
  | add_field_desc_data (field_descriptor : Byte) (data : List Byte)
  | add_field (field : Field)
  | clear_fields
  | set_descriptor (packet_descriptor : Byte)

/-- Effect of one call. -/
def PacketOp.apply (self : Packet) : PacketOp → Packet
  | .add_field_desc d => self.add_field_desc d
  | .add_field_desc_data d data => self.add_field_desc_data d data
  | .add_field field => self.add_field field
  | .clear_fields => self.clear_fields
  | .set_descriptor d => self.set_descriptor d

/-- Effect of a sequence of calls, first call first. -/
def Packet.run (self : Packet) (ops : List PacketOp) : Packet := ops.foldl PacketOp.apply self

/-- The packet-type constructors of the catalog. -/
def catalog_packets : List Packet :=
  [RESPONSE_PACKET, STATUS_PACKET, ACTION_PACKET, MISSION_PACKET, TASK_PACKET, HELM_PACKET,
    ACOUSTIC_PING_PACKET, PARAMETER_PACKET, PARAMETER_LIST_PACKET]

/-- The result of `Packet()`, of a catalog packet constructor, or of a
successful `Packet(bytes)`. -/
def Packet.Constructed (p : Packet) : Prop :=
  p = Packet.Packet_default ∨ p ∈ catalog_packets ∨ ∃ b, Packet.Packet_bytes b = .ok p

/-- Sum of `get_length()` over the fields of a packet. -/
def Packet.fields_length (self : Packet) : Nat :=
  (self.fields.map fun f => f.get_length.val).sum

/-- The byte `b` with bit `k` (0 to 7) inverted. -/
def flip_bit (b : Byte) (k : Nat) : Byte := u8 (b.val ^^^ 2 ^ k)

/-! ## Field lookup in `comms/packet.cpp` -/

namespace Packet

/-- The `for (int i = 0; i < fields.size(); i++)` loop of
`Packet::get_field_index` on the fields from index `i` on. Vectors hold fewer
than `2 ^ 31` fields, so the `int` counter does not overflow. -/
def get_field_index_loop (field_descriptor : Byte) : List Field → Nat → Int
  | [], _ => -1
  | field :: rest, i =>
    if field.get_descriptor = field_descriptor then (i : Int)
    else get_field_index_loop field_descriptor rest (i + 1)

/-- Source `Packet::get_field_index`. -/
def get_field_index (self : Packet) (field_descriptor : Byte) : Int :=
  get_field_index_loop field_descriptor self.fields 0

/-- Source `Packet::has_field`. -/
def has_field (self : Packet) (field_descriptor : Byte) : Bool :=
  let idx := self.get_field_index field_descriptor
  if idx = -1 then false else true

/-- Source `Packet::get_field`. -/
def get_field (self : Packet) (field_descriptor : Byte) : Except Err Field :=
  let idx := self.get_field_index field_descriptor
  if idx = -1 then .error .field_not_found
  else vector_at self.fields idx.toNat

end Packet

/-! ## Scalar types of `util/byte.h`

The templates `from_bytes<T>`, `to_bytes<T>` and `vector_from_bytes<T>` copy
the object representation of a `T` with `memcpy`. A type enters through its
size and the two directions of that copy on a little-endian host. -/

/-- A fixed-size type `T`: `sizeof(T)`, the value whose object representation
is a given sequence of `sizeof(T)` bytes, and the object representation of a
value. -/
structure Scalar (α : Type) where
  sizeof : Nat
  sizeof_pos : 0 < sizeof
  from_memory : List Byte → α
  to_memory : α → List Byte

/-- The copy of a value to memory and back is exact in both directions, and
fills `sizeof(T)` bytes. -/
structure Scalar.Lawful {α : Type} (T : Scalar α) : Prop where
  to_memory_length : ∀ v, (T.to_memory v).length = T.sizeof
  from_to : ∀ v, T.from_memory (T.to_memory v) = v
  to_from : ∀ m, m.length = T.sizeof → T.to_memory (T.from_memory m) = m

/-- The `i`-th consecutive `sizeof(T)`-byte chunk of a byte sequence. -/
def chunk {α : Type} (T : Scalar α) (bytes : List Byte) (i : Nat) : List Byte :=
  (bytes.drop (i * T.sizeof)).take T.sizeof

/-- Source `avl::from_bytes<T>(bytes, reverse)`. -/
def from_bytes {α : Type} (T : Scalar α) (bytes : List Byte) (reverse : Bool) : Except Err α :=
  if bytes.length ≠ T.sizeof then .error .from_bytes_size
  else
    let bytes := if reverse then bytes.reverse else bytes
    .ok (T.from_memory bytes)

/-- Source `avl::to_bytes<T>(var, reverse)`. -/
def to_bytes {α : Type} (T : Scalar α) (var : α) (reverse : Bool) : List Byte :=
  let bytes := T.to_memory var
  if reverse then bytes.reverse else bytes

/-- The `for (size_t i = 0; i < bytes.size(); i += sizeof(T))` loop of
`avl::vector_from_bytes<T>`; the first argument bounds the number of
iterations. -/
def vector_from_bytes_loop {α : Type} (T : Scalar α) (bytes : List Byte) :
    Nat → Nat → List α → Except Err (List α)
  | 0, i, data_vect => if i < bytes.length then .error .out_of_fuel else .ok data_vect
  | fuel + 1, i, data_vect =>
    if i < bytes.length then do
      let chunk ← subvector bytes i T.sizeof
      let value ← from_bytes T chunk false
      vector_from_bytes_loop T bytes fuel (i + T.sizeof) (data_vect ++ [value])
    else .ok data_vect

/-- Source `avl::vector_from_bytes<T>(bytes, reverse)`. -/
def vector_from_bytes {α : Type} (T : Scalar α) (bytes : List Byte) (reverse : Bool) :
    Except Err (List α) :=
  if bytes.length % T.sizeof ≠ 0 then .error .from_bytes_size
  else
    let bytes := if reverse then bytes.reverse else bytes
    vector_from_bytes_loop T bytes bytes.length 0 []

/-- The type `uint8_t`. -/
def uint8_t : Scalar Byte :=
  { sizeof := 1, sizeof_pos := by decide, from_memory := fun m => m.getD 0 0,
    to_memory := fun v => [v] }

/-- The type `uint16_t`. -/
def uint16_t : Scalar U16 :=
  { sizeof := 2
    sizeof_pos := by decide
    from_memory := fun m => u16 ((m.getD 0 0).val + 256 * (m.getD 1 0).val)
    to_memory := fun v => [u8 v.val, u8 (v.val / 256)] }

/-- The type `bool`: one byte, `false` is 0 and `true` is 1; a byte other
than 0 reads as `true`. -/
def bool_t : Scalar Bool :=
  { sizeof := 1
    sizeof_pos := by decide
    from_memory := fun m => decide (m.getD 0 0 ≠ 0)
    to_memory := fun v => [if v then 1 else 0] }

/-- A `double`, as the 64 bits of its IEEE 754 representation. -/
abbrev F64 := Fin 18446744073709551616

/-- Byte `k` (0 is the lowest) of a 64-bit pattern. -/
def F64.byte (d : F64) (k : Nat) : Byte := u8 (d.val / 256 ^ k)

/-- The 64-bit pattern with the given bytes, lowest first. -/
def F64.of_memory (m : List Byte) : F64 :=
  ⟨((m.getD 0 0).val + 256 * (m.getD 1 0).val + 256 ^ 2 * (m.getD 2 0).val +
      256 ^ 3 * (m.getD 3 0).val + 256 ^ 4 * (m.getD 4 0).val + 256 ^ 5 * (m.getD 5 0).val +
      256 ^ 6 * (m.getD 6 0).val + 256 ^ 7 * (m.getD 7 0).val) % 18446744073709551616,
    Nat.mod_lt _ (by decide)⟩

/-- The type `double`. -/
def double_t : Scalar F64 :=
  { sizeof := 8
    sizeof_pos := by decide
    from_memory := F64.of_memory
    to_memory := fun d => [d.byte 0, d.byte 1, d.byte 2, d.byte 3, d.byte 4, d.byte 5,
      d.byte 6, d.byte 7] }

/-- The value of `std::nan("")`: the quiet NaN with a clear sign and a zero
payload. -/
def NAN : F64 := 0x7FF8000000000000

/-- Whether a `double` is a NaN: exponent bits all set, fraction not zero. -/
def F64.is_nan (d : F64) : Bool :=
  d.val / 4503599627370496 % 2048 == 2047 && d.val % 4503599627370496 != 0

/-- Conversion of a `double` to `int` (and from there to an enumeration or
integer type): the value is truncated toward zero; the behaviour is undefined
for infinities, NaNs and values that do not fit an `int`. -/
def double_to_int (d : F64) : Except Err Int :=
  let sign := d.val / 9223372036854775808
  let exponent := d.val / 4503599627370496 % 2048
  let fraction := d.val % 4503599627370496
  if exponent = 2047 then .error .undefined_behaviour
  else
    let magnitude : Nat :=
      if exponent = 0 then 0
      else if 1075 ≤ exponent then (4503599627370496 + fraction) * 2 ^ (exponent - 1075)
      else (4503599627370496 + fraction) / 2 ^ (1075 - exponent)
    let value : Int := if sign = 1 then -(magnitude : Int) else (magnitude : Int)
    if -2147483648 ≤ value ∧ value ≤ 2147483647 then .ok value
    else .error .undefined_behaviour

/-- Index of the highest set bit of `n`, searched over `fuel` halvings. -/
def highest_bit : Nat → Nat → Nat
  | 0, _ => 0
  | fuel + 1, n => if 2 ≤ n then highest_bit fuel (n / 2) + 1 else 0

/-- Conversion of an `int` (an enumeration value) to `double`; exact, since
every `int` has fewer than 53 significant bits. -/
def int_to_double (n : Int) : F64 :=
  if n = 0 then 0
  else
    let sign := if n < 0 then 1 else 0
    let k := highest_bit 32 n.natAbs
    let fraction := n.natAbs * 2 ^ (52 - k) - 4503599627370496
    ⟨(sign * 9223372036854775808 + (1023 + k) * 4503599627370496 + fraction) %
        18446744073709551616, Nat.mod_lt _ (by decide)⟩

/-! ## STATUS and TASK fields of `comms/avl_commands.cpp` -/

def STATUS_MODE_DESC : Byte := 0x00
def STATUS_OPERATIONAL_STATUS_DESC : Byte := 0x01
def STATUS_ATTITUDE_DESC : Byte := 0x02
def STATUS_VELOCITY_DESC : Byte := 0x03
def STATUS_POSITION_DESC : Byte := 0x04
def STATUS_DEPTH_DESC : Byte := 0x05
def STATUS_HEIGHT_DESC : Byte := 0x06
def STATUS_RPM_DESC : Byte := 0x07
def STATUS_VOLTAGE_DESC : Byte := 0x08
def STATUS_MAG_FLUX_DESC : Byte := 0x09
def STATUS_UMODEM_SYNCED_DESC : Byte := 0x0A
def STATUS_GPS_SATS_DESC : Byte := 0x0B
def STATUS_IRIDIUM_STRENGTH_DESC : Byte := 0x0C
def STATUS_TASK_DESC : Byte := 0x0D
def TASK_DURATION_DESC : Byte := 0x00
def TASK_TYPE_DESC : Byte := 0x01
def TASK_ATTITUDE_DESC : Byte := 0x02
def TASK_VELOCITY_DESC : Byte := 0x03
def TASK_DEPTH_DESC : Byte := 0x04
def TASK_HEIGHT_DESC : Byte := 0x05
def TASK_RPM_DESC : Byte := 0x06
def TASK_DIVE_DESC : Byte := 0x07
def TASK_POINTS_DESC : Byte := 0x08
def TASK_COMMAND_DESC : Byte := 0x09
def COMMS_CHANNEL_RADIO : Byte := 0x00
def COMMS_CHANNEL_ACOMMS : Byte := 0x01
def COMMS_CHANNEL_IRIDIUM : Byte := 0x02

/-- The payload of a field of three doubles: `to_bytes(a)`, then
`to_bytes(b)` and `to_bytes(c)` appended. -/
def three_doubles (a b c : F64) : List Byte :=
  let payload := to_bytes double_t a false
  let payload := append payload (to_bytes double_t b false)
  let payload := append payload (to_bytes double_t c false)
  payload

/-- Source `STATUS_MODE(mode)`; a `std::string` is its sequence of bytes. -/
def STATUS_MODE (mode : List Byte) : Field := Field.Field_desc_data STATUS_MODE_DESC mode

/-- Source `STATUS_OPERATIONAL_STATUS(operational_status)`. -/
def STATUS_OPERATIONAL_STATUS (operational_status : List Byte) : Field :=
  Field.Field_desc_data STATUS_OPERATIONAL_STATUS_DESC operational_status

/-- Source `STATUS_ATTITUDE(roll, pitch, yaw)`. -/
def STATUS_ATTITUDE (roll pitch yaw : F64) : Field :=
  Field.Field_desc_data STATUS_ATTITUDE_DESC (three_doubles roll pitch yaw)

/-- Source `STATUS_VELOCITY(vx, vy, vz)`. -/
def STATUS_VELOCITY (vx vy vz : F64) : Field :=
  Field.Field_desc_data STATUS_VELOCITY_DESC (three_doubles vx vy vz)

/-- Source `STATUS_POSITION(lat, lon, alt)`. -/
def STATUS_POSITION (lat lon alt : F64) : Field :=
  Field.Field_desc_data STATUS_POSITION_DESC (three_doubles lat lon alt)

/-- Source `STATUS_DEPTH(depth)`. -/
def STATUS_DEPTH (depth : F64) : Field :=
  Field.Field_desc_data STATUS_DEPTH_DESC (to_bytes double_t depth false)

/-- Source `STATUS_HEIGHT(height)`. -/
def STATUS_HEIGHT (height : F64) : Field :=
  Field.Field_desc_data STATUS_HEIGHT_DESC (to_bytes double_t height false)

/-- Source `STATUS_RPM(rpm)`. -/
def STATUS_RPM (rpm : F64) : Field :=
  Field.Field_desc_data STATUS_RPM_DESC (to_bytes double_t rpm false)

/-- Source `STATUS_VOLTAGE(voltage)`. -/
def STATUS_VOLTAGE (voltage : F64) : Field :=
  Field.Field_desc_data STATUS_VOLTAGE_DESC (to_bytes double_t voltage false)

/-- Source `STATUS_MAG_FLUX(mx, my, mz)`. -/
def STATUS_MAG_FLUX (mx my mz : F64) : Field :=
  Field.Field_desc_data STATUS_MAG_FLUX_DESC (three_doubles mx my mz)

/-- Source `STATUS_UMODEM_SYNCED(synced)`. -/
def STATUS_UMODEM_SYNCED (synced : Bool) : Field :=
  Field.Field_desc_data STATUS_UMODEM_SYNCED_DESC (to_bytes bool_t synced false)

/-- Source `STATUS_GPS_SATS(num_sats)`. -/
def STATUS_GPS_SATS (num_sats : Byte) : Field :=
  Field.Field_desc_data STATUS_GPS_SATS_DESC [num_sats]

/-- Source `STATUS_IRIDIUM_STRENGTH(strength)`. -/
def STATUS_IRIDIUM_STRENGTH (strength : Byte) : Field :=
  Field.Field_desc_data STATUS_IRIDIUM_STRENGTH_DESC [strength]

/-- Source `STATUS_TASK(task_num, num_tasks, percent)`; the source passes
`STATUS_IRIDIUM_STRENGTH_DESC` to the field constructor. -/
def STATUS_TASK (task_num num_tasks : Byte) (percent : F64) : Field :=
  let payload := [task_num, num_tasks]
  let payload := append payload (to_bytes double_t percent false)
  Field.Field_desc_data STATUS_IRIDIUM_STRENGTH_DESC payload

/-- Source `TASK_DURATION(duration)`. -/
def TASK_DURATION (duration : F64) : Field :=
  Field.Field_desc_data TASK_DURATION_DESC (to_bytes double_t duration false)

/-- Source `TASK_TYPE(type)`. -/
def TASK_TYPE (type : Byte) : Field :=
  Field.Field_desc_data TASK_TYPE_DESC (to_bytes uint8_t type false)

/-- Source `TASK_ATTITUDE(roll, pitch, yaw)`. -/
def TASK_ATTITUDE (roll pitch yaw : F64) : Field :=
  Field.Field_desc_data TASK_ATTITUDE_DESC (three_doubles roll pitch yaw)

/-- Source `TASK_VELOCITY(vx, vy, vz)`. -/
def TASK_VELOCITY (vx vy vz : F64) : Field :=
  Field.Field_desc_data TASK_VELOCITY_DESC (three_doubles vx vy vz)

/-- Source `TASK_DEPTH(depth)`. -/
def TASK_DEPTH (depth : F64) : Field :=
  Field.Field_desc_data TASK_DEPTH_DESC (to_bytes double_t depth false)

/-- Source `TASK_HEIGHT(height)`. -/
def TASK_HEIGHT (height : F64) : Field :=
  Field.Field_desc_data TASK_HEIGHT_DESC (to_bytes double_t height false)

/-- Source `TASK_RPM(rpm)`. -/
def TASK_RPM (rpm : F64) : Field :=
  Field.Field_desc_data TASK_RPM_DESC (to_bytes double_t rpm false)

/-- Source `TASK_DIVE(dive)`. -/
def TASK_DIVE (dive : Bool) : Field :=
  Field.Field_desc_data TASK_DIVE_DESC (to_bytes bool_t dive false)

/-- Source `TASK_POINTS(points)`. -/
def TASK_POINTS (points : List F64) : Field :=
  let payload := points.foldl (fun payload point => append payload (to_bytes double_t point false)) []
  Field.Field_desc_data TASK_POINTS_DESC payload

/-- Source `TASK_COMMAND(command)`. -/
def TASK_COMMAND (command : Byte) : Field :=
  Field.Field_desc_data TASK_COMMAND_DESC (to_bytes uint8_t command false)

/-! ## `task.cpp` -/

/-- A `QPointF`: two `double` coordinates. -/
structure QPointF where
  x : F64
  y : F64
  deriving DecidableEq, Repr

/-- The data members of `Task`. The enumerations `TaskType::Value` and
`ActionType::Value` are their integer values. -/
structure Task where
  m_duration : F64 := NAN
  m_roll : F64 := NAN
  m_pitch : F64 := NAN
  m_yaw : F64 := NAN
  m_vx : F64 := NAN
  m_vy : F64 := NAN
  m_vz : F64 := NAN
  m_depth : F64 := NAN
  m_height : F64 := NAN
  m_rpm : F64 := NAN
  m_swath : F64 := 0x4024000000000000
  m_angle : F64 := 0
  m_dive : Bool := false
  type : Int := 0x00
  action : Int := 0x15
  points : List (QPointF × Int) := []
  deriving DecidableEq, Repr

/-- Conversion `static_cast<uint8_t>` of an enumeration value. -/
def uint8_of_int (n : Int) : Byte := u8 (n % 256).toNat

namespace Task

/-- The loop of `Task::get_packet` that flattens the points. -/
def points_vect (points : List (QPointF × Int)) : List F64 :=
  points.foldl
    (fun points_vect point =>
      points_vect ++ [point.1.y] ++ [point.1.x] ++ [NAN] ++ [int_to_double point.2])
    []

/-- Source `Task::get_packet`. -/
def get_packet (self : Task) : Packet :=
  let points_vect := points_vect self.points
  let task_packet := TASK_PACKET
  let task_packet := task_packet.add_field (TASK_DURATION self.m_duration)
  let task_packet := task_packet.add_field (TASK_TYPE (uint8_of_int self.type))
  let task_packet := task_packet.add_field (TASK_ATTITUDE self.m_roll self.m_pitch self.m_yaw)
  let task_packet := task_packet.add_field (TASK_VELOCITY self.m_vx self.m_vy self.m_vz)
  let task_packet := task_packet.add_field (TASK_DEPTH self.m_depth)
  let task_packet := task_packet.add_field (TASK_HEIGHT self.m_height)
  let task_packet := task_packet.add_field (TASK_RPM self.m_rpm)
  let task_packet := task_packet.add_field (TASK_DIVE self.m_dive)
  let task_packet := task_packet.add_field (TASK_POINTS points_vect)
  let task_packet := task_packet.add_field (TASK_COMMAND (uint8_of_int self.action))
  task_packet

/-- Source `Task::add_point`. -/
def add_point (self : Task) (new_point : QPointF) (command : Int) : Task :=
  { self with points := self.points ++ [(new_point, command)] }

/-- The read `task_points[i]` of `std::vector::operator[]`, which does not
check the index. -/
def vector_index {α : Type} (vect : List α) (i : Nat) : Except Err α :=
  match vect.get? i with
  | some x => .ok x
  | none => .error .undefined_behaviour

/-- The `for (size_t i = 0; i < task_points.size(); i = i+3)` loop of
`Task::packet_to_task`; the first argument bounds the number of iterations. -/
def add_points_loop (task_points : List F64) : Nat → Nat → Task → Except Err Task
  | 0, i, task => if i < task_points.length then .error .out_of_fuel else .ok task
  | fuel + 1, i, task =>
    if i < task_points.length then do
      let x ← vector_index task_points (i + 1)
      let y ← vector_index task_points i
      let command_value ← vector_index task_points (i + 2)
      let command ← double_to_int command_value
      add_points_loop task_points fuel (i + 3) (task.add_point { x := x, y := y } command)
    else .ok task

/-- The `if (task_packet.has_field(TASK_DURATION_DESC))` statement of
`Task::packet_to_task`. -/
def decode_duration (task_packet : Packet) (task : Task) : Except Err Task := do
  if task_packet.has_field TASK_DURATION_DESC then
    let field ← task_packet.get_field TASK_DURATION_DESC
    let duration ← from_bytes double_t field.get_data false
    pure { task with m_duration := duration }
  else pure task

/-- The `if (task_packet.has_field(TASK_TYPE_DESC))` statement; `set_type`
takes the `uint8_t` as an `int`. -/
def decode_type (task_packet : Packet) (task : Task) : Except Err Task := do
  if task_packet.has_field TASK_TYPE_DESC then
    let field ← task_packet.get_field TASK_TYPE_DESC
    let new_type ← from_bytes uint8_t field.get_data false
    pure { task with type := (new_type.val : Int) }
  else pure task

/-- The `if (task_packet.has_field(TASK_ATTITUDE_DESC))` statement. -/
def decode_attitude (task_packet : Packet) (task : Task) : Except Err Task := do
  if task_packet.has_field TASK_ATTITUDE_DESC then
    let field ← task_packet.get_field TASK_ATTITUDE_DESC
    let attitude_data := field.get_data
    let roll ← from_bytes double_t (← subvector attitude_data 0 8) false
    let pitch ← from_bytes double_t (← subvector attitude_data 8 8) false
    let yaw ← from_bytes double_t (← subvector attitude_data 16 8) false
    pure { task with m_roll := roll, m_pitch := pitch, m_yaw := yaw }
  else pure task

/-- The `if (task_packet.has_field(TASK_VELOCITY_DESC))` statement. -/
def decode_velocity (task_packet : Packet) (task : Task) : Except Err Task := do
  if task_packet.has_field TASK_VELOCITY_DESC then
    let field ← task_packet.get_field TASK_VELOCITY_DESC
    let velocity_data := field.get_data
    let vx ← from_bytes double_t (← subvector velocity_data 0 8) false
    let vy ← from_bytes double_t (← subvector velocity_data 8 8) false
    let vz ← from_bytes double_t (← subvector velocity_data 16 8) false
    pure { task with m_vx := vx, m_vy := vy, m_vz := vz }
  else pure task

/-- The `if (task_packet.has_field(TASK_DEPTH_DESC))` statement. -/
def decode_depth (task_packet : Packet) (task : Task) : Except Err Task := do
  if task_packet.has_field TASK_DEPTH_DESC then
    let field ← task_packet.get_field TASK_DEPTH_DESC
    let depth ← from_bytes double_t field.get_data false
    pure { task with m_depth := depth }
  else pure task

/-- The `if (task_packet.has_field(TASK_HEIGHT_DESC))` statement. -/
def decode_height (task_packet : Packet) (task : Task) : Except Err Task := do
  if task_packet.has_field TASK_HEIGHT_DESC then
    let field ← task_packet.get_field TASK_HEIGHT_DESC
    let height ← from_bytes double_t field.get_data false
    pure { task with m_height := height }
  else pure task

/-- The `if (task_packet.has_field(TASK_RPM_DESC))` statement. -/
def decode_rpm (task_packet : Packet) (task : Task) : Except Err Task := do
  if task_packet.has_field TASK_RPM_DESC then
    let field ← task_packet.get_field TASK_RPM_DESC
    let rpm ← from_bytes double_t field.get_data false
    pure { task with m_rpm := rpm }
  else pure task

/-- The `if (task_packet.has_field(TASK_DIVE_DESC))` statement. -/
def decode_dive (task_packet : Packet) (task : Task) : Except Err Task := do
  if task_packet.has_field TASK_DIVE_DESC then
    let field ← task_packet.get_field TASK_DIVE_DESC
    let dive ← from_bytes bool_t field.get_data false
    pure { task with m_dive := dive }
  else pure task

/-- The `if (task_packet.has_field(TASK_POINTS_DESC))` statement. -/
def decode_points (task_packet : Packet) (task : Task) : Except Err Task := do
  if task_packet.has_field TASK_POINTS_DESC then
    let field ← task_packet.get_field TASK_POINTS_DESC
    let task_points ← vector_from_bytes double_t field.get_data false
    add_points_loop task_points task_points.length 0 task
  else pure task

/-- The `if (task_packet.has_field(TASK_COMMAND_DESC))` statement;
`set_command` takes the `double` as an `int`. -/
def decode_command (task_packet : Packet) (task : Task) : Except Err Task := do
  if task_packet.has_field TASK_COMMAND_DESC then
    let field ← task_packet.get_field TASK_COMMAND_DESC
    let command_value ← from_bytes double_t field.get_data false
    let new_command ← double_to_int command_value
    pure { task with action := new_command }
  else pure task

/-- Source `Task::packet_to_task`: the ten `if` statements in their order, on
a default-constructed `Task`; an exception thrown by one of them leaves the
function. -/
def packet_to_task (task_packet : Packet) : Except Err Task := do
  let task : Task := {}
  let task ← decode_duration task_packet task
  let task ← decode_type task_packet task
  let task ← decode_attitude task_packet task
  let task ← decode_velocity task_packet task
  let task ← decode_depth task_packet task
  let task ← decode_height task_packet task
  let task ← decode_rpm task_packet task
  let task ← decode_dive task_packet task
  let task ← decode_points task_packet task
  let task ← decode_command task_packet task
  return task

end Task

/-- The packet `p` without its fields of descriptor `d`; the payload length
is the total of the remaining field lengths. -/
def Packet.without_field (p : Packet) (d : Byte) : Packet :=
  let fields := p.fields.filter fun f => f.get_descriptor ≠ d
  { p with fields := fields, payload_length := u16 (fields.map fun f => f.get_length.val).sum }

/-! ## `vehicle_status.cpp` -/

/-- The data members of `VehicleStatus` with their default member
initialisers. The `QString` members `mode` and `operational_status` are the
`std::string` they are converted from, as bytes (`"NONE"` by default). -/
structure VehicleStatus where
  comms_channel : String := "RADIO"
  vehicle_id : Int := 0
  mode : List Byte := [0x4E, 0x4F, 0x4E, 0x45]
  operational_status : List Byte := [0x4E, 0x4F, 0x4E, 0x45]
  whoi_synced : Bool := false
  roll : F64 := NAN
  pitch : F64 := NAN
  yaw : F64 := NAN
  vx : F64 := NAN
  vy : F64 := NAN
  vz : F64 := NAN
  lat : F64 := NAN
  lon : F64 := NAN
  alt : F64 := NAN
  depth : F64 := NAN
  height : F64 := NAN
  rpm : F64 := NAN
  voltage : F64 := NAN
  num_gps_sats : Int := 0
  iridium_strength : Int := 0
  current_task : Int := 0
  total_tasks : Int := 0
  task_percent : F64 := 0
  deriving DecidableEq, Repr

/-- Statements that assign to the members of a `VehicleStatus` under
construction and may throw: the members keep what was assigned before the
throw. -/
abbrev Decode := ExceptT Err (StateM VehicleStatus)

/-- A call that may throw, inside the constructor. -/
def Decode.call {α : Type} (x : Except Err α) : Decode α :=
  match x with
  | .ok a => pure a
  | .error e => throw e

namespace VehicleStatus

/-- The `try` block of `VehicleStatus::VehicleStatus(avl::Packet packet)`. -/
def try_block (packet : Packet) : Decode Unit := do
  if packet.has_field COMMS_CHANNEL_DESC then
    let field ← Decode.call (packet.get_field COMMS_CHANNEL_DESC)
    let field_data := field.get_data
    let channel ← Decode.call (vector_at field_data 0)
    if channel = COMMS_CHANNEL_RADIO then
      modify fun s => { s with comms_channel := "RADIO" }
    else if channel = COMMS_CHANNEL_ACOMMS then
      modify fun s => { s with comms_channel := "ACOMMS" }
    else if channel = COMMS_CHANNEL_IRIDIUM then
      modify fun s => { s with comms_channel := "IRIDIUM" }
    else
      modify fun s => { s with comms_channel := "UNKNOWN" }
  if packet.has_field VEHICLE_ID_DESC then
    let field ← Decode.call (packet.get_field VEHICLE_ID_DESC)
    let field_data := field.get_data
    let id ← Decode.call (vector_at field_data 0)
    modify fun s => { s with vehicle_id := (id.val : Int) }
  if packet.has_field STATUS_MODE_DESC then
    let field ← Decode.call (packet.get_field STATUS_MODE_DESC)
    let field_data := field.get_data
    modify fun s => { s with mode := field_data }
  if packet.has_field STATUS_OPERATIONAL_STATUS_DESC then
    let field ← Decode.call (packet.get_field STATUS_OPERATIONAL_STATUS_DESC)
    let field_data := field.get_data
    modify fun s => { s with operational_status := field_data }
  if packet.has_field STATUS_UMODEM_SYNCED_DESC then
    let field ← Decode.call (packet.get_field STATUS_UMODEM_SYNCED_DESC)
    let field_data := field.get_data
    let synced ← Decode.call (vector_at field_data 0)
    modify fun s => { s with whoi_synced := decide (synced ≠ 0) }
  if packet.has_field STATUS_ATTITUDE_DESC then
    let field ← Decode.call (packet.get_field STATUS_ATTITUDE_DESC)
    let field_data := field.get_data
    let roll ← Decode.call (do from_bytes double_t (← subvector field_data 0 8) false)
    modify fun s => { s with roll := roll }
    let pitch ← Decode.call (do from_bytes double_t (← subvector field_data 8 8) false)
    modify fun s => { s with pitch := pitch }
    let yaw ← Decode.call (do from_bytes double_t (← subvector field_data 16 8) false)
    modify fun s => { s with yaw := yaw }
  if packet.has_field STATUS_VELOCITY_DESC then
    let field ← Decode.call (packet.get_field STATUS_VELOCITY_DESC)
    let field_data := field.get_data
    let vx ← Decode.call (do from_bytes double_t (← subvector field_data 0 8) false)
    modify fun s => { s with vx := vx }
    let vy ← Decode.call (do from_bytes double_t (← subvector field_data 8 8) false)
    modify fun s => { s with vy := vy }
    let vz ← Decode.call (do from_bytes double_t (← subvector field_data 16 8) false)
    modify fun s => { s with vz := vz }
  if packet.has_field STATUS_POSITION_DESC then
    let field ← Decode.call (packet.get_field STATUS_POSITION_DESC)
    let field_data := field.get_data
    let lat ← Decode.call (do from_bytes double_t (← subvector field_data 0 8) false)
    modify fun s => { s with lat := lat }
    let lon ← Decode.call (do from_bytes double_t (← subvector field_data 8 8) false)
    modify fun s => { s with lon := lon }
    let alt ← Decode.call (do from_bytes double_t (← subvector field_data 16 8) false)
    modify fun s => { s with alt := alt }
  if packet.has_field STATUS_DEPTH_DESC then
    let field ← Decode.call (packet.get_field STATUS_DEPTH_DESC)
    let field_data := field.get_data
    let depth ← Decode.call (from_bytes double_t field_data false)
    modify fun s => { s with depth := depth }
  if packet.has_field STATUS_HEIGHT_DESC then
    let field ← Decode.call (packet.get_field STATUS_HEIGHT_DESC)
    let field_data := field.get_data
    let height ← Decode.call (from_bytes double_t field_data false)
    modify fun s => { s with height := height }
  if packet.has_field STATUS_RPM_DESC then
    let field ← Decode.call (packet.get_field STATUS_RPM_DESC)
    let field_data := field.get_data
    let rpm ← Decode.call (from_bytes double_t field_data false)
    modify fun s => { s with rpm := rpm }
  if packet.has_field STATUS_VOLTAGE_DESC then
    let field ← Decode.call (packet.get_field STATUS_VOLTAGE_DESC)
    let field_data := field.get_data
    let voltage ← Decode.call (from_bytes double_t field_data false)
    modify fun s => { s with voltage := voltage }
  if packet.has_field STATUS_GPS_SATS_DESC then
    let field ← Decode.call (packet.get_field STATUS_GPS_SATS_DESC)
    let field_data := field.get_data
    let num_sats ← Decode.call (from_bytes uint8_t field_data false)
    modify fun s => { s with num_gps_sats := (num_sats.val : Int) }
  if packet.has_field STATUS_GPS_SATS_DESC then
    let field ← Decode.call (packet.get_field STATUS_IRIDIUM_STRENGTH_DESC)
    let field_data := field.get_data
    let strength ← Decode.call (from_bytes uint8_t field_data false)
    modify fun s => { s with iridium_strength := (strength.val : Int) }
  if packet.has_field STATUS_TASK_DESC then
    let field ← Decode.call (packet.get_field STATUS_TASK_DESC)
    let field_data := field.get_data
    let task_num ← Decode.call (do from_bytes uint8_t (← subvector field_data 0 1) false)
    modify fun s => { s with current_task := (task_num.val : Int) }
    let num_tasks ← Decode.call (do from_bytes uint8_t (← subvector field_data 1 1) false)
    modify fun s => { s with total_tasks := (num_tasks.val : Int) }
    let percent ← Decode.call (do from_bytes double_t (← subvector field_data 2 8) false)
    modify fun s => { s with task_percent := percent }

/-- Source `VehicleStatus::VehicleStatus(avl::Packet packet)`: the `try`
block on the default members, and the two handlers, which log and return.
The result is the constructed object; what leaves the constructor otherwise
is an outcome that is not an exception. -/
def VehicleStatus_packet (packet : Packet) : Except Err VehicleStatus :=
  match (try_block packet).run.run {} with
  | (.ok _, status) => .ok status
  | (.error e, status) => if e.is_exception then .ok status else .error e

/-- Whether the `try` block ended in one of the two handlers. -/
def hits_barrier (packet : Packet) : Bool :=
  match (try_block packet).run.run {} with
  | (.ok _, _) => false
  | (.error e, _) => e.is_exception

end VehicleStatus

/-! ## More builders of `comms/avl_commands.cpp` -/

def ACTION_SET_GEOFENCE_DESC : Byte := 0x0E
def ACOUSTIC_PING_ORIGIN_POSITION_DESC : Byte := 0x01
def PARAMETER_LIST_DESC : Byte := 0x00

/-- The `for (size_t i = 0; i < lats.size(); i++)` loop of
`ACTION_SET_GEOFENCE`, on the latitudes from index `i` on; `lons.at(i)`
throws when `lons` is shorter. -/
def geofence_loop (lons : List F64) : List F64 → Nat → List Byte → Except Err (List Byte)
  | [], _, payload => .ok payload
  | lat :: rest, i, payload => do
    let payload := append payload (to_bytes double_t lat false)
    let lon ← vector_at lons i
    let payload := append payload (to_bytes double_t lon false)
    geofence_loop lons rest (i + 1) payload

/-- Source `ACTION_SET_GEOFENCE(lats, lons)`. -/
def ACTION_SET_GEOFENCE (lats lons : List F64) : Except Err Field := do
  let payload ← geofence_loop lons lats 0 []
  pure (Field.Field_desc_data ACTION_SET_GEOFENCE_DESC payload)

/-- Source `ACOUSTIC_PING_ORIGIN_POSITION(lat, lon, alt)`; the source does
not use `alt`. -/
def ACOUSTIC_PING_ORIGIN_POSITION (lat lon _alt : F64) : Field :=
  let payload := to_bytes double_t lat false
  let payload := append payload (to_bytes double_t lon false)
  Field.Field_desc_data ACOUSTIC_PING_ORIGIN_POSITION_DESC payload

/-- Source `PARAMETER_LIST(parameters)`; the loop of the source is
`for (size_t i = 0; i < 1; i++)`, one iteration with `i = 0`, and
`parameters.at(0)` throws on an empty vector. -/
def PARAMETER_LIST (parameters : List Packet) : Except Err Field := do
  let payload : List Byte := []
  let parameter ← vector_at parameters 0
  let payload := append payload parameter.get_bytes
  pure (Field.Field_desc_data PARAMETER_LIST_DESC payload)

/-- The latitudes and longitudes in the order `lat0, lon0, lat1, lon1, ...`. -/
def interleave (lats lons : List F64) : List F64 :=
  (lats.zip lons).flatMap fun p => [p.1, p.2]

/-! ## `action_type.h` -/

/-- The enumeration `ActionType::Value`. -/
inductive ActionType
  | ACTION_PING
  | ACTION_EMERGENCY_STOP
  | ACTION_POWER_CYCLE
  | ACTION_RESTART_ROS
  | ACTION_RESET_SAFETY
  | ACTION_SET_MODE
  | ACTION_ENABLE_MAG_STREAM
  | ACTION_DISABLE_MAG_STREAM
  | ACTION_TARE_PRESSURE
  | ACTION_START_LBL_PINGS
  | ACTION_START_OWTT_PINGS
  | ACTION_STOP_ACOUSTIC_PINGS
  | ACTION_ENABLE_BACK_SEAT_DRIVER
  | ACTION_DISABLE_BACK_SEAT_DRIVER
  | ACTION_SET_GEOFENCE
  | ACTION_ENABLE_STROBE
  | ACTION_DISABLE_STROBE
  | ACTION_ENABLE_SONAR
  | ACTION_DISABLE_SONAR
  | ACTION_START_SONAR_RECORDING
  | ACTION_STOP_SONAR_RECORDING
  | ACTION_NO_ACTION
  deriving DecidableEq, Repr, Fintype

namespace ActionType

/-- Source `ActionType::to_string`. -/
def to_string : ActionType → String
  | ACTION_PING => "Ping"
  | ACTION_EMERGENCY_STOP => "Emergency Stop"
  | ACTION_POWER_CYCLE => "Power Cycle"
  | ACTION_RESTART_ROS => "Restart ROS"
  | ACTION_RESET_SAFETY => "Reset Safety Node"
  | ACTION_SET_MODE => "Set Mode"
  | ACTION_ENABLE_MAG_STREAM => "Enable Magnetometer Stream"
  | ACTION_DISABLE_MAG_STREAM => "Disable Magnetometer Stream"
  | ACTION_TARE_PRESSURE => "Zero Pressure Sensor"
  | ACTION_START_LBL_PINGS => "Start LBL Pings"
  | ACTION_START_OWTT_PINGS => "Start OWTT Pings"
  | ACTION_STOP_ACOUSTIC_PINGS => "Stop Acoustic Pings"
  | ACTION_SET_GEOFENCE => "Set Geofence"
  | ACTION_ENABLE_STROBE => "Enable Strobe"
  | ACTION_DISABLE_STROBE => "Disable Strobe"
  | ACTION_ENABLE_BACK_SEAT_DRIVER => "Enable Back Seat Driver"
  | ACTION_DISABLE_BACK_SEAT_DRIVER => "Disable Back Steat Driver"
  | ACTION_ENABLE_SONAR => "Enable Sonar"
  | ACTION_DISABLE_SONAR => "Disable Sonar"
  | ACTION_START_SONAR_RECORDING => "Start Sonar Recording"
  | ACTION_STOP_SONAR_RECORDING => "Stop Sonar Recording"
  | ACTION_NO_ACTION => "No Command"

/-- Source `ActionType::from_string`. -/
def from_string (type : String) : ActionType :=
  if type = "No Command" then ACTION_NO_ACTION
  else if type = "Ping" then ACTION_PING
  else if type = "Emergency Stop" then ACTION_EMERGENCY_STOP
  else if type = "Power Cycle" then ACTION_POWER_CYCLE
  else if type = "Restart ROS" then ACTION_RESTART_ROS
  else if type = "Reset Safety Node" then ACTION_RESET_SAFETY
  else if type = "Set Mode" then ACTION_SET_MODE
  else if type = "Enable Magnetometer Stream" then ACTION_ENABLE_MAG_STREAM
  else if type = "Disable Magnetometer Stream" then ACTION_DISABLE_MAG_STREAM
  else if type = "Zero Pressure Sensor" then ACTION_TARE_PRESSURE
  else if type = "Start LBL Pings" then ACTION_START_LBL_PINGS
  else if type = "Start OWTT Pings" then ACTION_START_OWTT_PINGS
  else if type = "Stop Acoustic Pings" then ACTION_STOP_ACOUSTIC_PINGS
  else if type = "Set Geofence" then ACTION_SET_GEOFENCE
  else if type = "Enable Strobe" then ACTION_ENABLE_STROBE
  else if type = "Disable Strobe" then ACTION_DISABLE_STROBE
  else if type = "Enable Back Seat Driver" then ACTION_ENABLE_BACK_SEAT_DRIVER
  else if type = "Disable Back Seat Driver" then ACTION_DISABLE_BACK_SEAT_DRIVER
  else if type = "Enable Sonar" then ACTION_ENABLE_SONAR
  else if type = "Disable Sonar" then ACTION_DISABLE_SONAR
  else if type = "Start Sonar Recording" then ACTION_START_SONAR_RECORDING
  else ACTION_STOP_SONAR_RECORDING

end ActionType

/-- A value a caller can hold in a `Field` variable: the result of a
constructor followed by any `set_data` and `set_descriptor` calls. -/
def Field.Reachable (f : Field) : Prop :=
  ∃ (f0 : Field) (ops : List FieldOp), f0.Constructed ∧ f = f0.run ops

/-- The calls that are one of the three `add_field` overloads, with a
reachable argument for `add_field(Field)`. -/
def PacketOp.AddsField : PacketOp → Prop
  | .add_field_desc _ => True
  | .add_field_desc_data _ _ => True
  | .add_field field => field.Reachable
  | .clear_fields => False
  | .set_descriptor _ => False

/-- A packet built by `add_field` calls from `Packet()` or a catalog packet
constructor. -/
def Packet.Built (p : Packet) : Prop :=
  ∃ (p0 : Packet) (ops : List PacketOp),
    (p0 = Packet.Packet_default ∨ p0 ∈ catalog_packets) ∧
      (∀ op ∈ ops, op.AddsField) ∧ p = p0.run ops

/-- The number of payload bytes the fields of a packet serialize to: the
total of `3 + len(data)` over the fields. -/
def Packet.fields_size (self : Packet) : Nat :=
  (self.fields.map fun f => 3 + f.get_data.length).sum

/-- A packet whose serialization is faithful: every field carries data and
has the length member `3 + len(data)`, and the payload length member is the
total of the field lengths. -/
def Packet.Encodable (p : Packet) : Prop :=
  (∀ f ∈ p.fields, f.data ≠ [] ∧ f.length.val = 3 + f.data.length) ∧
    p.payload_length.val = p.fields_length

/-! ## The remaining builders declared in `comms/avl_commands.h` -/

def RESPONSE_PACKET_DESCRIPTOR_DESC : Byte := 0x00
def RESPONSE_FIELD_DESCRIPTOR_DESC : Byte := 0x01
def RESPONSE_DATA_DESC : Byte := 0x02
def ACTION_POWER_CYCLE_DESC : Byte := 0x02
def ACTION_RESTART_ROS_DESC : Byte := 0x03
def ACTION_RESET_SAFETY_DESC : Byte := 0x04
def ACTION_SET_MODE_DESC : Byte := 0x05
def ACTION_SET_MAG_STREAM_DESC : Byte := 0x06
def ACTION_SET_MAG_CAL_DESC : Byte := 0x07
def ACTION_TARE_PRESSURE_DESC : Byte := 0x08
def ACTION_START_LBL_PINGS_DESC : Byte := 0x09
def ACTION_START_OWTT_PINGS_DESC : Byte := 0x0A
def ACTION_STOP_ACOUSTIC_PINGS_DESC : Byte := 0x0B
def ACTION_ENABLE_BACK_SEAT_DRIVER_DESC : Byte := 0x0C
def ACTION_DISABLE_BACK_SEAT_DRIVER_DESC : Byte := 0x0D
def ACTION_ENABLE_STROBE_DESC : Byte := 0x0F
def ACTION_DISABLE_STROBE_DESC : Byte := 0x10
def ACTION_ENABLE_SONAR_DESC : Byte := 0x11
def ACTION_DISABLE_SONAR_DESC : Byte := 0x12
def ACTION_START_SONAR_RECORDING_DESC : Byte := 0x13
def ACTION_STOP_SONAR_RECORDING_DESC : Byte := 0x14
def MISSION_START_DESC : Byte := 0x01
def MISSION_STOP_DESC : Byte := 0x02
def MISSION_CLEAR_DESC : Byte := 0x03
def MISSION_ADVANCE_DESC : Byte := 0x04
def MISSION_SET_DESC : Byte := 0x05
def MISSION_READ_CURRENT_DESC : Byte := 0x07
def MISSION_READ_ALL_DESC : Byte := 0x08
def HELM_THROTTLE_DESC : Byte := 0x00
def HELM_RUDDER_DESC : Byte := 0x01
def HELM_ELEVATOR_DESC : Byte := 0x02
def ACOUSTIC_PING_DEPARTURE_TIME_DESC : Byte := 0x00
def PARAMETER_NAME_DESC : Byte := 0x00
def PARAMETER_VALUE_DESC : Byte := 0x01
def PARAMETER_TYPE_DESC : Byte := 0x02
def PARAMETER_LIST_REQUEST_DESC : Byte := 0x01
def PARAMETER_LIST_SIZE_DESC : Byte := 0x02

/-- An `int`, as the 32 bits of its two's complement representation. -/
abbrev I32 := Fin 4294967296

/-- The type `int`. -/
def int_t : Scalar I32 :=
  { sizeof := 4
    sizeof_pos := by decide
    from_memory := fun m =>
      ⟨((m.getD 0 0).val + 256 * (m.getD 1 0).val + 256 ^ 2 * (m.getD 2 0).val +
          256 ^ 3 * (m.getD 3 0).val) % 4294967296, Nat.mod_lt _ (by decide)⟩
    to_memory := fun v =>
      [u8 v.val, u8 (v.val / 256), u8 (v.val / 256 ^ 2), u8 (v.val / 256 ^ 3)] }

/-- Source `RESPONSE_PACKET_DESCRIPTOR(packet_descriptor)`. -/
def RESPONSE_PACKET_DESCRIPTOR (packet_descriptor : Byte) : Field :=
  Field.Field_desc_data RESPONSE_PACKET_DESCRIPTOR_DESC (to_bytes uint8_t packet_descriptor false)

/-- Source `RESPONSE_FIELD_DESCRIPTOR(field_descriptor)`. -/
def RESPONSE_FIELD_DESCRIPTOR (field_descriptor : Byte) : Field :=
  Field.Field_desc_data RESPONSE_FIELD_DESCRIPTOR_DESC (to_bytes uint8_t field_descriptor false)

/-- Source `RESPONSE_DATA(data)`. -/
def RESPONSE_DATA (data : List Byte) : Field := Field.Field_desc_data RESPONSE_DATA_DESC data

/-- Source `ACTION_POWER_CYCLE()`. -/
def ACTION_POWER_CYCLE : Field := Field.Field_desc ACTION_POWER_CYCLE_DESC

/-- Source `ACTION_RESTART_ROS()`. -/
def ACTION_RESTART_ROS : Field := Field.Field_desc ACTION_RESTART_ROS_DESC

/-- Source `ACTION_RESET_SAFETY()`. -/
def ACTION_RESET_SAFETY : Field := Field.Field_desc ACTION_RESET_SAFETY_DESC

/-- Source `ACTION_SET_MODE(mode)`; a `std::string` is its sequence of bytes. -/
def ACTION_SET_MODE (mode : List Byte) : Field := Field.Field_desc_data ACTION_SET_MODE_DESC mode

/-- Source `ACTION_SET_MAG_STREAM(enable)`; the data is `{(uint8_t)enable}`. -/
def ACTION_SET_MAG_STREAM (enable : Bool) : Field :=
  Field.Field_desc_data ACTION_SET_MAG_STREAM_DESC [if enable then 1 else 0]

/-- Source `ACTION_SET_MAG_CAL(A, b)`; the loop index stays below `A.size()`,
so `A.at(i)` does not throw. -/
def ACTION_SET_MAG_CAL (A b : List F64) : Field :=
  let A := append A b
  let payload := A.foldl (fun payload a => append payload (to_bytes double_t a false)) []
  Field.Field_desc_data ACTION_SET_MAG_CAL_DESC payload

/-- Source `ACTION_TARE_PRESSURE()`. -/
def ACTION_TARE_PRESSURE : Field := Field.Field_desc ACTION_TARE_PRESSURE_DESC

/-- Source `ACTION_START_LBL_PINGS()`. -/
def ACTION_START_LBL_PINGS : Field := Field.Field_desc ACTION_START_LBL_PINGS_DESC

/-- Source `ACTION_START_OWTT_PINGS()`. -/
def ACTION_START_OWTT_PINGS : Field := Field.Field_desc ACTION_START_OWTT_PINGS_DESC

/-- Source `ACTION_STOP_ACOUSTIC_PINGS()`. -/
def ACTION_STOP_ACOUSTIC_PINGS : Field := Field.Field_desc ACTION_STOP_ACOUSTIC_PINGS_DESC

/-- Source `ACTION_ENABLE_BACK_SEAT_DRIVER()`. -/
def ACTION_ENABLE_BACK_SEAT_DRIVER : Field :=
  Field.Field_desc ACTION_ENABLE_BACK_SEAT_DRIVER_DESC

/-- Source `ACTION_DISABLE_BACK_SEAT_DRIVER()`. -/
def ACTION_DISABLE_BACK_SEAT_DRIVER : Field :=
  Field.Field_desc ACTION_DISABLE_BACK_SEAT_DRIVER_DESC

/-- Source `ACTION_ENABLE_STROBE()`. -/
def ACTION_ENABLE_STROBE : Field := Field.Field_desc ACTION_ENABLE_STROBE_DESC

/-- Source `ACTION_DISABLE_STROBE()`. -/
def ACTION_DISABLE_STROBE : Field := Field.Field_desc ACTION_DISABLE_STROBE_DESC

/-- Source `ACTION_ENABLE_SONAR()`. -/
def ACTION_ENABLE_SONAR : Field := Field.Field_desc ACTION_ENABLE_SONAR_DESC

/-- Source `ACTION_DISABLE_SONAR()`. -/
def ACTION_DISABLE_SONAR : Field := Field.Field_desc ACTION_DISABLE_SONAR_DESC

/-- Source `ACTION_START_SONAR_RECORDING()`. -/
def ACTION_START_SONAR_RECORDING : Field := Field.Field_desc ACTION_START_SONAR_RECORDING_DESC

/-- Source `ACTION_STOP_SONAR_RECORDING()`. -/
def ACTION_STOP_SONAR_RECORDING : Field := Field.Field_desc ACTION_STOP_SONAR_RECORDING_DESC

/-- Source `MISSION_START()`. -/
def MISSION_START : Field := Field.Field_desc MISSION_START_DESC

/-- Source `MISSION_STOP()`. -/
def MISSION_STOP : Field := Field.Field_desc MISSION_STOP_DESC

/-- Source `MISSION_CLEAR()`. -/
def MISSION_CLEAR : Field := Field.Field_desc MISSION_CLEAR_DESC

/-- Source `MISSION_ADVANCE()`. -/
def MISSION_ADVANCE : Field := Field.Field_desc MISSION_ADVANCE_DESC

/-- Source `MISSION_SET(task)`. -/
def MISSION_SET (task : Packet) : Field := Field.Field_desc_data MISSION_SET_DESC task.get_bytes

/-- Source `MISSION_READ_CURRENT()`. -/
def MISSION_READ_CURRENT : Field := Field.Field_desc MISSION_READ_CURRENT_DESC

/-- Source `MISSION_READ_ALL()`. -/
def MISSION_READ_ALL : Field := Field.Field_desc MISSION_READ_ALL_DESC

/-- Source `HELM_THROTTLE(percent)`. -/
def HELM_THROTTLE (percent : F64) : Field :=
  Field.Field_desc_data HELM_THROTTLE_DESC (to_bytes double_t percent false)

/-- Source `HELM_RUDDER(angle)`. -/
def HELM_RUDDER (angle : F64) : Field :=
  Field.Field_desc_data HELM_RUDDER_DESC (to_bytes double_t angle false)

/-- Source `HELM_ELEVATOR(angle)`. -/
def HELM_ELEVATOR (angle : F64) : Field :=
  Field.Field_desc_data HELM_ELEVATOR_DESC (to_bytes double_t angle false)

/-- Source `ACOUSTIC_PING_DEPARTURE_TIME(t)`. -/
def ACOUSTIC_PING_DEPARTURE_TIME (t : F64) : Field :=
  Field.Field_desc_data ACOUSTIC_PING_DEPARTURE_TIME_DESC (to_bytes double_t t false)

/-- Source `PARAMETER_NAME(name)`; a `std::string` is its sequence of bytes. -/
def PARAMETER_NAME (name : List Byte) : Field := Field.Field_desc_data PARAMETER_NAME_DESC name

/-- Source `PARAMETER_VALUE<T>(value)`, defined in the header. -/
def PARAMETER_VALUE {α : Type} (T : Scalar α) (value : α) : Field :=
  let payload := to_bytes T value false
  Field.Field_desc_data PARAMETER_VALUE_DESC payload

/-- Source `PARAMETER_VALUE(std::string value)`, defined in the header. -/
def PARAMETER_VALUE_string (value : List Byte) : Field :=
  Field.Field_desc_data PARAMETER_VALUE_DESC value

/-- Source `PARAMETER_TYPE(type)`; a `std::string` is its sequence of bytes. -/
def PARAMETER_TYPE (type : List Byte) : Field := Field.Field_desc_data PARAMETER_TYPE_DESC type

/-- Source `PARAMETER_LIST_REQUEST()`. -/
def PARAMETER_LIST_REQUEST : Field := Field.Field_desc PARAMETER_LIST_REQUEST_DESC

/-- Source `PARAMETER_LIST_SIZE(size)`. -/
def PARAMETER_LIST_SIZE (size : I32) : Field :=
  Field.Field_desc_data PARAMETER_LIST_SIZE_DESC (to_bytes int_t size false)

/-! # Theorems -/

/-! ## Basic facts -/

theorem u16_val (n : Nat) : (u16 n).val = n % 65536 := rfl

theorem u8_val (n : Nat) : (u8 n).val = n % 256 := rfl

theorem size_sub_eq (a b : Nat) (h1 : b ≤ a) : size_sub a b = a - b := by
  unfold size_sub; rw [if_pos h1]

theorem bind_ok_iff {ε α β : Type} (x : Except ε α) (f : α → Except ε β) (b : β) :
    (x >>= f) = .ok b ↔ ∃ a, x = .ok a ∧ f a = .ok b := by
  cases x <;> simp [bind, Except.bind]

theorem subvector_ok {α : Type} (vect : List α) (start num : Nat)
    (h1 : start < vect.length) (h2 : start + num ≤ vect.length) :
    subvector vect start num = .ok ((vect.drop start).take num) := by
  unfold subvector
  rw [if_neg (by omega), if_neg (by omega), if_pos h2]

theorem subvector_ok_iff {α : Type} (vect : List α) (start num : Nat) (r : List α) :
    subvector vect start num = .ok r ↔
      start < vect.length ∧ start + num ≤ vect.length ∧ r = (vect.drop start).take num := by
  unfold subvector
  split
  · simp; omega
  · split
    · simp; omega
    · split
      · simp; constructor
        · intro h; exact ⟨by omega, by omega, h.symm⟩
        · intro h; exact h.2.2.symm
      · simp; omega

theorem from_bytes_u16_pair (x y : Byte) :
    from_bytes_u16 [x, y] false = .ok (u16 (x.val + 256 * y.val)) := rfl

theorem to_bytes_u16_from (x y : Byte) :
    to_bytes_u16 (u16 (x.val + 256 * y.val)) false = [x, y] := by
  simp only [to_bytes_u16, u16_val, Bool.false_eq_true, if_false, List.cons.injEq, and_true]
  constructor <;> (apply Fin.ext; simp only [u8_val]; omega)

theorem from_bytes_u16_to (v : U16) :
    from_bytes_u16 (to_bytes_u16 v false) false = .ok v := by
  simp only [to_bytes_u16, Bool.false_eq_true, if_false, from_bytes_u16_pair]
  congr 1
  apply Fin.ext
  simp only [u16_val, u8_val]
  omega

/-! ## Fields -/

theorem Field_validate_bytes_cons (x y : Byte) (rest : List Byte) :
    Field.validate_bytes (x :: y :: rest) =
      if rest.length + 2 ≠ (x.val + 256 * y.val) % 65536 then .error .field_length
      else .ok () := by
  unfold Field.validate_bytes
  rw [subvector_ok _ _ _ (by simp) (by simp)]
  simp only [List.drop_zero, List.take_succ_cons, List.take_zero, bind, Except.bind,
    from_bytes_u16_pair, u16_val, List.length_cons]
  split <;> rfl

/-- Result of `Field::set_bytes` on an input of at least two bytes, outcome by outcome. -/
theorem Field_set_bytes_cons (self : Field) (x y : Byte) (rest : List Byte) :
    Field.set_bytes self (x :: y :: rest) =
      if rest.length + 2 ≠ (x.val + 256 * y.val) % 65536 then .error .field_length
      else match rest with
        | [] => .error .at_range
        | [_] => .error .subvector_start
        | z :: w :: tail =>
          .ok { length := u16 (x.val + 256 * y.val), descriptor := z, data := w :: tail } := by
  unfold Field.set_bytes
  rw [Field_validate_bytes_cons, subvector_ok _ _ _ (by simp) (by simp)]
  simp only [List.drop_zero, List.take_succ_cons, List.take_zero, bind, Except.bind,
    from_bytes_u16_pair, u16_val]
  by_cases h : rest.length + 2 = (x.val + 256 * y.val) % 65536
  · simp only [ne_eq, h, not_true_eq_false, if_false]
    match rest, h with
    | [], _ => rfl
    | [z], h =>
      simp only [List.length_cons, List.length_nil] at h
      simp only [← h]; rfl
    | z :: w :: rest, h =>
      simp only [List.length_cons] at h
      have h3 : size_sub ((x.val + 256 * y.val) % 65536) 3 = rest.length + 1 := by
        rw [size_sub_eq _ _ (by omega)]; omega
      rw [h3, subvector_ok _ _ _ (by simp) (by simp; omega)]
      have h5 : (x.val + 256 * y.val) % 65536 > 0 := by omega
      simp [vector_at, pure, Except.pure, h5]
  · simp only [ne_eq, h, not_false_eq_true, if_true]

/-- A successful `Field(bytes)`: the shape of the input and of the result. -/
theorem Field_bytes_ok (b : List Byte) (f : Field) (h : Field.Field_bytes b = .ok f) :
    ∃ x y z w tail, b = x :: y :: z :: w :: tail ∧
      tail.length + 4 = (x.val + 256 * y.val) % 65536 ∧
      f = { length := u16 (x.val + 256 * y.val), descriptor := z, data := w :: tail } := by
  match b, h with
  | [], h => exact absurd h (by simp [Field.Field_bytes, Field.set_bytes, Field.validate_bytes,
      subvector, bind, Except.bind])
  | [_], h => exact absurd h (by simp [Field.Field_bytes, Field.set_bytes, Field.validate_bytes,
      subvector, bind, Except.bind])
  | x :: y :: rest, h =>
    rw [Field.Field_bytes, Field_set_bytes_cons] at h
    split at h
    · exact absurd h (by simp)
    · rename_i hlen
      match rest, h, hlen with
      | [], h, _ => exact absurd h (by simp)
      | [_], h, _ => exact absurd h (by simp)
      | z :: w :: tail, h, hlen =>
        simp only [Except.ok.injEq] at h
        simp only [List.length_cons, ne_eq, not_not] at hlen
        exact ⟨x, y, z, w, tail, rfl, by omega, h.symm⟩

/-- The length member of every constructed field, modulo the width of the
counter. -/
theorem Field_constructed_length (f : Field) (h : f.Constructed) :
    f.length.val = (3 + f.data.length) % 65536 := by
  rcases h with h | ⟨d, h⟩ | ⟨d, data, h⟩ | ⟨b, h⟩
  · subst h; rfl
  · subst h; rfl
  · subst h; rfl
  · obtain ⟨x, y, z, w, tail, _, hlen, hf⟩ := Field_bytes_ok b f h
    subst hf
    simp only [u16_val, List.length_cons]
    omega

theorem Field_run_length (ops : List FieldOp) (f : Field)
    (h : f.length.val = (3 + f.data.length) % 65536) :
    (f.run ops).length.val = (3 + (f.run ops).data.length) % 65536 := by
  induction ops generalizing f with
  | nil => exact h
  | cons op ops ih =>
    show ((FieldOp.apply f op).run ops).length.val = _
    apply ih
    cases op with
    | set_data field_data => rfl
    | set_descriptor d => exact h

/-- C2 (the code against the claim): the serialization of a data-less field
is the three bytes `[3, 0, d]`, and parsing them back does not return the
field: `Field::set_bytes` asks `subvector` for zero bytes starting at index 3
of a three-byte vector, which throws the start-past-end error. This holds for
both ways of building a data-less field. -/
theorem C2_dataless_field_does_not_parse (d : Byte) :
    (Field.Field_desc_data d []).get_bytes = [3, 0, d] ∧
    (Field.Field_desc d).get_bytes = [3, 0, d] ∧
    Field.Field_bytes (Field.Field_desc_data d []).get_bytes = .error .subvector_start ∧
    Field.Field_bytes (Field.Field_desc d).get_bytes = .error .subvector_start := by
  have hb : (Field.Field_desc_data d []).get_bytes = [3, 0, d] := by
    simp only [Field.get_bytes, Field.Field_desc_data, append, to_bytes_u16]
    rfl
  have hb' : (Field.Field_desc d).get_bytes = [3, 0, d] := by
    simp only [Field.get_bytes, Field.Field_desc, append, to_bytes_u16]
    rfl
  have hp : Field.Field_bytes [3, 0, d] = .error .subvector_start := by
    rw [Field.Field_bytes, Field_set_bytes_cons]
    rfl
  rw [hb, hb']
  exact ⟨rfl, rfl, hp, hp⟩

/-- C9: every field built by one of the four constructors and then modified
by any sequence of `set_data` and `set_descriptor` calls has
`get_length() = 3 + len(get_data())` whenever its data has at most 65532
bytes; `set_data` replaces the data, recomputes the length and keeps the
descriptor; `set_descriptor` replaces the descriptor and keeps data and
length. -/
theorem C9_field_length_invariant (f0 : Field) (ops : List FieldOp) (h0 : f0.Constructed) :
    ((f0.run ops).get_data.length ≤ 65532 →
      (f0.run ops).get_length.val = 3 + (f0.run ops).get_data.length) ∧
    (∀ data : List Byte,
      ((f0.run ops).set_data data).get_data = data ∧
      ((f0.run ops).set_data data).get_descriptor = (f0.run ops).get_descriptor ∧
      (data.length ≤ 65532 → ((f0.run ops).set_data data).get_length.val = 3 + data.length)) ∧
    (∀ d : Byte,
      ((f0.run ops).set_descriptor d).get_descriptor = d ∧
      ((f0.run ops).set_descriptor d).get_data = (f0.run ops).get_data ∧
      ((f0.run ops).set_descriptor d).get_length = (f0.run ops).get_length) := by
  have hinv := Field_run_length ops f0 (Field_constructed_length f0 h0)
  refine ⟨?_, ?_, ?_⟩
  · intro hle
    simp only [Field.get_data, Field.get_length] at hle ⊢
    omega
  · intro data
    refine ⟨rfl, rfl, ?_⟩
    intro hle
    simp only [Field.set_data, Field.get_length, u16_val]
    omega
  · intro d
    exact ⟨rfl, rfl, rfl⟩

/-- Witness of C9: the field parsed from `[5, 0, 9, 1, 2]`, after
`set_descriptor(7)` and `set_data([4])`. -/
theorem C9_field_length_invariant_witness :
    ((⟨5, 9, [1, 2]⟩ : Field).run [.set_descriptor 7, .set_data [4]]).get_length.val =
      3 + ((⟨5, 9, [1, 2]⟩ : Field).run [.set_descriptor 7, .set_data [4]]).get_data.length :=
  (C9_field_length_invariant ⟨5, 9, [1, 2]⟩ [.set_descriptor 7, .set_data [4]]
    (Or.inr (Or.inr (Or.inr ⟨[5, 0, 9, 1, 2], rfl⟩)))).1 (by decide)

/-- C10: when `Field(b)` succeeds, `get_bytes()` of the result is `b`; when
the two-byte length prefix of `b` differs from `len(b)`, `Field(b)` throws the
length-mismatch error; and when `b` is too short to hold a prefix, `Field(b)`
throws as well. -/
theorem C10_field_parse_then_serialize (b : List Byte) :
    (∀ f, Field.Field_bytes b = .ok f → f.get_bytes = b) ∧
    (∀ l : U16, from_bytes_u16 (b.take 2) false = .ok l → l.val ≠ b.length →
      Field.Field_bytes b = .error .field_length) ∧
    (b.length < 2 → ∃ e, e.is_exception = true ∧ Field.Field_bytes b = .error e) := by
  refine ⟨?_, ?_, ?_⟩
  · intro f h
    obtain ⟨x, y, z, w, tail, hb, _, hf⟩ := Field_bytes_ok b f h
    subst hb hf
    simp only [Field.get_bytes, append, to_bytes_u16_from]
    rfl
  · intro l hl hne
    match b, hl, hne with
    | [], hl, _ => exact absurd hl (by simp [from_bytes_u16])
    | [_], hl, _ => exact absurd hl (by simp [from_bytes_u16])
    | x :: y :: rest, hl, hne =>
      simp only [List.take_succ_cons, List.take_zero, from_bytes_u16_pair, Except.ok.injEq] at hl
      subst hl
      rw [Field.Field_bytes, Field_set_bytes_cons, if_pos]
      simp only [u16_val, List.length_cons] at hne
      omega
  · intro hlt
    match b, hlt with
    | [], _ => exact ⟨.subvector_start, rfl, rfl⟩
    | [_], _ => exact ⟨.subvector_length, rfl, rfl⟩
    | _ :: _ :: _, hlt => exact absurd hlt (by simp)

/-- Witness of C10: `[5, 0, 9, 1, 2]` parses and serializes to itself, and
`[9, 0, 1, 2]`, whose prefix says 9, is rejected. -/
theorem C10_field_parse_then_serialize_witness :
    (⟨5, 9, [1, 2]⟩ : Field).get_bytes = [5, 0, 9, 1, 2] ∧
    Field.Field_bytes [9, 0, 1, 2] = .error .field_length :=
  ⟨(C10_field_parse_then_serialize [5, 0, 9, 1, 2]).1 ⟨5, 9, [1, 2]⟩ rfl,
   (C10_field_parse_then_serialize [9, 0, 1, 2]).2.1 9 rfl (by decide)⟩

/-! ## Checksum -/

/-- The two accumulators after the loop of `get_checksum`, from any start
values. -/
theorem checksum_fold (bytes : List Byte) (msb lsb : Byte) :
    bytes.foldl Packet.checksum_step (msb, lsb) =
      (u8 (msb.val + ∑ i ∈ Finset.range bytes.length, (bytes.getD i 0).val),
       u8 (lsb.val + bytes.length * msb.val +
         ∑ i ∈ Finset.range bytes.length, (bytes.length - i) * (bytes.getD i 0).val)) := by
  induction bytes generalizing msb lsb with
  | nil =>
    simp only [List.foldl_nil, List.length_nil, Finset.range_zero, Finset.sum_empty, add_zero,
      zero_mul]
    exact Prod.ext (Fin.ext (Nat.mod_eq_of_lt msb.isLt).symm)
      (Fin.ext (Nat.mod_eq_of_lt lsb.isLt).symm)
  | cons b bs ih =>
    rw [List.foldl_cons, Packet.checksum_step, ih]
    simp only [List.length_cons, Finset.sum_range_succ', List.getD_cons_succ,
      List.getD_cons_zero, Nat.add_sub_add_right, Nat.sub_zero, u8_val]
    have hm : (msb.val + b.val) % 256 ≡ msb.val + b.val [MOD 256] := Nat.mod_modEq _ _
    have hl : (lsb.val + (msb.val + b.val) % 256) % 256 ≡ lsb.val + (msb.val + b.val) [MOD 256] :=
      (Nat.mod_modEq _ _).trans (hm.add_left _)
    refine Prod.ext (Fin.ext ?_) (Fin.ext ?_)
    · show _ % 256 = _ % 256
      have := hm.add_right (∑ i ∈ Finset.range bs.length, (bs.getD i 0).val)
      refine this.trans ?_
      rw [show msb.val + b.val + ∑ i ∈ Finset.range bs.length, (bs.getD i 0).val =
        msb.val + (∑ i ∈ Finset.range bs.length, (bs.getD i 0).val + b.val) by ring]
    · show _ % 256 = _ % 256
      have h1 := (hl.add (hm.mul_left bs.length)).add_right
        (∑ i ∈ Finset.range bs.length, (bs.length - i) * (bs.getD i 0).val)
      refine h1.trans ?_
      rw [show lsb.val + (msb.val + b.val) + bs.length * (msb.val + b.val) +
          ∑ i ∈ Finset.range bs.length, (bs.length - i) * (bs.getD i 0).val =
        lsb.val + (bs.length + 1) * msb.val +
          (∑ i ∈ Finset.range bs.length, (bs.length - i) * (bs.getD i 0).val +
            (bs.length + 1) * b.val) by ring]

theorem get_checksum_eq (bytes : List Byte) :
    Packet.get_checksum bytes =
      [u8 (∑ i ∈ Finset.range bytes.length, (bytes.getD i 0).val),
       u8 (∑ i ∈ Finset.range bytes.length, (bytes.length - i) * (bytes.getD i 0).val)] := by
  simp only [Packet.get_checksum, checksum_fold, List.nil_append, List.singleton_append,
    Fin.val_zero, zero_add, mul_zero]

theorem get_checksum_length (bytes : List Byte) : (Packet.get_checksum bytes).length = 2 := rfl

/-- Replacing one byte moves the plain byte sum by the difference of the two
values. -/
theorem sum_set (bytes : List Byte) (i : Nat) (v : Byte) (hi : i < bytes.length) :
    (∑ j ∈ Finset.range (bytes.set i v).length, ((bytes.set i v).getD j 0).val) +
        (bytes.getD i 0).val =
      (∑ j ∈ Finset.range bytes.length, (bytes.getD j 0).val) + v.val := by
  induction bytes generalizing i with
  | nil => simp at hi
  | cons b bs ih =>
    cases i with
    | zero =>
      simp only [List.set_cons_zero, List.length_cons, Finset.sum_range_succ',
        List.getD_cons_succ, List.getD_cons_zero]
      omega
    | succ i =>
      simp only [List.length_cons, Nat.add_lt_add_iff_right] at hi
      have := ih i hi
      simp only [List.set_cons_succ, List.length_cons, Finset.sum_range_succ',
        List.getD_cons_succ, List.getD_cons_zero]
      omega

theorem get_checksum_set_ne (bytes : List Byte) (i : Nat) (v : Byte) (hi : i < bytes.length)
    (hv : v ≠ bytes.getD i 0) :
    Packet.get_checksum (bytes.set i v) ≠ Packet.get_checksum bytes := by
  rw [get_checksum_eq, get_checksum_eq]
  intro h
  have h1 := congrArg Fin.val (List.cons.inj h).1
  simp only [u8_val] at h1
  have h2 := sum_set bytes i v hi
  have h3 : v.val ≠ (bytes.getD i 0).val := fun h => hv (Fin.ext h)
  have := v.isLt
  have := (bytes.getD i 0).isLt
  omega

theorem flip_bit_ne (b : Byte) (k : Nat) (hk : k < 8) : flip_bit b k ≠ b := by
  intro h
  have h1 := congrArg Fin.val h
  have hlt : b.val ^^^ 2 ^ k < 256 :=
    @Nat.xor_lt_two_pow b.val (2 ^ k) 8 b.isLt (Nat.pow_lt_pow_right (by decide) hk)
  simp only [flip_bit, u8_val] at h1
  rw [Nat.mod_eq_of_lt hlt] at h1
  have h2 : b.val ^^^ 2 ^ k = b.val ^^^ 0 := by rw [h1, Nat.xor_zero]
  have h3 := Nat.xor_right_injective h2
  exact absurd h3 (Nat.pos_iff_ne_zero.mp (Nat.two_pow_pos k))

/-- C6: `get_checksum` returns exactly two bytes, the accumulators of the
running update started at zero, MSB first; the first is the sum of all bytes
modulo 256 and the second the sum of `(n - i) * b_i` modulo 256. The checksum
of `[0x75, 0x65, 0x00, 0x00]` is `[0xDA, 0x03]`. -/
theorem C6_checksum_closed_form (bytes : List Byte) :
    Packet.get_checksum bytes =
      [u8 (∑ i ∈ Finset.range bytes.length, (bytes.getD i 0).val),
       u8 (∑ i ∈ Finset.range bytes.length, (bytes.length - i) * (bytes.getD i 0).val)] ∧
    Packet.get_checksum bytes =
      [(bytes.foldl (fun acc b => (u8 (acc.1.val + b.val),
          u8 (acc.2.val + (acc.1.val + b.val) % 256))) ((0 : Byte), (0 : Byte))).1,
       (bytes.foldl (fun acc b => (u8 (acc.1.val + b.val),
          u8 (acc.2.val + (acc.1.val + b.val) % 256))) ((0 : Byte), (0 : Byte))).2] ∧
    (Packet.get_checksum bytes).length = 2 ∧
    Packet.get_checksum [0x75, 0x65, 0x00, 0x00] = [0xDA, 0x03] :=
  ⟨get_checksum_eq bytes, rfl, rfl, by decide⟩

/-- C7: replacing the byte at any position of any byte sequence by a
different value changes the checksum; in particular inverting any one of its
eight bits does. -/
theorem C7_single_byte_change_changes_checksum (bytes : List Byte) (i : Nat)
    (hi : i < bytes.length) :
    (∀ v : Byte, v ≠ bytes.getD i 0 →
      Packet.get_checksum (bytes.set i v) ≠ Packet.get_checksum bytes) ∧
    (∀ k, k < 8 →
      Packet.get_checksum (bytes.set i (flip_bit (bytes.getD i 0) k)) ≠
        Packet.get_checksum bytes) :=
  ⟨fun v hv => get_checksum_set_ne bytes i v hi hv,
   fun k hk => get_checksum_set_ne bytes i _ hi (flip_bit_ne _ k hk)⟩

/-- Witness of C7: in `[0x75, 0x65, 0x02]`, index 1, the replacement value
`0x64` and the flip of bit 0. -/
theorem C7_single_byte_change_changes_checksum_witness :
    Packet.get_checksum (([0x75, 0x65, 0x02] : List Byte).set 1 0x64) ≠
      Packet.get_checksum [0x75, 0x65, 0x02] ∧
    Packet.get_checksum (([0x75, 0x65, 0x02] : List Byte).set 1
        (flip_bit (([0x75, 0x65, 0x02] : List Byte).getD 1 0) 0)) ≠
      Packet.get_checksum [0x75, 0x65, 0x02] :=
  ⟨(C7_single_byte_change_changes_checksum [0x75, 0x65, 0x02] 1 (by decide)).1 0x64 (by decide),
   (C7_single_byte_change_changes_checksum [0x75, 0x65, 0x02] 1 (by decide)).2 0 (by decide)⟩

/-! ## Packet validation -/

theorem drop_three_take_two (bytes : List Byte) (h : 5 ≤ bytes.length) :
    (bytes.drop 3).take 2 = [bytes.getD 3 0, bytes.getD 4 0] := by
  match bytes, h with
  | _ :: _ :: _ :: _ :: _ :: _, _ => rfl

/-- The 16-bit value read at indices 3 and 4. -/
theorem length_bytes_read (bytes : List Byte) (h : 5 ≤ bytes.length) :
    (subvector bytes 3 2 >>= fun length_bytes => from_bytes_u16 length_bytes false) =
      .ok (u16 ((bytes.getD 3 0).val + 256 * (bytes.getD 4 0).val)) := by
  rw [subvector_ok _ _ _ (by omega) (by omega), drop_three_take_two _ h]
  rfl

/-- Result of `Packet::validate_bytes` on an input of at least seven bytes, outcome by
outcome. -/
theorem Packet_validate_bytes_eq (bytes : List Byte) (h : 7 ≤ bytes.length) :
    Packet.validate_bytes bytes =
      if bytes.take 2 ≠ [0x75, 0x65] then .error .header_mismatch
      else if (bytes.getD 3 0).val + 256 * (bytes.getD 4 0).val ≠ bytes.length - 7 then
        .error .payload_length_mismatch
      else if Packet.get_checksum (bytes.take (bytes.length - 2)) ≠
          bytes.drop (bytes.length - 2) then
        .error .checksum_mismatch
      else .ok () := by
  unfold Packet.validate_bytes
  rw [subvector_ok _ _ _ (by omega) (by omega), subvector_ok _ _ _ (by omega) (by omega),
    drop_three_take_two _ (by omega), size_sub_eq _ _ h, size_sub_eq _ _ (by omega),
    subvector_ok _ _ _ (by omega) (by omega), subvector_ok _ _ _ (by omega) (by omega)]
  have ht : (bytes.drop (bytes.length - 2)).take 2 = bytes.drop (bytes.length - 2) :=
    List.take_of_length_le (by simp; omega)
  have hv : (u16 ((bytes.getD 3 0).val + 256 * (bytes.getD 4 0).val)).val =
      (bytes.getD 3 0).val + 256 * (bytes.getD 4 0).val := by
    rw [u16_val]; omega
  simp only [List.drop_zero, bind, Except.bind, from_bytes_u16_pair, ht, hv, AVL_PACKET_HEADER,
    pure, Except.pure, throw, throwThe, MonadExceptOf.throw]

/-- C4: on every byte sequence of at least 7 bytes `validate_bytes` checks,
in this order, the two header bytes (header-mismatch error), the 2-byte
integer at indices 3-4 against `len(bytes) - 7` (payload-length-mismatch
error) and the checksum of `bytes[0 .. len-2)` against the last two bytes
(checksum-mismatch error), and accepts otherwise; so it accepts exactly the
sequences satisfying all three conditions. -/
theorem C4_validation_order (bytes : List Byte) (h : 7 ≤ bytes.length) :
    Packet.validate_bytes bytes =
      (if bytes.take 2 ≠ [0x75, 0x65] then .error .header_mismatch
      else if (bytes.getD 3 0).val + 256 * (bytes.getD 4 0).val ≠ bytes.length - 7 then
        .error .payload_length_mismatch
      else if Packet.get_checksum (bytes.take (bytes.length - 2)) ≠
          bytes.drop (bytes.length - 2) then
        .error .checksum_mismatch
      else .ok ()) ∧
    (Packet.validate_bytes bytes = .ok () ↔
      bytes.take 2 = [0x75, 0x65] ∧
      (bytes.getD 3 0).val + 256 * (bytes.getD 4 0).val = bytes.length - 7 ∧
      Packet.get_checksum (bytes.take (bytes.length - 2)) = bytes.drop (bytes.length - 2)) := by
  refine ⟨Packet_validate_bytes_eq bytes h, ?_⟩
  rw [Packet_validate_bytes_eq bytes h]
  by_cases h1 : bytes.take 2 = [0x75, 0x65]
  · by_cases h2 : (bytes.getD 3 0).val + 256 * (bytes.getD 4 0).val = bytes.length - 7
    · by_cases h3 : Packet.get_checksum (bytes.take (bytes.length - 2)) =
          bytes.drop (bytes.length - 2)
      · rw [if_neg (not_not.mpr h1), if_neg (not_not.mpr h2), if_neg (not_not.mpr h3)]
        exact ⟨fun _ => ⟨h1, h2, h3⟩, fun _ => rfl⟩
      · rw [if_neg (not_not.mpr h1), if_neg (not_not.mpr h2), if_pos h3]
        exact ⟨fun hc => Except.noConfusion hc, fun hc => absurd hc.2.2 h3⟩
    · rw [if_neg (not_not.mpr h1), if_pos h2]
      exact ⟨fun hc => Except.noConfusion hc, fun hc => absurd hc.2.1 h2⟩
  · rw [if_pos h1]
    exact ⟨fun hc => Except.noConfusion hc, fun hc => absurd hc.1 h1⟩

/-- Witness of C4: the 7 bytes of the empty packet with descriptor 0 are
accepted. -/
theorem C4_validation_order_witness :
    Packet.validate_bytes [0x75, 0x65, 0x00, 0x00, 0x00, 0xDA, 0xDD] = .ok () :=
  (C4_validation_order [0x75, 0x65, 0x00, 0x00, 0x00, 0xDA, 0xDD] (by decide)).2.mpr
    ⟨by decide, by decide, by decide⟩

theorem guard_ok_iff (c : Prop) [Decidable c] (e : Err) (u : PUnit) :
    (if c then (throw e : Except Err PUnit) else pure PUnit.unit) = .ok u ↔ ¬c := by
  split <;> simp_all [throw, throwThe, MonadExceptOf.throw, pure, Except.pure]

theorem Packet_validate_header_mismatch (bytes : List Byte) (h : 2 ≤ bytes.length)
    (hh : bytes.take 2 ≠ [0x75, 0x65]) :
    Packet.validate_bytes bytes = .error .header_mismatch := by
  unfold Packet.validate_bytes
  rw [subvector_ok _ _ _ (by omega) (by omega)]
  simp only [List.drop_zero, bind, Except.bind, AVL_PACKET_HEADER, hh, ne_eq, not_false_eq_true,
    if_true, throw, throwThe, MonadExceptOf.throw]

theorem Packet_validate_length_mismatch (bytes : List Byte) (h : 5 ≤ bytes.length)
    (hh : bytes.take 2 = [0x75, 0x65])
    (hl : (bytes.getD 3 0).val + 256 * (bytes.getD 4 0).val ≠ size_sub bytes.length 7) :
    Packet.validate_bytes bytes = .error .payload_length_mismatch := by
  unfold Packet.validate_bytes
  rw [subvector_ok _ _ _ (by omega) (by omega), subvector_ok _ _ _ (by omega) (by omega),
    drop_three_take_two _ h]
  have hv : (u16 ((bytes.getD 3 0).val + 256 * (bytes.getD 4 0).val)).val =
      (bytes.getD 3 0).val + 256 * (bytes.getD 4 0).val := by
    rw [u16_val]; omega
  simp only [List.drop_zero, bind, Except.bind, AVL_PACKET_HEADER, hh, ne_eq, not_true_eq_false,
    if_false, throw, throwThe, MonadExceptOf.throw, pure, Except.pure, from_bytes_u16_pair, hv, hl,
    not_false_eq_true, if_true]

theorem subvector_three_two_short (bytes : List Byte) (h : bytes.length < 5) :
    subvector bytes 3 2 =
      .error (if bytes.length ≤ 3 then .subvector_start else .undefined_behaviour) := by
  unfold subvector
  by_cases h3 : bytes.length ≤ 3
  · rw [if_pos (by omega), if_pos h3]
  · rw [if_neg (by omega), if_neg (by omega), if_neg (by omega), if_neg h3]

/-- With the right header and two to four bytes, validation stops in the
`subvector` call that reads the payload length. -/
theorem Packet_validate_short (bytes : List Byte) (h2 : 2 ≤ bytes.length)
    (h5 : bytes.length < 5) (hh : bytes.take 2 = [0x75, 0x65]) :
    Packet.validate_bytes bytes =
      .error (if bytes.length ≤ 3 then .subvector_start else .undefined_behaviour) := by
  unfold Packet.validate_bytes
  rw [subvector_ok _ _ _ (by omega) (by omega), subvector_three_two_short _ h5]
  simp only [List.drop_zero, bind, Except.bind, AVL_PACKET_HEADER, hh, ne_eq, not_true_eq_false,
    if_false, pure, Except.pure]

/-- Only inputs of at least 7 bytes pass `Packet::validate_bytes`. -/
theorem Packet_validate_ok_length (bytes : List Byte)
    (h : Packet.validate_bytes bytes = .ok ()) : 7 ≤ bytes.length := by
  by_contra hlt
  by_cases h2 : 2 ≤ bytes.length
  · by_cases hh : bytes.take 2 = [0x75, 0x65]
    · by_cases h5 : bytes.length < 5
      · rw [Packet_validate_short bytes h2 h5 hh] at h
        exact Except.noConfusion h
      · rw [Packet_validate_length_mismatch bytes (by omega) hh] at h
        · exact Except.noConfusion h
        · have := (bytes.getD 3 0).isLt
          have := (bytes.getD 4 0).isLt
          unfold size_sub
          rw [if_neg (by omega)]
          omega
    · rw [Packet_validate_header_mismatch bytes h2 hh] at h
      exact Except.noConfusion h
  · match bytes, h2, h with
    | [], _, h => exact Except.noConfusion h
    | [_], _, h => exact Except.noConfusion h
    | _ :: _ :: _, h2, _ => exact h2 (by simp)

theorem Packet_bytes_validate_error (b : List Byte) (e : Err)
    (h : Packet.validate_bytes b = .error e) : Packet.Packet_bytes b = .error e := by
  simp only [Packet.Packet_bytes, Packet.set_bytes, h, bind, Except.bind]

theorem Packet_bytes_ok_validate (b : List Byte) (p : Packet)
    (h : Packet.Packet_bytes b = .ok p) : Packet.validate_bytes b = .ok () := by
  unfold Packet.Packet_bytes Packet.set_bytes at h
  simp only [bind_ok_iff] at h
  obtain ⟨u, hu, _⟩ := h
  exact hu

theorem Packet_validate_ok_iff (bytes : List Byte) :
    Packet.validate_bytes bytes = .ok () ↔
      7 ≤ bytes.length ∧ bytes.take 2 = [0x75, 0x65] ∧
      (bytes.getD 3 0).val + 256 * (bytes.getD 4 0).val = bytes.length - 7 ∧
      Packet.get_checksum (bytes.take (bytes.length - 2)) = bytes.drop (bytes.length - 2) := by
  constructor
  · intro h
    have h7 := Packet_validate_ok_length bytes h
    rw [Packet_validate_bytes_eq bytes h7] at h
    by_cases h1 : bytes.take 2 = [0x75, 0x65]
    · by_cases h2 : (bytes.getD 3 0).val + 256 * (bytes.getD 4 0).val = bytes.length - 7
      · by_cases h3 : Packet.get_checksum (bytes.take (bytes.length - 2)) =
            bytes.drop (bytes.length - 2)
        · exact ⟨h7, h1, h2, h3⟩
        · rw [if_neg (not_not.mpr h1), if_neg (not_not.mpr h2), if_pos h3] at h
          exact Except.noConfusion h
      · rw [if_neg (not_not.mpr h1), if_pos h2] at h
        exact Except.noConfusion h
    · rw [if_pos h1] at h
      exact Except.noConfusion h
  · rintro ⟨h7, h1, h2, h3⟩
    rw [Packet_validate_bytes_eq bytes h7, if_neg (not_not.mpr h1), if_neg (not_not.mpr h2),
      if_neg (not_not.mpr h3)]

theorem take_set_of_le {α : Type} (a : α) (n m : Nat) (l : List α) (h : m ≤ n) :
    (l.set n a).take m = l.take m :=
  List.ext_getElem? fun i => by
    rw [List.getElem?_take, List.getElem?_take]
    split
    · rw [List.getElem?_set_ne (by omega)]
    · rfl

theorem getD_set_ne (l : List Byte) (i j : Nat) (v : Byte) (h : i ≠ j) :
    (l.set i v).getD j 0 = l.getD j 0 := by
  rw [List.getD_eq_getElem?_getD, List.getD_eq_getElem?_getD, List.getElem?_set_ne h]

theorem getD_take_of_lt (l : List Byte) (k j : Nat) (h : j < k) :
    (l.take k).getD j 0 = l.getD j 0 := by
  rw [List.getD_eq_getElem?_getD, List.getD_eq_getElem?_getD, List.getElem?_take_of_lt h]

theorem set_ne_self (l : List Byte) (i : Nat) (v : Byte) (hi : i < l.length)
    (hv : v ≠ l.getD i 0) (m : Nat) (hm : m ≤ i) : (l.set i v).drop m ≠ l.drop m := by
  intro h
  have h1 := congrArg (fun t => t[i - m]?) h
  simp only [List.getElem?_drop, Nat.add_sub_cancel' hm, List.getElem?_set_self hi] at h1
  apply hv
  rw [List.getD_eq_getElem?_getD, ← h1]
  rfl

/-- A byte string with the right header, after one byte at index `i` with
`i < 2` is replaced by another value, fails the header check. -/
theorem header_corruption (b : List Byte) (h7 : 7 ≤ b.length) (hh : b.take 2 = [0x75, 0x65])
    (i : Nat) (v : Byte) (hi : i < 2) (hv : v ≠ b.getD i 0) :
    Packet.validate_bytes (b.set i v) = .error .header_mismatch := by
  apply Packet_validate_header_mismatch _ (by simp; omega)
  intro h
  have h1 := congrArg (fun t => t[i]?) (h.trans hh.symm)
  simp only [List.getElem?_take_of_lt hi, List.getElem?_set_self (by omega : i < b.length)] at h1
  apply hv
  rw [List.getD_eq_getElem?_getD, ← h1]
  rfl

/-- A valid byte string cut to `k` bytes, `5 ≤ k < len`, fails the payload
length check. -/
theorem truncation_length_mismatch (b : List Byte) (hv : Packet.validate_bytes b = .ok ())
    (k : Nat) (h5 : 5 ≤ k) (hk : k < b.length) :
    Packet.validate_bytes (b.take k) = .error .payload_length_mismatch := by
  obtain ⟨h7, hh, hl, _⟩ := (Packet_validate_ok_iff b).mp hv
  have hlen : (b.take k).length = k := by simp; omega
  apply Packet_validate_length_mismatch _ (by omega)
  · rw [List.take_take, Nat.min_eq_left (by omega)]; exact hh
  · rw [getD_take_of_lt _ _ _ (by omega), getD_take_of_lt _ _ _ (by omega), hl, hlen]
    have := (b.getD 3 0).isLt
    have := (b.getD 4 0).isLt
    unfold size_sub
    split <;> omega

/-- A valid byte string cut to at most three bytes fails in a range check of
`subvector`. -/
theorem truncation_short (b : List Byte) (hv : Packet.validate_bytes b = .ok ())
    (k : Nat) (hk : k ≤ 3) :
    Packet.validate_bytes (b.take k) =
      .error (if k = 1 then .subvector_length else .subvector_start) := by
  obtain ⟨h7, hh, _, _⟩ := (Packet_validate_ok_iff b).mp hv
  match b, h7, hh, k, hk with
  | _ :: _ :: _ :: _, _, _, 0, _ => rfl
  | _ :: _ :: _ :: _, _, _, 1, _ => rfl
  | x :: y :: z :: rest, _, hh, 2, _ =>
    rw [Packet_validate_short _ (by simp) (by simp) (by simpa using hh)]
    rfl
  | x :: y :: z :: rest, _, hh, 3, _ =>
    rw [Packet_validate_short _ (by simp) (by simp) (by simpa using hh)]
    rfl

/-- A valid byte string with one of its last two bytes replaced by another
value fails the checksum check. -/
theorem checksum_corruption (b : List Byte) (hv : Packet.validate_bytes b = .ok ())
    (i : Nat) (v : Byte) (hlo : b.length - 2 ≤ i) (hi : i < b.length) (hne : v ≠ b.getD i 0) :
    Packet.validate_bytes (b.set i v) = .error .checksum_mismatch := by
  obtain ⟨h7, hh, hl, hc⟩ := (Packet_validate_ok_iff b).mp hv
  rw [Packet_validate_bytes_eq _ (by simp; omega)]
  simp only [List.length_set]
  rw [take_set_of_le _ _ _ _ (by omega), take_set_of_le _ _ _ _ hlo,
    getD_set_ne _ _ _ _ (by omega), getD_set_ne _ _ _ _ (by omega),
    if_neg (not_not.mpr hh), if_neg (not_not.mpr hl), if_pos]
  rw [hc]
  exact fun h => set_ne_self b i v hi hne _ hlo h.symm

/-- C5 (as amended): for every byte sequence `b` that `Packet(b)` accepts,
(i) replacing either header byte by a different value makes construction
fail with the header-mismatch error; (ii) every truncation of `b` that keeps
at least 5 bytes makes construction fail with the payload-length-mismatch
error, and every truncation to at most 3 bytes fails in a range check of
`subvector` (vector-length error for one byte, start-position error
otherwise); (iii) replacing either checksum byte by a different value makes
construction fail with the checksum-mismatch error. -/
theorem C5_corruption_rejected (b : List Byte) (p : Packet)
    (h : Packet.Packet_bytes b = .ok p) :
    (∀ i v, i < 2 → v ≠ b.getD i 0 →
      Packet.Packet_bytes (b.set i v) = .error .header_mismatch) ∧
    (∀ k, 5 ≤ k → k < b.length →
      Packet.Packet_bytes (b.take k) = .error .payload_length_mismatch) ∧
    (∀ k, k ≤ 3 →
      Packet.Packet_bytes (b.take k) =
        .error (if k = 1 then .subvector_length else .subvector_start)) ∧
    (∀ i v, b.length - 2 ≤ i → i < b.length → v ≠ b.getD i 0 →
      Packet.Packet_bytes (b.set i v) = .error .checksum_mismatch) := by
  have hv := Packet_bytes_ok_validate b p h
  obtain ⟨h7, hh, _, _⟩ := (Packet_validate_ok_iff b).mp hv
  exact ⟨fun i v hi hne => Packet_bytes_validate_error _ _ (header_corruption b h7 hh i v hi hne),
    fun k h5 hk => Packet_bytes_validate_error _ _ (truncation_length_mismatch b hv k h5 hk),
    fun k hk => Packet_bytes_validate_error _ _ (truncation_short b hv k hk),
    fun i v hlo hi hne => Packet_bytes_validate_error _ _ (checksum_corruption b hv i v hlo hi hne)⟩

/-- Witness of C5 (as amended): the valid packet `75 65 02 04 00 04 00 FF 07
EA 80` with its first byte replaced, cut to 9 bytes, cut to 2 bytes, and with
its last byte replaced. -/
theorem C5_corruption_rejected_witness :
    Packet.Packet_bytes
        (([0x75, 0x65, 0x02, 0x04, 0x00, 0x04, 0x00, 0xFF, 0x07, 0xEA, 0x80] : List Byte).set 0
          0x76) = .error .header_mismatch ∧
    Packet.Packet_bytes
        (([0x75, 0x65, 0x02, 0x04, 0x00, 0x04, 0x00, 0xFF, 0x07, 0xEA, 0x80] : List Byte).take 9)
      = .error .payload_length_mismatch ∧
    Packet.Packet_bytes
        (([0x75, 0x65, 0x02, 0x04, 0x00, 0x04, 0x00, 0xFF, 0x07, 0xEA, 0x80] : List Byte).take 2)
      = .error (if 2 = 1 then .subvector_length else .subvector_start) ∧
    Packet.Packet_bytes
        (([0x75, 0x65, 0x02, 0x04, 0x00, 0x04, 0x00, 0xFF, 0x07, 0xEA, 0x80] : List Byte).set 10
          0x00) = .error .checksum_mismatch :=
  have hw := C5_corruption_rejected
    [0x75, 0x65, 0x02, 0x04, 0x00, 0x04, 0x00, 0xFF, 0x07, 0xEA, 0x80]
    ⟨0x02, 4, [⟨4, 0xFF, [0x07]⟩]⟩ rfl
  ⟨hw.1 0 0x76 (by decide) (by decide), hw.2.1 9 (by decide) (by decide),
    hw.2.2.1 2 (by decide), hw.2.2.2 10 0x00 (by decide) (by decide) (by decide)⟩

/-- C5 (the claim as stated fails): the seven bytes `75 65 00 00 00 DA DD`
are accepted by `Packet(bytes)`, but their truncation to two bytes does not
fail with the payload-length-mismatch error: `subvector(bytes, 3, 2)` throws
its start-position error first. -/
theorem C5_truncation_counterexample :
    Packet.Packet_bytes [0x75, 0x65, 0x00, 0x00, 0x00, 0xDA, 0xDD] = .ok Packet.Packet_default ∧
    Packet.Packet_bytes (([0x75, 0x65, 0x00, 0x00, 0x00, 0xDA, 0xDD] : List Byte).take 2) =
      .error .subvector_start ∧
    Packet.Packet_bytes (([0x75, 0x65, 0x00, 0x00, 0x00, 0xDA, 0xDD] : List Byte).take 2) ≠
      .error .payload_length_mismatch :=
  ⟨rfl, rfl, by decide⟩


/-! ## Packet payload length -/

theorem remove_ok_iff {α : Type} (v : List α) (start num : Nat) (r : List α) :
    remove v start num = .ok r ↔
      start + num ≤ v.length ∧ r = v.take start ++ v.drop (start + num) := by
  unfold remove
  split
  · simp only [Except.ok.injEq]
    exact ⟨fun h => ⟨by omega, h.symm⟩, fun h => h.2.symm⟩
  · simp only [reduceCtorEq, false_iff, not_and]
    intro h; omega

theorem try_catch_ok_iff {α : Type} (body : Except Err α) (e : Err) (a : α) :
    try_catch body e = .ok a ↔ body = .ok a := by
  unfold try_catch
  cases body with
  | ok x => simp
  | error x => simp only [reduceCtorEq, iff_false]; split <;> simp

/-- The field loop of `Packet::set_bytes` consumes the payload exactly: the
lengths of the fields it appends add up to the number of payload bytes. -/
theorem set_bytes_loop_length (fuel : Nat) (payload : List Byte) (acc fields : List Field)
    (h : Packet.set_bytes_loop fuel payload acc = .ok fields) :
    (fields.map fun f => f.get_length.val).sum =
      (acc.map fun f => f.get_length.val).sum + payload.length := by
  induction fuel generalizing payload acc with
  | zero =>
    unfold Packet.set_bytes_loop at h
    split at h
    · exact Except.noConfusion h
    · simp only [Except.ok.injEq] at h
      subst h; omega
  | succ fuel ih =>
    unfold Packet.set_bytes_loop at h
    split at h
    · simp only [bind_ok_iff, subvector_ok_iff, remove_ok_iff] at h
      obtain ⟨lb, _, fl, _, fb, ⟨_, hfl, hfb⟩, field, hfield, payload', ⟨_, hrem⟩, hrec⟩ := h
      have := ih _ _ hrec
      obtain ⟨x, y, z, w, tail, hb, hlen, hf⟩ := Field_bytes_ok fb field hfield
      have hfblen : fb.length = fl.val := by
        rw [hfb]; simp only [List.drop_zero, List.length_take]; omega
      have hfield_len : field.get_length.val = fl.val := by
        rw [← hfblen, hf, hb]
        simp only [Field.get_length, u16_val, List.length_cons]
        omega
      rw [this, hrem]
      simp only [List.map_append, List.sum_append, List.map_cons, List.map_nil, List.sum_cons,
        List.sum_nil, List.take_zero, List.nil_append, List.length_drop, hfield_len]
      omega
    · simp only [Except.ok.injEq] at h
      subst h; omega

/-- After a successful `Packet(bytes)` the stored payload length is the sum
of the lengths of the parsed fields. -/
theorem Packet_bytes_payload_length (b : List Byte) (p : Packet)
    (h : Packet.Packet_bytes b = .ok p) : p.payload_length.val = p.fields_length := by
  unfold Packet.Packet_bytes Packet.set_bytes at h
  simp only [bind_ok_iff, subvector_ok_iff] at h
  obtain ⟨_, _, d, _, lb, _, pl, _, payload, ⟨_, hle, hpay⟩, h⟩ := h
  split at h
  · simp only [bind_ok_iff, try_catch_ok_iff] at h
    obtain ⟨fields, hloop, h⟩ := h
    simp only [pure, Except.pure, Except.ok.injEq] at h
    subst h
    have := set_bytes_loop_length _ _ _ _ hloop
    simp only [Packet.fields_length, this, Packet.Packet_default, List.map_nil, List.sum_nil,
      hpay, List.length_take, List.length_drop]
    omega
  · simp only [pure, Except.pure, Except.ok.injEq] at h
    subst h
    simp only [Packet.fields_length, Packet.Packet_default, List.map_nil, List.sum_nil]
    omega

theorem Packet_constructed_payload_length (p : Packet) (h : p.Constructed) :
    p.payload_length.val = p.fields_length % 65536 := by
  rcases h with h | h | ⟨b, h⟩
  · subst h; rfl
  · simp only [catalog_packets, List.mem_cons, List.mem_singleton, List.not_mem_nil,
      or_false] at h
    rcases h with h | h | h | h | h | h | h | h | h <;> (subst h; rfl)
  · have := Packet_bytes_payload_length b p h
    have := p.payload_length.isLt
    omega

theorem Packet_run_payload_length (ops : List PacketOp) (p : Packet)
    (h : p.payload_length.val = p.fields_length % 65536) :
    (p.run ops).payload_length.val = (p.run ops).fields_length % 65536 := by
  induction ops generalizing p with
  | nil => exact h
  | cons op ops ih =>
    show ((PacketOp.apply p op).run ops).payload_length.val = _
    apply ih
    cases op with
    | add_field_desc d =>
      simp only [PacketOp.apply, Packet.add_field_desc, Packet.fields_length, u16_val,
        List.map_append, List.sum_append, List.map_cons, List.map_nil, List.sum_cons,
        List.sum_nil] at h ⊢
      omega
    | add_field_desc_data d data =>
      simp only [PacketOp.apply, Packet.add_field_desc_data, Packet.fields_length, u16_val,
        List.map_append, List.sum_append, List.map_cons, List.map_nil, List.sum_cons,
        List.sum_nil] at h ⊢
      omega
    | add_field field =>
      simp only [PacketOp.apply, Packet.add_field, Packet.fields_length, u16_val,
        List.map_append, List.sum_append, List.map_cons, List.map_nil, List.sum_cons,
        List.sum_nil] at h ⊢
      omega
    | clear_fields => rfl
    | set_descriptor d => exact h

theorem foldl_append_get_bytes (fields : List Field) (init : List Byte) :
    fields.foldl (fun bytes field => append bytes field.get_bytes) init =
      init ++ (fields.map Field.get_bytes).flatten := by
  induction fields generalizing init with
  | nil => simp
  | cons f fs ih =>
    rw [List.foldl_cons, ih]
    simp [append]

/-- The first five bytes of `Packet::get_bytes`. -/
theorem get_bytes_shape (p : Packet) :
    ∃ rest, p.get_bytes =
      0x75 :: 0x65 :: p.descriptor :: u8 p.payload_length.val ::
        u8 (p.payload_length.val / 256) :: rest := by
  refine ⟨(p.fields.map Field.get_bytes).flatten ++ Packet.get_checksum
    ([0x75, 0x65, p.descriptor, u8 p.payload_length.val, u8 (p.payload_length.val / 256)] ++
      (p.fields.map Field.get_bytes).flatten), ?_⟩
  simp only [Packet.get_bytes, foldl_append_get_bytes]
  simp [append, AVL_PACKET_HEADER, to_bytes_u16]

/-- The 2-byte integer at indices 3-4 of `get_bytes()` is the stored payload
length. -/
theorem get_bytes_payload_length (p : Packet) :
    (subvector p.get_bytes 3 2 >>= fun length_bytes => from_bytes_u16 length_bytes false) =
      .ok p.payload_length := by
  obtain ⟨rest, h⟩ := get_bytes_shape p
  rw [h, subvector_ok _ _ _ (by simp) (by simp)]
  show from_bytes_u16 [u8 p.payload_length.val, u8 (p.payload_length.val / 256)] false = _
  exact from_bytes_u16_to p.payload_length

/-- C8: for every packet obtained from `Packet()`, a catalog packet
constructor or a successful `Packet(bytes)` by any sequence of the three
`add_field` overloads, `clear_fields` and `set_descriptor`, if the lengths of
its fields total at most 65535 then the stored payload length, which is also
the 2-byte integer at indices 3-4 of `get_bytes()`, equals that total; and
after `clear_fields` the payload length is 0 and the packet has no fields. -/
theorem C8_payload_length_invariant (p0 : Packet) (ops : List PacketOp) (h0 : p0.Constructed) :
    ((p0.run ops).fields_length ≤ 65535 →
      (p0.run ops).payload_length.val = (p0.run ops).fields_length ∧
      (subvector (p0.run ops).get_bytes 3 2 >>= fun length_bytes =>
        from_bytes_u16 length_bytes false) = .ok (u16 (p0.run ops).fields_length)) ∧
    ((p0.run ops).clear_fields.payload_length = 0 ∧
      (p0.run ops).clear_fields.fields = [] ∧
      (p0.run ops).clear_fields.get_num_fields = 0 ∧
      (p0.run ops).clear_fields.get_descriptor = (p0.run ops).get_descriptor) := by
  have hinv := Packet_run_payload_length ops p0 (Packet_constructed_payload_length p0 h0)
  refine ⟨fun hle => ?_, rfl, rfl, rfl, rfl⟩
  have hpl : (p0.run ops).payload_length.val = (p0.run ops).fields_length := by omega
  refine ⟨hpl, ?_⟩
  rw [get_bytes_payload_length]
  congr 1
  apply Fin.ext
  rw [u16_val, hpl]
  omega

/-- Witness of C8: the packet parsed from `75 65 02 04 00 04 00 FF 07 EA 80`,
then `add_field(0x01)`, `clear_fields()`, `set_descriptor(5)`,
`add_field(0xFE, [0])` and `add_field(Field(0xFF, [7]))`. -/
theorem C8_payload_length_invariant_witness :
    ((⟨0x02, 4, [⟨4, 0xFF, [0x07]⟩]⟩ : Packet).run
        [.add_field_desc 0x01, .clear_fields, .set_descriptor 5,
          .add_field_desc_data 0xFE [0], .add_field (VEHICLE_ID 7)]).payload_length.val =
      ((⟨0x02, 4, [⟨4, 0xFF, [0x07]⟩]⟩ : Packet).run
        [.add_field_desc 0x01, .clear_fields, .set_descriptor 5,
          .add_field_desc_data 0xFE [0], .add_field (VEHICLE_ID 7)]).fields_length :=
  ((C8_payload_length_invariant ⟨0x02, 4, [⟨4, 0xFF, [0x07]⟩]⟩
    [.add_field_desc 0x01, .clear_fields, .set_descriptor 5,
      .add_field_desc_data 0xFE [0], .add_field (VEHICLE_ID 7)]
    (Or.inr (Or.inr ⟨[0x75, 0x65, 0x02, 0x04, 0x00, 0x04, 0x00, 0xFF, 0x07, 0xEA, 0x80], rfl⟩))).1
    (by decide)).1

/-! ## Packets with data-less fields -/

/-- C1 (the code against the claim): `ACTION_PACKET()` with
`ACTION_EMERGENCY_STOP()`, `VEHICLE_ID(7)` and `COMMS_CHANNEL(0)` added
serializes to 18 bytes, and `Packet(bytes)` on them does not return a packet:
the data-less EMERGENCY_STOP field makes `Field::set_bytes` throw, which
`Packet::set_bytes` rethrows as its malformed-field error. Without the
data-less field the same packet decodes to itself. -/
theorem C1_emergency_stop_packet_does_not_decode :
    (((ACTION_PACKET.add_field ACTION_EMERGENCY_STOP).add_field (VEHICLE_ID 7)).add_field
        (COMMS_CHANNEL 0)).get_bytes =
      [0x75, 0x65, 0x02, 0x0B, 0x00, 0x03, 0x00, 0x01, 0x04, 0x00, 0xFF, 0x07,
        0x04, 0x00, 0xFE, 0x00, 0xF7, 0x59] ∧
    Packet.Packet_bytes
        (((ACTION_PACKET.add_field ACTION_EMERGENCY_STOP).add_field (VEHICLE_ID 7)).add_field
          (COMMS_CHANNEL 0)).get_bytes = .error .malformed_field ∧
    Packet.Packet_bytes
        ((ACTION_PACKET.add_field (VEHICLE_ID 7)).add_field (COMMS_CHANNEL 0)).get_bytes =
      .ok ((ACTION_PACKET.add_field (VEHICLE_ID 7)).add_field (COMMS_CHANNEL 0)) := by
  decide

/-- C3 (the code against the claim): the concatenation of the encodings of
two valid packets, `ACTION_PACKET()` with `VEHICLE_ID(7)` and `ACTION_PACKET()`
with `ACTION_PING()`, is not parsed into two packets: `parse_multiple` throws
the malformed-field error on the data-less PING field and returns nothing.
Likewise for the data of `MISSION_APPEND` over one TASK packet carrying a
data-less field. Two packets whose fields all carry data are returned. -/
theorem C3_parse_multiple_rejects_dataless_field :
    Packet.parse_multiple
        ((ACTION_PACKET.add_field (VEHICLE_ID 7)).get_bytes ++
          (ACTION_PACKET.add_field ACTION_PING).get_bytes) = .error .malformed_field ∧
    Packet.parse_multiple (MISSION_APPEND [TASK_PACKET.add_field_desc 0x00]).get_data =
      .error .malformed_field ∧
    Packet.parse_multiple
        ((ACTION_PACKET.add_field (VEHICLE_ID 7)).get_bytes ++
          (TASK_PACKET.add_field (COMMS_CHANNEL 0)).get_bytes) =
      .ok [ACTION_PACKET.add_field (VEHICLE_ID 7), TASK_PACKET.add_field (COMMS_CHANNEL 0)] := by
  decide

/-! ## The loop counters are large enough -/

theorem bind_no_fuel {α β : Type} (x : Except Err α) (f : α → Except Err β)
    (hx : x ≠ .error .out_of_fuel) (hf : ∀ a, x = .ok a → f a ≠ .error .out_of_fuel) :
    (x >>= f) ≠ .error .out_of_fuel := by
  cases x with
  | error e => simpa [bind, Except.bind] using hx
  | ok a => simpa [bind, Except.bind] using hf a rfl

theorem subvector_no_fuel {α : Type} (v : List α) (start num : Nat) :
    subvector v start num ≠ .error .out_of_fuel := by
  unfold subvector
  split
  · simp
  · split
    · simp
    · split <;> simp

theorem remove_no_fuel {α : Type} (v : List α) (start num : Nat) :
    remove v start num ≠ .error .out_of_fuel := by
  unfold remove
  split <;> simp

theorem from_bytes_u16_no_fuel (b : List Byte) (r : Bool) :
    from_bytes_u16 b r ≠ .error .out_of_fuel := by
  unfold from_bytes_u16
  split <;> simp

theorem vector_at_no_fuel {α : Type} (v : List α) (i : Nat) :
    vector_at v i ≠ .error .out_of_fuel := by
  unfold vector_at
  split <;> simp

theorem Field_bytes_no_fuel (b : List Byte) : Field.Field_bytes b ≠ .error .out_of_fuel := by
  match b with
  | [] => exact fun h => Err.noConfusion (Except.error.inj h)
  | [_] => exact fun h => Err.noConfusion (Except.error.inj h)
  | x :: y :: rest =>
    rw [Field.Field_bytes, Field_set_bytes_cons]
    split
    · simp
    · split <;> simp

/-- With at least as much fuel as payload bytes, the field loop never stops
for lack of fuel. -/
theorem set_bytes_loop_no_fuel (fuel : Nat) (payload : List Byte) (acc : List Field)
    (h : payload.length ≤ fuel) :
    Packet.set_bytes_loop fuel payload acc ≠ .error .out_of_fuel := by
  induction fuel generalizing payload acc with
  | zero =>
    unfold Packet.set_bytes_loop
    rw [if_neg (by omega)]
    simp
  | succ fuel ih =>
    unfold Packet.set_bytes_loop
    split
    · refine bind_no_fuel _ _ (subvector_no_fuel _ _ _) (fun lb _ => ?_)
      refine bind_no_fuel _ _ (from_bytes_u16_no_fuel _ _) (fun fl _ => ?_)
      refine bind_no_fuel _ _ (subvector_no_fuel _ _ _) (fun fb hfb => ?_)
      refine bind_no_fuel _ _ (Field_bytes_no_fuel _) (fun field hfield => ?_)
      refine bind_no_fuel _ _ (remove_no_fuel _ _ _) (fun payload' hrem => ?_)
      apply ih
      obtain ⟨_, _, hfb⟩ := (subvector_ok_iff _ _ _ _).mp hfb
      obtain ⟨_, hrem⟩ := (remove_ok_iff _ _ _ _).mp hrem
      obtain ⟨x, y, z, w, tail, hb, _, _⟩ := Field_bytes_ok fb field hfield
      have hlen : fb.length ≤ fl.val := by
        rw [hfb]; simp only [List.drop_zero, List.length_take]; omega
      rw [hb] at hlen
      simp only [List.length_cons] at hlen
      rw [hrem]
      simp only [List.take_zero, List.nil_append, List.length_drop]
      omega
    · simp

theorem try_catch_no_fuel {α : Type} (body : Except Err α) (e : Err)
    (hb : body ≠ .error .out_of_fuel) (he : e ≠ .out_of_fuel) :
    try_catch body e ≠ .error .out_of_fuel := by
  unfold try_catch
  cases body with
  | ok a => simp
  | error x =>
    simp only
    split
    · simpa using he
    · exact hb

theorem Packet_validate_no_fuel (b : List Byte) :
    Packet.validate_bytes b ≠ .error .out_of_fuel := by
  unfold Packet.validate_bytes
  refine bind_no_fuel _ _ (subvector_no_fuel _ _ _) (fun ft _ => ?_)
  split
  · simp [bind, Except.bind, throw, throwThe, MonadExceptOf.throw]
  · refine bind_no_fuel _ _ (by simp [pure, Except.pure]) (fun _ _ => ?_)
    refine bind_no_fuel _ _ (subvector_no_fuel _ _ _) (fun lb _ => ?_)
    refine bind_no_fuel _ _ (from_bytes_u16_no_fuel _ _) (fun pl _ => ?_)
    split
    · simp [bind, Except.bind, throw, throwThe, MonadExceptOf.throw]
    · refine bind_no_fuel _ _ (by simp [pure, Except.pure]) (fun _ _ => ?_)
      refine bind_no_fuel _ _ (subvector_no_fuel _ _ _) (fun gc _ => ?_)
      refine bind_no_fuel _ _ (subvector_no_fuel _ _ _) (fun ck _ => ?_)
      simp only
      split
      · simp [bind, Except.bind, throw, throwThe, MonadExceptOf.throw]
      · simp [bind, Except.bind, pure, Except.pure]

/-- The constructor `Packet(bytes)` never stops for lack of fuel. -/
theorem Packet_bytes_no_fuel (b : List Byte) :
    Packet.Packet_bytes b ≠ .error .out_of_fuel := by
  unfold Packet.Packet_bytes Packet.set_bytes
  refine bind_no_fuel _ _ (Packet_validate_no_fuel _) (fun _ _ => ?_)
  refine bind_no_fuel _ _ (vector_at_no_fuel _ _) (fun d _ => ?_)
  refine bind_no_fuel _ _ (subvector_no_fuel _ _ _) (fun lb _ => ?_)
  refine bind_no_fuel _ _ (from_bytes_u16_no_fuel _ _) (fun pl _ => ?_)
  refine bind_no_fuel _ _ (subvector_no_fuel _ _ _) (fun payload _ => ?_)
  split
  · refine bind_no_fuel _ _ ?_ (fun _ _ => by simp [pure, Except.pure])
    exact try_catch_no_fuel _ _ (set_bytes_loop_no_fuel _ _ _ (Nat.le_refl _)) (by simp)
  · simp [pure, Except.pure]

/-- With at least as much fuel as input bytes, the packet loop never stops
for lack of fuel. -/
theorem parse_multiple_loop_no_fuel (fuel : Nat) (bytes : List Byte) (acc : List Packet)
    (h : bytes.length ≤ fuel) :
    Packet.parse_multiple_loop fuel bytes acc ≠ .error .out_of_fuel := by
  induction fuel generalizing bytes acc with
  | zero =>
    unfold Packet.parse_multiple_loop
    rw [if_neg (by omega)]
    simp
  | succ fuel ih =>
    unfold Packet.parse_multiple_loop
    split
    · refine bind_no_fuel _ _ (subvector_no_fuel _ _ _) (fun lb _ => ?_)
      refine bind_no_fuel _ _ (from_bytes_u16_no_fuel _ _) (fun pl _ => ?_)
      refine bind_no_fuel _ _ (subvector_no_fuel _ _ _) (fun pb _ => ?_)
      refine bind_no_fuel _ _ (Packet_bytes_no_fuel _) (fun packet _ => ?_)
      refine bind_no_fuel _ _ (remove_no_fuel _ _ _) (fun bytes' hrem => ?_)
      apply ih
      obtain ⟨_, hrem⟩ := (remove_ok_iff _ _ _ _).mp hrem
      rw [hrem]
      simp only [List.take_zero, List.nil_append, List.length_drop]
      omega
    · simp

theorem parse_multiple_no_fuel (bytes : List Byte) :
    Packet.parse_multiple bytes ≠ .error .out_of_fuel :=
  parse_multiple_loop_no_fuel _ _ _ (Nat.le_refl _)

/-! ## Field lookup -/

/-- The lookup loop started at index `pre.length` of the vector
`pre ++ fields`, when no field of `pre` has the descriptor: either no field
has it and the loop returns -1, or the loop returns the index of the first
field that has it. -/
theorem get_field_index_loop_spec (d : Byte) (fields pre : List Field) :
    (Packet.get_field_index_loop d fields pre.length = -1 ∧
      fields.find? (fun f => decide (f.get_descriptor = d)) = none ∧
      ∀ f ∈ fields, f.get_descriptor ≠ d) ∨
    (∃ k f, Packet.get_field_index_loop d fields pre.length = ((pre.length + k : Nat) : Int) ∧
      fields.get? k = some f ∧ f.get_descriptor = d ∧
      fields.find? (fun f => decide (f.get_descriptor = d)) = some f ∧
      ∀ j, j < k → ∀ g, fields.get? j = some g → g.get_descriptor ≠ d) := by
  induction fields generalizing pre with
  | nil => exact Or.inl ⟨rfl, rfl, fun f hf => absurd hf (List.not_mem_nil f)⟩
  | cons f rest ih =>
    by_cases hf : f.get_descriptor = d
    · refine Or.inr ⟨0, f, ?_, rfl, hf, ?_, fun j hj => absurd hj (Nat.not_lt_zero j)⟩
      · simp [Packet.get_field_index_loop, hf]
      · simp [List.find?, hf]
    · have h := ih (pre ++ [f])
      simp only [List.length_append, List.length_singleton] at h
      rcases h with ⟨h1, h2, h3⟩ | ⟨k, g, h1, h2, h3, h4, h5⟩
      · refine Or.inl ⟨?_, ?_, ?_⟩
        · simp only [Packet.get_field_index_loop, hf, if_false]; exact h1
        · simp [List.find?, hf, h2]
        · intro g hg
          rcases List.mem_cons.mp hg with hg | hg
          · rw [hg]; exact hf
          · exact h3 g hg
      · refine Or.inr ⟨k + 1, g, ?_, ?_, h3, ?_, ?_⟩
        · simp only [Packet.get_field_index_loop, hf, if_false]
          rw [h1]; congr 1; omega
        · simpa using h2
        · simp [List.find?, hf, h4]
        · intro j hj g' hg'
          cases j with
          | zero => simp at hg'; rw [← hg']; exact hf
          | succ j => exact h5 j (by omega) g' (by simpa using hg')

theorem get_field_index_spec (p : Packet) (d : Byte) :
    (p.get_field_index d = -1 ∧
      p.fields.find? (fun f => decide (f.get_descriptor = d)) = none ∧
      ∀ f ∈ p.fields, f.get_descriptor ≠ d) ∨
    (∃ (k : Nat) (f : Field), p.get_field_index d = (k : Int) ∧
      p.fields.get? k = some f ∧ f.get_descriptor = d ∧
      p.fields.find? (fun f => decide (f.get_descriptor = d)) = some f ∧
      ∀ j, j < k → ∀ g, p.fields.get? j = some g → g.get_descriptor ≠ d) := by
  have h := get_field_index_loop_spec d p.fields []
  simp only [List.length_nil, Nat.zero_add] at h
  exact h

theorem has_field_iff (p : Packet) (d : Byte) :
    p.has_field d = true ↔ ∃ f ∈ p.fields, f.get_descriptor = d := by
  unfold Packet.has_field
  rcases get_field_index_spec p d with ⟨h1, _, h3⟩ | ⟨k, f, h1, h2, h3, _, _⟩
  · simp only [h1, if_true, Bool.false_eq_true, false_iff, not_exists, not_and]
    exact fun f hf => h3 f hf
  · have hne : (k : Int) ≠ -1 := by omega
    simp only [h1, hne, if_false, true_iff]
    exact ⟨f, List.get?_mem h2, h3⟩

theorem get_field_eq (p : Packet) (d : Byte) :
    p.get_field d =
      match p.fields.find? (fun f => decide (f.get_descriptor = d)) with
      | some f => .ok f
      | none => .error .field_not_found := by
  unfold Packet.get_field
  rcases get_field_index_spec p d with ⟨h1, h2, _⟩ | ⟨k, f, h1, h2, _, h4, _⟩
  · simp only [h1, h2, if_true]
  · have hne : (k : Int) ≠ -1 := by omega
    simp only [h1, h4, hne, if_false, Int.toNat_ofNat, vector_at, h2]

theorem has_field_iff_index (p : Packet) (d : Byte) :
    p.has_field d = true ↔ p.get_field_index d ≠ -1 := by
  unfold Packet.has_field
  by_cases h : p.get_field_index d = -1
  · simp [h]
  · simp [h]

theorem has_field_find (p : Packet) (d : Byte) (h : p.has_field d = true) :
    ∃ f, p.fields.find? (fun f => decide (f.get_descriptor = d)) = some f := by
  rcases get_field_index_spec p d with ⟨h1, _, _⟩ | ⟨_, f, _, _, _, h4, _⟩
  · exact absurd h1 ((has_field_iff_index p d).mp h)
  · exact ⟨f, h4⟩

/-- C12: `get_field_index(d)` is the least index whose field has descriptor
`d`, or -1 when no field has it; `has_field(d)` is true exactly when such an
index exists; `get_field(d)` returns the first field in insertion order with
descriptor `d` and throws the not-found error exactly when `has_field(d)` is
false; a later field with the same descriptor does not change which field is
returned. -/
theorem C12_field_lookup (p : Packet) (d : Byte) :
    (p.get_field_index d = -1 ↔ ∀ f ∈ p.fields, f.get_descriptor ≠ d) ∧
    (∀ k : Nat, p.get_field_index d = (k : Int) ↔
      (∃ f, p.fields.get? k = some f ∧ f.get_descriptor = d) ∧
      ∀ j, j < k → ∀ g, p.fields.get? j = some g → g.get_descriptor ≠ d) ∧
    (p.get_field_index d = -1 ∨ ∃ k : Nat, k < p.get_num_fields ∧ p.get_field_index d = (k : Int)) ∧
    (p.has_field d = true ↔ ∃ f ∈ p.fields, f.get_descriptor = d) ∧
    (p.has_field d = true ↔ p.get_field_index d ≠ -1) ∧
    (p.get_field d =
      match p.fields.find? (fun f => decide (f.get_descriptor = d)) with
      | some f => .ok f
      | none => .error .field_not_found) ∧
    (p.get_field d = .error .field_not_found ↔ p.has_field d = false) ∧
    (∀ g : Field, p.has_field d = true → (p.add_field g).get_field d = p.get_field d) := by
  refine ⟨?_, ?_, ?_, has_field_iff p d, has_field_iff_index p d, get_field_eq p d, ?_, ?_⟩
  · rcases get_field_index_spec p d with ⟨h1, _, h3⟩ | ⟨k, f, h1, h2, h3, _, _⟩
    · exact ⟨fun _ => h3, fun _ => h1⟩
    · constructor
      · intro h; rw [h1] at h; omega
      · intro h; exact absurd h3 (h f (List.get?_mem h2))
  · intro k
    rcases get_field_index_spec p d with ⟨h1, _, h3⟩ | ⟨k', f, h1, h2, h3, _, h5⟩
    · constructor
      · intro h; rw [h1] at h; omega
      · rintro ⟨⟨f, hf, hd⟩, _⟩
        exact absurd hd (h3 f (List.get?_mem hf))
    · constructor
      · intro h
        have hk : k' = k := by rw [h1] at h; omega
        subst hk
        exact ⟨⟨f, h2, h3⟩, h5⟩
      · rintro ⟨⟨g, hg, hd⟩, hmin⟩
        rw [h1]
        rcases Nat.lt_trichotomy k' k with hlt | heq | hgt
        · exact absurd h3 (hmin k' hlt f h2)
        · rw [heq]
        · exact absurd hd (h5 k hgt g hg)
  · rcases get_field_index_spec p d with ⟨h1, _, _⟩ | ⟨k, f, h1, h2, _, _, _⟩
    · exact Or.inl h1
    · refine Or.inr ⟨k, ?_, h1⟩
      by_contra hge
      rw [List.get?_eq_none.mpr (by simpa [Packet.get_num_fields] using hge)] at h2
      exact Option.noConfusion h2
  · rw [get_field_eq]
    rcases get_field_index_spec p d with ⟨h1, h2, _⟩ | ⟨k, f, h1, _, _, h4, _⟩
    · have hf : p.has_field d = false := by
        cases hb : p.has_field d with
        | false => rfl
        | true => exact absurd h1 ((has_field_iff_index p d).mp hb)
      simp [h2, hf]
    · have hf : p.has_field d = true := (has_field_iff_index p d).mpr (by rw [h1]; omega)
      simp [h4, hf]
  · intro g hg
    obtain ⟨f, hf⟩ := has_field_find p d hg
    rw [get_field_eq, get_field_eq]
    simp only [Packet.add_field, List.find?_append, hf]
    rfl

/-- Witness of C12: a packet with the descriptors `FF, FE, FF`; looking up
`FF` after one more `FF` field is added returns the same field. -/
theorem C12_field_lookup_witness :
    ((⟨0x01, 12, [⟨4, 0xFF, [7]⟩, ⟨4, 0xFE, [0]⟩, ⟨4, 0xFF, [9]⟩]⟩ : Packet).add_field
        ⟨4, 0xFF, [1]⟩).get_field 0xFF =
      (⟨0x01, 12, [⟨4, 0xFF, [7]⟩, ⟨4, 0xFE, [0]⟩, ⟨4, 0xFF, [9]⟩]⟩ : Packet).get_field 0xFF :=
  (C12_field_lookup ⟨0x01, 12, [⟨4, 0xFF, [7]⟩, ⟨4, 0xFE, [0]⟩, ⟨4, 0xFF, [9]⟩]⟩
    0xFF).2.2.2.2.2.2.2 ⟨4, 0xFF, [1]⟩ (by decide)

/-- C13: `add_field(f)` appends `f` and changes nothing but the payload
length: the number of fields grows by one, the fields that were present stay
at their indices, the last field is `f`, the descriptor is unchanged; and
`add_field(d)` and `add_field(d, data)` are `add_field(Field(d))` and
`add_field(Field(d, data))`. -/
theorem C13_add_field_appends (p : Packet) (f : Field) :
    (p.add_field f).get_num_fields = p.get_num_fields + 1 ∧
    (p.add_field f).fields = p.fields ++ [f] ∧
    (p.add_field f).fields.take p.get_num_fields = p.fields ∧
    (p.add_field f).fields.get? p.get_num_fields = some f ∧
    (p.add_field f).fields.getLast? = some f ∧
    (p.add_field f).get_descriptor = p.get_descriptor ∧
    (p.add_field f).payload_length = u16 (p.payload_length.val + f.get_length.val) ∧
    (∀ d : Byte, p.add_field_desc d = p.add_field (Field.Field_desc d)) ∧
    (∀ (d : Byte) (data : List Byte),
      p.add_field_desc_data d data = p.add_field (Field.Field_desc_data d data)) := by
  refine ⟨?_, rfl, ?_, ?_, ?_, rfl, rfl, fun _ => rfl, fun _ _ => rfl⟩
  · simp [Packet.add_field, Packet.get_num_fields]
  · simp [Packet.add_field, Packet.get_num_fields]
  · simp [Packet.add_field, Packet.get_num_fields]
  · simp [Packet.add_field]

/-! ## Scalar codec -/

theorem uint8_lawful : uint8_t.Lawful where
  to_memory_length := fun _ => rfl
  from_to := fun _ => rfl
  to_from := fun m hm => by
    match m, hm with
    | [x], _ => rfl

theorem uint16_lawful : uint16_t.Lawful where
  to_memory_length := fun _ => rfl
  from_to := fun v => by
    apply Fin.ext
    simp only [uint16_t, List.getD_cons_zero, List.getD_cons_succ, u16_val, u8_val]
    omega
  to_from := fun m hm => by
    match m, hm with
    | [x, y], _ => exact to_bytes_u16_from x y

theorem double_lawful : double_t.Lawful where
  to_memory_length := fun _ => rfl
  from_to := fun v => by
    apply Fin.ext
    simp only [double_t, F64.of_memory, F64.byte, List.getD_cons_zero, List.getD_cons_succ,
      u8_val, Nat.reducePow, pow_zero, Nat.div_one]
    omega
  to_from := fun m hm => by
    match m, hm with
    | [b0, b1, b2, b3, b4, b5, b6, b7], _ =>
      simp only [double_t, F64.of_memory, F64.byte, List.getD_cons_zero, List.getD_cons_succ,
        Nat.reducePow, pow_zero, Nat.div_one, List.cons.injEq, and_true]
      refine ⟨?_, ?_, ?_, ?_, ?_, ?_, ?_, ?_⟩ <;> (apply Fin.ext; simp only [u8_val]; omega)

/-- The earlier `from_bytes_u16` and `to_bytes_u16` are the templates at
`uint16_t`. -/
theorem from_bytes_uint16 (bytes : List Byte) (reverse : Bool) :
    from_bytes uint16_t bytes reverse = from_bytes_u16 bytes reverse ∧
    ∀ v, to_bytes uint16_t v reverse = to_bytes_u16 v reverse :=
  ⟨rfl, fun _ => rfl⟩

theorem from_bytes_error_iff {α : Type} (T : Scalar α) (b : List Byte) (r : Bool) :
    from_bytes T b r = .error .from_bytes_size ↔ b.length ≠ T.sizeof := by
  unfold from_bytes
  split <;> simp_all

theorem from_bytes_ok {α : Type} (T : Scalar α) (b : List Byte) (r : Bool)
    (h : b.length = T.sizeof) :
    from_bytes T b r = .ok (T.from_memory (if r then b.reverse else b)) := by
  unfold from_bytes
  rw [if_neg (not_not.mpr h)]

/-- The codec laws of `from_bytes<T>` and `to_bytes<T>` for a type whose
memory copy is exact. -/
theorem codec_laws {α : Type} (T : Scalar α) (hT : T.Lawful) (reverse : Bool) :
    (∀ b, (∃ e, from_bytes T b reverse = .error e) ↔ b.length ≠ T.sizeof) ∧
    (∀ b, from_bytes T b reverse = .error .from_bytes_size ↔ b.length ≠ T.sizeof) ∧
    (∀ v, (to_bytes T v reverse).length = T.sizeof) ∧
    (∀ v, to_bytes T v true = (to_bytes T v false).reverse) ∧
    (∀ v, from_bytes T (to_bytes T v reverse) reverse = .ok v) ∧
    (∀ b v, b.length = T.sizeof → from_bytes T b reverse = .ok v → to_bytes T v reverse = b) := by
  refine ⟨?_, fun b => from_bytes_error_iff T b reverse, ?_, fun _ => rfl, ?_, ?_⟩
  · intro b
    constructor
    · rintro ⟨e, he⟩ hlen
      rw [from_bytes_ok T b reverse hlen] at he
      exact Except.noConfusion he
    · intro h
      exact ⟨_, (from_bytes_error_iff T b reverse).mpr h⟩
  · intro v
    cases reverse
    · exact hT.to_memory_length v
    · simp [to_bytes, hT.to_memory_length v]
  · intro v
    rw [from_bytes_ok T _ reverse]
    · cases reverse
      · simp [to_bytes, hT.from_to]
      · simp [to_bytes, hT.from_to]
    · cases reverse
      · exact hT.to_memory_length v
      · simp [to_bytes, hT.to_memory_length v]
  · intro b v hlen hv
    rw [from_bytes_ok T b reverse hlen] at hv
    simp only [Except.ok.injEq] at hv
    subst hv
    cases reverse
    · simp [to_bytes, hT.to_from b hlen]
    · simp [to_bytes, hT.to_from b.reverse (by simpa using hlen)]

/-- C14: for `uint8_t` and `uint16_t` and both values of `reverse`,
`from_bytes<T>(b, reverse)` fails (with the size error) exactly when
`len(b) != sizeof(T)`; `to_bytes<T>(v, reverse)` has exactly `sizeof(T)`
bytes and `to_bytes(v, true)` is the reversal of `to_bytes(v, false)`; and
the two are inverse to each other in both directions. -/
theorem C14_from_bytes_to_bytes_inverse (reverse : Bool) :
    uint8_t.sizeof = 1 ∧ uint16_t.sizeof = 2 ∧
    ((∀ b, (∃ e, from_bytes uint8_t b reverse = .error e) ↔ b.length ≠ uint8_t.sizeof) ∧
      (∀ b, from_bytes uint8_t b reverse = .error .from_bytes_size ↔ b.length ≠ uint8_t.sizeof) ∧
      (∀ v, (to_bytes uint8_t v reverse).length = uint8_t.sizeof) ∧
      (∀ v, to_bytes uint8_t v true = (to_bytes uint8_t v false).reverse) ∧
      (∀ v, from_bytes uint8_t (to_bytes uint8_t v reverse) reverse = .ok v) ∧
      (∀ b v, b.length = uint8_t.sizeof → from_bytes uint8_t b reverse = .ok v →
        to_bytes uint8_t v reverse = b)) ∧
    ((∀ b, (∃ e, from_bytes uint16_t b reverse = .error e) ↔ b.length ≠ uint16_t.sizeof) ∧
      (∀ b, from_bytes uint16_t b reverse = .error .from_bytes_size ↔
        b.length ≠ uint16_t.sizeof) ∧
      (∀ v, (to_bytes uint16_t v reverse).length = uint16_t.sizeof) ∧
      (∀ v, to_bytes uint16_t v true = (to_bytes uint16_t v false).reverse) ∧
      (∀ v, from_bytes uint16_t (to_bytes uint16_t v reverse) reverse = .ok v) ∧
      (∀ b v, b.length = uint16_t.sizeof → from_bytes uint16_t b reverse = .ok v →
        to_bytes uint16_t v reverse = b)) :=
  ⟨rfl, rfl, codec_laws uint8_t uint8_lawful reverse, codec_laws uint16_t uint16_lawful reverse⟩

/-- Witness of C14: the two bytes `[0x34, 0x12]` read in reversed order give
`0x3412`, which `to_bytes` with `reverse` turns back into `[0x34, 0x12]`; the
byte `[0x07]` likewise. -/
theorem C14_from_bytes_to_bytes_inverse_witness :
    to_bytes uint16_t 0x3412 true = [0x34, 0x12] ∧ to_bytes uint8_t 0x07 true = [0x07] :=
  ⟨(C14_from_bytes_to_bytes_inverse true).2.2.2.2.2.2.2.2 [0x34, 0x12] 0x3412 rfl rfl,
   (C14_from_bytes_to_bytes_inverse true).2.2.1.2.2.2.2.2 [0x07] 0x07 rfl rfl⟩

/-! ## `vector_from_bytes` -/

theorem chunk_length {α : Type} (T : Scalar α) (bytes : List Byte) (n i : Nat)
    (hlen : bytes.length = n * T.sizeof) (hi : i < n) : (chunk T bytes i).length = T.sizeof := by
  have h1 : (i + 1) * T.sizeof ≤ n * T.sizeof := Nat.mul_le_mul_right _ (by omega)
  rw [Nat.add_mul, Nat.one_mul] at h1
  simp only [chunk, List.length_take, List.length_drop]
  omega

/-- The loop of `vector_from_bytes` from chunk `j` on, with `m` chunks left
and enough fuel for them. -/
theorem vector_from_bytes_loop_eq {α : Type} (T : Scalar α) (bytes : List Byte) (n : Nat)
    (hlen : bytes.length = n * T.sizeof) (m : Nat) :
    ∀ (j fuel : Nat) (acc : List α), j + m = n → m ≤ fuel →
      vector_from_bytes_loop T bytes fuel (j * T.sizeof) acc =
        .ok (acc ++ (List.range' j m).map fun i => T.from_memory (chunk T bytes i)) := by
  induction m with
  | zero =>
    intro j fuel acc hj _
    have hj' : j = n := by omega
    subst hj'
    cases fuel with
    | zero => simp [vector_from_bytes_loop, hlen]
    | succ f => simp [vector_from_bytes_loop, hlen]
  | succ m ih =>
    intro j fuel acc hj hfuel
    cases fuel with
    | zero => omega
    | succ f =>
      have h1 : (j + 1) * T.sizeof ≤ n * T.sizeof := Nat.mul_le_mul_right _ (by omega)
      rw [Nat.add_mul, Nat.one_mul] at h1
      have hpos := T.sizeof_pos
      unfold vector_from_bytes_loop
      rw [if_pos (by omega), subvector_ok _ _ _ (by omega) (by omega)]
      have hc : ((bytes.drop (j * T.sizeof)).take T.sizeof).length = T.sizeof :=
        chunk_length T bytes n j hlen (by omega)
      simp only [bind, Except.bind, from_bytes_ok T _ false hc, Bool.false_eq_true, if_false]
      rw [show j * T.sizeof + T.sizeof = (j + 1) * T.sizeof by rw [Nat.add_mul, Nat.one_mul]]
      rw [ih (j + 1) f _ (by omega) (by omega)]
      simp [List.range'_succ, chunk]

theorem vector_from_bytes_forward {α : Type} (T : Scalar α) (bytes : List Byte) (n : Nat)
    (hlen : bytes.length = n * T.sizeof) :
    vector_from_bytes T bytes false =
      .ok ((List.range n).map fun i => T.from_memory (chunk T bytes i)) := by
  have hmod : bytes.length % T.sizeof = 0 := by rw [hlen]; exact Nat.mul_mod_left _ _
  unfold vector_from_bytes
  rw [if_neg (not_not.mpr hmod)]
  have h := vector_from_bytes_loop_eq T bytes n hlen n 0 bytes.length [] (by omega)
    (by rw [hlen]; exact Nat.le_mul_of_pos_right _ T.sizeof_pos)
  simp only [Nat.zero_mul, List.nil_append] at h
  simp only [Bool.false_eq_true, if_false, h, List.range_eq_range']

theorem chunk_reverse {α : Type} (T : Scalar α) (bytes : List Byte) (n i : Nat)
    (hlen : bytes.length = n * T.sizeof) (hi : i < n) :
    chunk T bytes.reverse i = (chunk T bytes (n - 1 - i)).reverse := by
  have hn : n = i + (n - 1 - i) + 1 := by omega
  have hsum : n * T.sizeof = i * T.sizeof + (n - 1 - i) * T.sizeof + T.sizeof := by
    conv_lhs => rw [hn]
    ring
  simp only [chunk]
  rw [List.drop_reverse, List.take_reverse, List.drop_take]
  simp only [List.length_take]
  congr 1
  generalize (n - 1 - i) * T.sizeof = B at hsum
  generalize i * T.sizeof = A at hsum
  have e1 : min (bytes.length - A) bytes.length - T.sizeof = B := by omega
  have e2 : bytes.length - A - B = T.sizeof := by omega
  rw [e1, e2]

theorem vector_from_bytes_reversed {α : Type} (T : Scalar α) (bytes : List Byte) (n : Nat)
    (hlen : bytes.length = n * T.sizeof) :
    vector_from_bytes T bytes true =
      .ok ((List.range n).map fun i => T.from_memory (chunk T bytes (n - 1 - i)).reverse) := by
  have hmod : bytes.length % T.sizeof = 0 := by rw [hlen]; exact Nat.mul_mod_left _ _
  have h := vector_from_bytes_forward T bytes.reverse n (by simpa using hlen)
  unfold vector_from_bytes at h ⊢
  rw [if_neg (not_not.mpr hmod)]
  rw [if_neg (not_not.mpr (by simpa using hmod))] at h
  simp only [Bool.false_eq_true, if_false, List.length_reverse, if_true] at h ⊢
  rw [h]
  congr 1
  apply List.map_congr_left
  intro i hi
  rw [chunk_reverse T bytes n i hlen (by simpa using hi)]

theorem vector_from_bytes_error_iff {α : Type} (T : Scalar α) (b : List Byte) (reverse : Bool) :
    (vector_from_bytes T b reverse = .error .from_bytes_size ↔ b.length % T.sizeof ≠ 0) ∧
    ((∃ e, vector_from_bytes T b reverse = .error e) ↔ b.length % T.sizeof ≠ 0) := by
  by_cases hmod : b.length % T.sizeof = 0
  · have hlen : b.length = b.length / T.sizeof * T.sizeof := by
      have := Nat.div_add_mod b.length T.sizeof
      rw [hmod, Nat.add_zero, Nat.mul_comm] at this
      exact this.symm
    have hok : ∃ values, vector_from_bytes T b reverse = .ok values := by
      cases reverse
      · exact ⟨_, vector_from_bytes_forward T b _ hlen⟩
      · exact ⟨_, vector_from_bytes_reversed T b _ hlen⟩
    obtain ⟨values, hv⟩ := hok
    rw [hv]
    simp [hmod]
  · have : vector_from_bytes T b reverse = .error .from_bytes_size := by
      unfold vector_from_bytes
      rw [if_pos hmod]
    rw [this]
    simp [hmod]

/-- C15 (as amended): `vector_from_bytes<T>(b, reverse)` fails, with the size
error, exactly when `len(b) mod sizeof(T) != 0`; otherwise it returns
`len(b) / sizeof(T)` values. With `reverse = false` the `i`-th value is
`from_bytes<T>` of the `i`-th chunk of `b`; with `reverse = true` the whole
byte sequence is reversed first, so the `i`-th value is
`from_bytes<T>(chunk, true)` of the chunk counted from the end of `b`: the
values come in the reverse order of the chunks. -/
theorem C15_vector_from_bytes_chunks {α : Type} (T : Scalar α) (b : List Byte) (reverse : Bool) :
    (vector_from_bytes T b reverse = .error .from_bytes_size ↔ b.length % T.sizeof ≠ 0) ∧
    ((∃ e, vector_from_bytes T b reverse = .error e) ↔ b.length % T.sizeof ≠ 0) ∧
    (b.length % T.sizeof = 0 →
      ∃ values, vector_from_bytes T b reverse = .ok values ∧
        values.length = b.length / T.sizeof ∧
        ∀ i, i < values.length →
          ∃ v, values.get? i = some v ∧
            from_bytes T (chunk T b (if reverse then values.length - 1 - i else i)) reverse =
              .ok v) := by
  refine ⟨(vector_from_bytes_error_iff T b reverse).1, (vector_from_bytes_error_iff T b reverse).2,
    fun hmod => ?_⟩
  have hlen : b.length = b.length / T.sizeof * T.sizeof := by
    have := Nat.div_add_mod b.length T.sizeof
    rw [hmod, Nat.add_zero, Nat.mul_comm] at this
    exact this.symm
  cases reverse
  · refine ⟨_, vector_from_bytes_forward T b _ hlen, by simp, fun i hi => ?_⟩
    simp only [List.length_map, List.length_range] at hi
    refine ⟨T.from_memory (chunk T b i), by simp [List.getElem?_range hi], ?_⟩
    simp only [Bool.false_eq_true, if_false]
    rw [from_bytes_ok T _ false (chunk_length T b _ i hlen hi)]
    rfl
  · refine ⟨_, vector_from_bytes_reversed T b _ hlen, by simp, fun i hi => ?_⟩
    simp only [List.length_map, List.length_range] at hi
    refine ⟨T.from_memory (chunk T b (b.length / T.sizeof - 1 - i)).reverse,
      by simp [List.getElem?_range hi], ?_⟩
    simp only [if_true, List.length_map, List.length_range]
    rw [from_bytes_ok T _ true (chunk_length T b _ _ hlen (by omega))]
    rfl

/-- Witness of C15 (as amended): the four bytes `01 02 03 04` as two
`uint16_t` with `reverse = true`. -/
theorem C15_vector_from_bytes_chunks_witness :
    ∃ values, vector_from_bytes uint16_t [1, 2, 3, 4] true = .ok values ∧
      values.length = ([1, 2, 3, 4] : List Byte).length / uint16_t.sizeof :=
  match (C15_vector_from_bytes_chunks uint16_t [1, 2, 3, 4] true).2.2 (by decide) with
  | ⟨values, h1, h2, _⟩ => ⟨values, h1, h2⟩

/-- C15 (the claim as stated fails): with `reverse = true` the two bytes
`01 02` decode as `uint8_t` to `[2, 1]`, while the chunks of the input in
their order, each decoded by `from_bytes<uint8_t>(chunk, true)`, are 1 and
then 2. -/
theorem C15_reverse_counterexample :
    vector_from_bytes uint8_t [1, 2] true = .ok [2, 1] ∧
    from_bytes uint8_t (chunk uint8_t [1, 2] 0) true = .ok 1 ∧
    from_bytes uint8_t (chunk uint8_t [1, 2] 1) true = .ok 2 := by
  decide

/-! ## `subvector` -/

/-- C16 (the code against the claim): `subvector` throws exactly when
`start >= len(seq)` or `len(seq) < count`, and returns the `count` elements
from `start` on when `start + count <= len(seq)`; but in the remaining case,
`start < len(seq)`, `count <= len(seq)` and `start + count > len(seq)`, it
neither throws nor returns `count` elements of `seq`: it copies an iterator
range that leaves the vector. `subvector([1, 2, 3], 2, 2)` is such a call. -/
theorem C16_subvector_reads_past_the_end {α : Type} (seq : List α) (start count : Nat) :
    ((∃ e, e.is_exception = true ∧ subvector seq start count = .error e) ↔
      (start ≥ seq.length ∨ seq.length < count)) ∧
    (∀ r, subvector seq start count = .ok r ↔
      start < seq.length ∧ start + count ≤ seq.length ∧ r = (seq.drop start).take count) ∧
    (subvector seq start count = .error .undefined_behaviour ↔
      start < seq.length ∧ count ≤ seq.length ∧ seq.length < start + count) ∧
    subvector ([1, 2, 3] : List Byte) 2 2 = .error .undefined_behaviour := by
  refine ⟨?_, fun r => subvector_ok_iff seq start count r, ?_, rfl⟩
  · unfold subvector
    split
    · simp only [Except.error.injEq, exists_eq_right']
      exact ⟨fun _ => Or.inl (by omega), fun _ => rfl⟩
    · split
      · simp only [Except.error.injEq, exists_eq_right']
        exact ⟨fun _ => Or.inr (by omega), fun _ => rfl⟩
      · split
        · simp only [reduceCtorEq, and_false, exists_false, false_iff]
          omega
        · simp only [Except.error.injEq, exists_eq_right']
          constructor
          · intro h; exact absurd h (by decide)
          · intro h; omega
  · unfold subvector
    split
    · simp only [Except.error.injEq, reduceCtorEq, false_iff]; omega
    · split
      · simp only [Except.error.injEq, reduceCtorEq, false_iff]; omega
      · split
        · simp only [reduceCtorEq, false_iff]; omega
        · simp only [true_iff]; omega

/-! ## Encoded lists of scalars -/

theorem chunk_cons_zero {α : Type} (T : Scalar α) (hT : T.Lawful) (v : α) (rest : List Byte) :
    chunk T (T.to_memory v ++ rest) 0 = T.to_memory v := by
  simp [chunk, List.take_append_of_le_length, hT.to_memory_length v]

theorem chunk_cons_succ {α : Type} (T : Scalar α) (hT : T.Lawful) (v : α) (rest : List Byte)
    (i : Nat) : chunk T (T.to_memory v ++ rest) (i + 1) = chunk T rest i := by
  simp only [chunk]
  rw [Nat.add_mul, Nat.one_mul, Nat.add_comm, ← List.drop_drop,
    List.drop_left' (hT.to_memory_length v)]

/-- The concatenated object representations of a list of values decode to
the list. -/
theorem vector_from_bytes_encoded {α : Type} (T : Scalar α) (hT : T.Lawful) (values : List α) :
    ((values.map T.to_memory).flatten).length = values.length * T.sizeof ∧
    vector_from_bytes T (values.map T.to_memory).flatten false = .ok values := by
  have hlen : ∀ vs : List α, ((vs.map T.to_memory).flatten).length = vs.length * T.sizeof := by
    intro vs
    induction vs with
    | nil => simp
    | cons v vs ih =>
      simp only [List.map_cons, List.flatten_cons, List.length_append, ih, hT.to_memory_length v,
        List.length_cons, Nat.add_mul, Nat.one_mul]
      omega
  refine ⟨hlen values, ?_⟩
  rw [vector_from_bytes_forward T _ values.length (hlen values)]
  congr 1
  induction values with
  | nil => rfl
  | cons v vs ih =>
    rw [List.length_cons, List.range_succ_eq_map, List.map_cons, List.map_map]
    simp only [List.map_cons, List.flatten_cons, chunk_cons_zero T hT, hT.from_to]
    congr 1
    refine Eq.trans ?_ ih
    apply List.map_congr_left
    intro i _
    simp only [Function.comp, Nat.succ_eq_add_one, chunk_cons_succ T hT]

theorem foldl_append_to_bytes {α : Type} (T : Scalar α) (values : List α) (init : List Byte) :
    values.foldl (fun payload v => append payload (to_bytes T v false)) init =
      init ++ (values.map T.to_memory).flatten := by
  induction values generalizing init with
  | nil => simp
  | cons v vs ih =>
    rw [List.foldl_cons, ih]
    simp [append, to_bytes]

theorem TASK_POINTS_data (points : List F64) :
    (TASK_POINTS points).get_data = (points.map double_t.to_memory).flatten := by
  simp only [TASK_POINTS, Field.get_data, Field.Field_desc_data, foldl_append_to_bytes,
    List.nil_append]

theorem points_vect_foldl (points : List (QPointF × Int)) (init : List F64) :
    points.foldl
        (fun points_vect point =>
          points_vect ++ [point.1.y] ++ [point.1.x] ++ [NAN] ++ [int_to_double point.2]) init =
      init ++ points.foldl
        (fun points_vect point =>
          points_vect ++ [point.1.y] ++ [point.1.x] ++ [NAN] ++ [int_to_double point.2]) [] := by
  induction points generalizing init with
  | nil => simp
  | cons p ps ih =>
    rw [List.foldl_cons, List.foldl_cons, ih, ih ([] ++ _ ++ _ ++ _ ++ _)]
    simp

theorem points_vect_cons (p : QPointF × Int) (ps : List (QPointF × Int)) :
    Task.points_vect (p :: ps) =
      p.1.y :: p.1.x :: NAN :: int_to_double p.2 :: Task.points_vect ps := by
  rw [Task.points_vect, List.foldl_cons, points_vect_foldl]
  simp [Task.points_vect]

/-! ## Truncated streams -/

/-- C11 (the code against the claim): when the truncated final packet has
exactly four bytes, `parse_multiple` does not raise an error: it calls
`subvector(bytes, 3, 2)` on the four remaining bytes, which passes both range
checks of `subvector` and copies an iterator range that leaves the vector.
This holds with no packet before the truncated one and after a complete
packet. Prefixes of one, three, five and ten bytes do raise an error. -/
theorem C11_four_byte_tail_is_not_rejected :
    Packet.parse_multiple (Packet.Packet_default.get_bytes.take 4) =
      .error .undefined_behaviour ∧
    Packet.parse_multiple
        ((ACTION_PACKET.add_field (VEHICLE_ID 7)).get_bytes ++
          (ACTION_PACKET.add_field (VEHICLE_ID 7)).get_bytes.take 4) =
      .error .undefined_behaviour ∧
    Packet.parse_multiple ((ACTION_PACKET.add_field (VEHICLE_ID 7)).get_bytes.take 1) =
      .error .subvector_start ∧
    Packet.parse_multiple ((ACTION_PACKET.add_field (VEHICLE_ID 7)).get_bytes.take 3) =
      .error .subvector_start ∧
    Packet.parse_multiple ((ACTION_PACKET.add_field (VEHICLE_ID 7)).get_bytes.take 5) =
      .error .subvector_length ∧
    Packet.parse_multiple
        ((ACTION_PACKET.add_field (VEHICLE_ID 7)).get_bytes ++
          (ACTION_PACKET.add_field (VEHICLE_ID 7)).get_bytes.take 10) =
      .error .subvector_length := by
  decide

/-! ## Task packets -/

/-- C17 (the code against the claim): for the default-constructed `Task` and
for a task with one point, `get_packet()` without its VELOCITY field is not
decoded by `packet_to_task`. Without points the decoding stops at the COMMAND
field, whose data `TASK_COMMAND` writes as one byte and `packet_to_task`
reads with `from_bytes<double>`, which throws the size error; with a point it
stops before that, in the points loop. Without the COMMAND field as well, the
point-less packet decodes to the task, with `vx`, `vy`, `vz` NaN. -/
theorem C17_task_packet_without_velocity_does_not_decode :
    Task.packet_to_task
        ((({} : Task).get_packet).without_field TASK_VELOCITY_DESC) =
      .error .from_bytes_size ∧
    Task.packet_to_task
        ((({ m_duration := 5, type := 2, points := [({ x := 1, y := 2 }, 3)] } :
          Task).get_packet).without_field TASK_VELOCITY_DESC) =
      .error .undefined_behaviour ∧
    Task.packet_to_task
        (((({ m_duration := 5, m_vx := 1, type := 2, action := 3 } : Task).get_packet).without_field
          TASK_VELOCITY_DESC).without_field TASK_COMMAND_DESC) =
      .ok { m_duration := 5, type := 2 } := by
  decide

/-- C18 (the code against the claim): the TASK packet whose only field is the
POINTS field that `get_packet()` builds for one point (latitude 2, longitude
1, command 3) is not decoded into a task with that point. `get_packet` writes
four doubles per point, `packet_to_task` reads three per point: its first
iteration converts the NaN placeholder to the command enumeration, which is
undefined. With three doubles per point the same point is decoded. -/
theorem C18_points_do_not_survive :
    Task.points_vect [({ x := 1, y := 2 }, 3)] = [2, 1, NAN, int_to_double 3] ∧
    Task.packet_to_task
        (TASK_PACKET.add_field (TASK_POINTS (Task.points_vect [({ x := 1, y := 2 }, 3)]))) =
      .error .undefined_behaviour ∧
    Task.packet_to_task (TASK_PACKET.add_field (TASK_POINTS [2, 1, int_to_double 3])) =
      .ok { points := [({ x := 1, y := 2 }, 3)] } := by
  decide

/-! ## Vehicle status -/

/-- C19 (the code against the claim): the decoded status does not hold the
values given to the builders. A STATUS packet with only
`STATUS_IRIDIUM_STRENGTH(3)` decodes to the default status
(`iridium_strength` 0): the Iridium branch is guarded by
`has_field(STATUS_GPS_SATS_DESC)`. A packet with only `STATUS_GPS_SATS(5)`
ends in the exception handler, because that branch then asks for the absent
Iridium field. A packet with only `STATUS_TASK(1, 2, percent)` decodes to the
default status: the builder stamps the field with
`STATUS_IRIDIUM_STRENGTH_DESC`. With both the GPS and the Iridium field
present the values are decoded. -/
theorem C19_status_decode_misses_fields :
    VehicleStatus.VehicleStatus_packet (STATUS_PACKET.add_field (STATUS_IRIDIUM_STRENGTH 3)) =
      .ok {} ∧
    VehicleStatus.hits_barrier (STATUS_PACKET.add_field (STATUS_GPS_SATS 5)) = true ∧
    VehicleStatus.VehicleStatus_packet (STATUS_PACKET.add_field (STATUS_GPS_SATS 5)) =
      .ok { num_gps_sats := 5 } ∧
    (STATUS_TASK 1 2 0x4049000000000000).get_descriptor = STATUS_IRIDIUM_STRENGTH_DESC ∧
    VehicleStatus.VehicleStatus_packet
        (STATUS_PACKET.add_field (STATUS_TASK 1 2 0x4049000000000000)) = .ok {} ∧
    VehicleStatus.hits_barrier
        (((STATUS_PACKET.add_field (VEHICLE_ID 7)).add_field (STATUS_GPS_SATS 5)).add_field
          (STATUS_IRIDIUM_STRENGTH 3)) = false ∧
    VehicleStatus.VehicleStatus_packet
        (((STATUS_PACKET.add_field (VEHICLE_ID 7)).add_field (STATUS_GPS_SATS 5)).add_field
          (STATUS_IRIDIUM_STRENGTH 3)) =
      .ok { vehicle_id := 7, num_gps_sats := 5, iridium_strength := 3 } := by
  decide

/-- C20 (the code against the claim): a STATUS packet whose ATTITUDE field
carries 12 bytes of data does not give a status with `roll` decoded and
`pitch` at its default: `subvector(field_data, 8, 8)` passes both range
checks of `subvector` and copies an iterator range that leaves the 12-byte
vector, which no handler intercepts. With 8 bytes of data the second
`subvector` call throws, the handler returns, `roll` is decoded and `pitch`
and `yaw` keep NaN; with no data at all `roll` keeps NaN too. -/
theorem C20_short_attitude_reads_past_the_end :
    VehicleStatus.VehicleStatus_packet
        (STATUS_PACKET.add_field
          (Field.Field_desc_data STATUS_ATTITUDE_DESC [1, 2, 3, 4, 5, 6, 7, 8, 9, 10, 11, 12])) =
      .error .undefined_behaviour ∧
    VehicleStatus.VehicleStatus_packet
        (STATUS_PACKET.add_field
          (Field.Field_desc_data STATUS_ATTITUDE_DESC [1, 2, 3, 4, 5, 6, 7, 8])) =
      .ok { roll := 0x0807060504030201 } ∧
    VehicleStatus.VehicleStatus_packet
        ((STATUS_PACKET.add_field (VEHICLE_ID 7)).add_field
          (Field.Field_desc STATUS_ATTITUDE_DESC)) =
      .ok { vehicle_id := 7 } := by
  decide

/-! ## Catalog slips -/

/-- C22 (the code against the claim): `PARAMETER_LIST` on an empty list
throws (`parameters.at(0)`), and on two packets it returns a field whose data
is the encoding of the first packet only, so `parse_multiple` recovers one
packet, not two. The loop of the source runs `for (i = 0; i < 1; i++)`. For a
list of one packet the data is that packet's encoding. -/
theorem C22_parameter_list_takes_first_only :
    PARAMETER_LIST [] = .error .at_range ∧
    PARAMETER_LIST
        [PARAMETER_PACKET.add_field (VEHICLE_ID 1), PARAMETER_PACKET.add_field (VEHICLE_ID 2)] =
      .ok (Field.Field_desc_data PARAMETER_LIST_DESC
        (PARAMETER_PACKET.add_field (VEHICLE_ID 1)).get_bytes) ∧
    Packet.parse_multiple
        (Field.Field_desc_data PARAMETER_LIST_DESC
          (PARAMETER_PACKET.add_field (VEHICLE_ID 1)).get_bytes).get_data =
      .ok [PARAMETER_PACKET.add_field (VEHICLE_ID 1)] ∧
    PARAMETER_LIST [PARAMETER_PACKET.add_field (VEHICLE_ID 1)] =
      .ok (Field.Field_desc_data PARAMETER_LIST_DESC
        (PARAMETER_PACKET.add_field (VEHICLE_ID 1)).get_bytes) := by
  decide

theorem geofence_descriptor (lats lons : List F64) :
    (∃ f, ACTION_SET_GEOFENCE lats lons = .ok f ∧
        f.get_descriptor = ACTION_SET_GEOFENCE_DESC) ∨
      ∃ e, ACTION_SET_GEOFENCE lats lons = .error e := by
  unfold ACTION_SET_GEOFENCE
  cases h : geofence_loop lons lats 0 [] with
  | error e => exact Or.inr ⟨e, rfl⟩
  | ok payload => exact Or.inl ⟨_, rfl, rfl⟩

theorem parameter_list_descriptor (parameters : List Packet) :
    (∃ f, PARAMETER_LIST parameters = .ok f ∧ f.get_descriptor = PARAMETER_LIST_DESC) ∨
      ∃ e, PARAMETER_LIST parameters = .error e := by
  cases parameters with
  | nil => exact Or.inr ⟨.at_range, rfl⟩
  | cons p ps => exact Or.inl ⟨_, rfl, rfl⟩

/-- C23: each of the nine packet-type constructors returns a packet with no
fields, payload length 0 and the tabulated descriptor; every field builder
declared in `avl_commands.h` (the two `PARAMETER_VALUE` overloads defined
there included) returns, for all arguments on which it returns, a field whose
descriptor is the identically named `*_DESC` constant, with
`COMMS_CHANNEL_DESC = 0xFE` and `VEHICLE_ID_DESC = 0xFF`; the no-argument
builders return empty data. `ACTION_SET_GEOFENCE` and `PARAMETER_LIST` either
throw or return such a field, and they do return on a one-point fence and on
a non-empty list. -/
theorem C23_catalog_conformance {α : Type} (T : Scalar α) (value : α) (c : Byte)
    (data : List Byte) (x y z : F64) (flag : Bool) (A b : List F64) (task : Packet)
    (tasks : List Packet) (size : I32) :
    (catalog_packets.map fun p => (p.get_descriptor, p.payload_length, p.fields)) =
      [(0x00, 0, []), (0x01, 0, []), (0x02, 0, []), (0x05, 0, []), (0x07, 0, []), (0x03, 0, []),
        (0x04, 0, []), (0x08, 0, []), (0x09, 0, [])] ∧
    catalog_packets =
      [RESPONSE_PACKET, STATUS_PACKET, ACTION_PACKET, MISSION_PACKET, TASK_PACKET, HELM_PACKET,
        ACOUSTIC_PING_PACKET, PARAMETER_PACKET, PARAMETER_LIST_PACKET] ∧
    COMMS_CHANNEL_DESC = 0xFE ∧ VEHICLE_ID_DESC = 0xFF ∧
    ([COMMS_CHANNEL c, VEHICLE_ID c,
        RESPONSE_PACKET_DESCRIPTOR c, RESPONSE_FIELD_DESCRIPTOR c, RESPONSE_DATA data,
        STATUS_MODE data, STATUS_OPERATIONAL_STATUS data, STATUS_ATTITUDE x y z,
        STATUS_VELOCITY x y z, STATUS_POSITION x y z, STATUS_DEPTH x, STATUS_HEIGHT x,
        STATUS_RPM x, STATUS_VOLTAGE x, STATUS_MAG_FLUX x y z, STATUS_UMODEM_SYNCED flag,
        STATUS_GPS_SATS c, STATUS_IRIDIUM_STRENGTH c,
        ACTION_SET_MODE data, ACTION_SET_MAG_STREAM flag, ACTION_SET_MAG_CAL A b,
        MISSION_SET task, MISSION_APPEND tasks,
        TASK_DURATION x, TASK_TYPE c, TASK_ATTITUDE x y z, TASK_VELOCITY x y z, TASK_DEPTH x,
        TASK_HEIGHT x, TASK_RPM x, TASK_DIVE flag, TASK_POINTS A, TASK_COMMAND c,
        HELM_THROTTLE x, HELM_RUDDER x, HELM_ELEVATOR x,
        ACOUSTIC_PING_DEPARTURE_TIME x, ACOUSTIC_PING_ORIGIN_POSITION x y z,
        PARAMETER_NAME data, PARAMETER_VALUE T value, PARAMETER_VALUE_string data,
        PARAMETER_TYPE data, PARAMETER_LIST_SIZE size].map Field.get_descriptor) =
      [COMMS_CHANNEL_DESC, VEHICLE_ID_DESC,
        RESPONSE_PACKET_DESCRIPTOR_DESC, RESPONSE_FIELD_DESCRIPTOR_DESC, RESPONSE_DATA_DESC,
        STATUS_MODE_DESC, STATUS_OPERATIONAL_STATUS_DESC, STATUS_ATTITUDE_DESC,
        STATUS_VELOCITY_DESC, STATUS_POSITION_DESC, STATUS_DEPTH_DESC, STATUS_HEIGHT_DESC,
        STATUS_RPM_DESC, STATUS_VOLTAGE_DESC, STATUS_MAG_FLUX_DESC, STATUS_UMODEM_SYNCED_DESC,
        STATUS_GPS_SATS_DESC, STATUS_IRIDIUM_STRENGTH_DESC,
        ACTION_SET_MODE_DESC, ACTION_SET_MAG_STREAM_DESC, ACTION_SET_MAG_CAL_DESC,
        MISSION_SET_DESC, MISSION_APPEND_DESC,
        TASK_DURATION_DESC, TASK_TYPE_DESC, TASK_ATTITUDE_DESC, TASK_VELOCITY_DESC,
        TASK_DEPTH_DESC, TASK_HEIGHT_DESC, TASK_RPM_DESC, TASK_DIVE_DESC, TASK_POINTS_DESC,
        TASK_COMMAND_DESC,
        HELM_THROTTLE_DESC, HELM_RUDDER_DESC, HELM_ELEVATOR_DESC,
        ACOUSTIC_PING_DEPARTURE_TIME_DESC, ACOUSTIC_PING_ORIGIN_POSITION_DESC,
        PARAMETER_NAME_DESC, PARAMETER_VALUE_DESC, PARAMETER_VALUE_DESC,
        PARAMETER_TYPE_DESC, PARAMETER_LIST_SIZE_DESC] ∧
    ([ACTION_PING, ACTION_EMERGENCY_STOP, ACTION_POWER_CYCLE, ACTION_RESTART_ROS,
        ACTION_RESET_SAFETY, ACTION_TARE_PRESSURE, ACTION_START_LBL_PINGS,
        ACTION_START_OWTT_PINGS, ACTION_STOP_ACOUSTIC_PINGS, ACTION_ENABLE_BACK_SEAT_DRIVER,
        ACTION_DISABLE_BACK_SEAT_DRIVER, ACTION_ENABLE_STROBE, ACTION_DISABLE_STROBE,
        ACTION_ENABLE_SONAR, ACTION_DISABLE_SONAR, ACTION_START_SONAR_RECORDING,
        ACTION_STOP_SONAR_RECORDING, MISSION_START, MISSION_STOP, MISSION_CLEAR,
        MISSION_ADVANCE, MISSION_READ_CURRENT, MISSION_READ_ALL,
        PARAMETER_LIST_REQUEST].map fun f => (f.get_descriptor, f.get_data)) =
      [(ACTION_PING_DESC, []), (ACTION_EMERGENCY_STOP_DESC, []), (ACTION_POWER_CYCLE_DESC, []),
        (ACTION_RESTART_ROS_DESC, []), (ACTION_RESET_SAFETY_DESC, []),
        (ACTION_TARE_PRESSURE_DESC, []), (ACTION_START_LBL_PINGS_DESC, []),
        (ACTION_START_OWTT_PINGS_DESC, []), (ACTION_STOP_ACOUSTIC_PINGS_DESC, []),
        (ACTION_ENABLE_BACK_SEAT_DRIVER_DESC, []), (ACTION_DISABLE_BACK_SEAT_DRIVER_DESC, []),
        (ACTION_ENABLE_STROBE_DESC, []), (ACTION_DISABLE_STROBE_DESC, []),
        (ACTION_ENABLE_SONAR_DESC, []), (ACTION_DISABLE_SONAR_DESC, []),
        (ACTION_START_SONAR_RECORDING_DESC, []), (ACTION_STOP_SONAR_RECORDING_DESC, []),
        (MISSION_START_DESC, []), (MISSION_STOP_DESC, []), (MISSION_CLEAR_DESC, []),
        (MISSION_ADVANCE_DESC, []), (MISSION_READ_CURRENT_DESC, []),
        (MISSION_READ_ALL_DESC, []), (PARAMETER_LIST_REQUEST_DESC, [])] ∧
    ((∃ f, ACTION_SET_GEOFENCE A b = .ok f ∧ f.get_descriptor = ACTION_SET_GEOFENCE_DESC) ∨
      ∃ e, ACTION_SET_GEOFENCE A b = .error e) ∧
    (∃ f, ACTION_SET_GEOFENCE [x] [y] = .ok f ∧ f.get_descriptor = ACTION_SET_GEOFENCE_DESC) ∧
    ((∃ f, PARAMETER_LIST tasks = .ok f ∧ f.get_descriptor = PARAMETER_LIST_DESC) ∨
      ∃ e, PARAMETER_LIST tasks = .error e) ∧
    (∃ f, PARAMETER_LIST (task :: tasks) = .ok f ∧ f.get_descriptor = PARAMETER_LIST_DESC) :=
  ⟨by decide, rfl, rfl, rfl, rfl, rfl, geofence_descriptor A b, ⟨_, rfl, rfl⟩,
    parameter_list_descriptor tasks, ⟨_, rfl, rfl⟩⟩

/-- C24 (the code against the claim): `set_bytes` on a packet that already
holds a field keeps that field. The ACTION packet with `VEHICLE_ID(7)`, after
`set_bytes` of the encoding `b` of a TASK packet with `COMMS_CHANNEL(0)`,
holds both fields, while `Packet(b)` holds one; and its `get_bytes()` is not
`b`. -/
theorem C24_set_bytes_keeps_old_fields :
    (ACTION_PACKET.add_field (VEHICLE_ID 7)).set_bytes
        (TASK_PACKET.add_field (COMMS_CHANNEL 0)).get_bytes =
      .ok { descriptor := 0x07, payload_length := 4,
            fields := [VEHICLE_ID 7, COMMS_CHANNEL 0] } ∧
    Packet.Packet_bytes (TASK_PACKET.add_field (COMMS_CHANNEL 0)).get_bytes =
      .ok { descriptor := 0x07, payload_length := 4, fields := [COMMS_CHANNEL 0] } ∧
    ({ descriptor := 0x07, payload_length := 4,
       fields := [VEHICLE_ID 7, COMMS_CHANNEL 0] } : Packet).get_bytes ≠
      (TASK_PACKET.add_field (COMMS_CHANNEL 0)).get_bytes := by
  decide

/-- C27 (the code against the claim): `STATUS_TASK(task_num, num_tasks,
percent)` returns a field with the 10 data bytes the claim names but with
descriptor `STATUS_IRIDIUM_STRENGTH_DESC` (0x0C) instead of
`STATUS_TASK_DESC` (0x0D); a `VehicleStatus` built from a STATUS packet that
carries it keeps `current_task`, `total_tasks` and `task_percent` at their
defaults. -/
theorem C27_status_task_wrong_descriptor (task_num num_tasks : Byte) (percent : F64) :
    (STATUS_TASK task_num num_tasks percent).get_descriptor = STATUS_IRIDIUM_STRENGTH_DESC ∧
    STATUS_IRIDIUM_STRENGTH_DESC = 0x0C ∧ STATUS_TASK_DESC = 0x0D ∧
    (STATUS_TASK task_num num_tasks percent).get_data =
      [task_num, num_tasks] ++ to_bytes double_t percent false ∧
    (STATUS_TASK task_num num_tasks percent).get_data.length = 10 ∧
    VehicleStatus.VehicleStatus_packet
        (STATUS_PACKET.add_field (STATUS_TASK 1 2 0x4049000000000000)) = .ok {} :=
  ⟨rfl, rfl, rfl, rfl, rfl, by decide⟩

/-- C28 (the code against the claim): `ACOUSTIC_PING_ORIGIN_POSITION(lat,
lon, alt)` returns a field with descriptor 0x01 whose data is the 16 bytes of
`lat` and `lon`; `alt` is not encoded. `STATUS_POSITION` encodes all three
components in 24 bytes. -/
theorem C28_origin_position_drops_altitude (lat lon alt : F64) :
    (ACOUSTIC_PING_ORIGIN_POSITION lat lon alt).get_descriptor = 0x01 ∧
    (ACOUSTIC_PING_ORIGIN_POSITION lat lon alt).get_data =
      to_bytes double_t lat false ++ to_bytes double_t lon false ∧
    (ACOUSTIC_PING_ORIGIN_POSITION lat lon alt).get_data.length = 16 ∧
    (STATUS_POSITION lat lon alt).get_data =
      to_bytes double_t lat false ++ to_bytes double_t lon false ++ to_bytes double_t alt false ∧
    (STATUS_POSITION lat lon alt).get_data.length = 24 :=
  ⟨rfl, rfl, rfl, rfl, rfl⟩

/-- C30 (the code against the claim): `to_string` spells
`ACTION_DISABLE_BACK_SEAT_DRIVER` as "Disable Back Steat Driver", which
`from_string` does not know and maps, through its final `else`, to
`ACTION_STOP_SONAR_RECORDING`. Every other value round-trips. -/
theorem C30_action_name_round_trip_fails :
    ActionType.from_string (ActionType.to_string .ACTION_DISABLE_BACK_SEAT_DRIVER) =
      .ACTION_STOP_SONAR_RECORDING ∧
    ActionType.to_string .ACTION_DISABLE_BACK_SEAT_DRIVER = "Disable Back Steat Driver" ∧
    ∀ v : ActionType,
      ActionType.from_string (ActionType.to_string v) = v ↔
        v ≠ .ACTION_DISABLE_BACK_SEAT_DRIVER := by
  refine ⟨by decide, rfl, ?_⟩
  intro v
  cases v <;> decide

/-! ## Length counter and totality -/

theorem Field_get_bytes_cons (f : Field) :
    f.get_bytes = u8 f.length.val :: u8 (f.length.val / 256) :: f.descriptor :: f.data := by
  simp [Field.get_bytes, append, to_bytes_u16]

theorem length_bytes_value (l : U16) :
    ((u8 l.val).val + 256 * (u8 (l.val / 256)).val) % 65536 = l.val := by
  simp only [u8_val]
  omega

/-- C29: `Field(d, data).get_length()` is `(3 + n) mod 65536` for `n` data
bytes while `get_bytes()` emits `3 + n` bytes, led by the two bytes of that
length; so for `n >= 65533` the emitted length differs from the emitted byte
count and `Field(Field(d, data).get_bytes())` throws the length-mismatch
error. -/
theorem C29_field_length_wraps (d : Byte) (data : List Byte) :
    (Field.Field_desc_data d data).get_length.val = (3 + data.length) % 65536 ∧
    (Field.Field_desc_data d data).get_bytes.length = 3 + data.length ∧
    from_bytes_u16 ((Field.Field_desc_data d data).get_bytes.take 2) false =
      .ok (Field.Field_desc_data d data).get_length ∧
    (65533 ≤ data.length →
      (Field.Field_desc_data d data).get_length.val ≠
        (Field.Field_desc_data d data).get_bytes.length ∧
      Field.Field_bytes (Field.Field_desc_data d data).get_bytes = .error .field_length) := by
  have hb := Field_get_bytes_cons (Field.Field_desc_data d data)
  have hl : (Field.Field_desc_data d data).length.val = (3 + data.length) % 65536 := rfl
  have hd : (Field.Field_desc_data d data).data = data := rfl
  refine ⟨rfl, ?_, ?_, ?_⟩
  · rw [hb, hd]; simp; omega
  · rw [hb]
    simp only [List.take_succ_cons, List.take_zero, from_bytes_u16_pair, Field.get_length]
    congr 1
    apply Fin.ext
    rw [u16_val, length_bytes_value]
  · intro hn
    constructor
    · rw [hb, hd]
      simp only [Field.get_length, hl, List.length_cons]
      omega
    · rw [hb, Field.Field_bytes, Field_set_bytes_cons, if_pos]
      rw [length_bytes_value, hl, hd]
      simp only [List.length_cons]
      omega

/-- Witness of C29: 65533 data bytes. -/
theorem C29_field_length_wraps_witness :
    Field.Field_bytes (Field.Field_desc_data 0x06 (List.replicate 65533 0)).get_bytes =
      .error .field_length :=
  ((C29_field_length_wraps 0x06 (List.replicate 65533 0)).2.2.2
    (by rw [List.length_replicate])).2

theorem Field_bytes_small_length (k : Byte) (hk : k.val < 3) (rest : List Byte) :
    ∃ e, e.is_exception = true ∧ Field.Field_bytes (k :: 0 :: rest) = .error e := by
  rw [Field.Field_bytes, Field_set_bytes_cons]
  split
  · exact ⟨.field_length, rfl, rfl⟩
  · rename_i h
    simp only [Fin.val_zero, Nat.mul_zero, Nat.add_zero, ne_eq, not_not] at h
    have hlt : k.val % 65536 = k.val := Nat.mod_eq_of_lt (by omega)
    rw [hlt] at h
    match rest, h with
    | [], _ => exact ⟨.at_range, rfl, rfl⟩
    | _ :: _, h => simp at h; omega

/-- C26 (the code against the claim): parsing never runs out of loop fuel,
and a field length of 0, 1 or 2 makes the field parse throw; but on the four
bytes `75 65 00 00` neither `Packet(bytes)` nor `parse_multiple(bytes)`
returns or throws: `subvector(bytes, 3, 2)` copies an iterator range that
leaves the vector. -/
theorem C26_parsing_four_bytes_is_undefined :
    Packet.Packet_bytes [0x75, 0x65, 0x00, 0x00] = .error .undefined_behaviour ∧
    Packet.parse_multiple [0x75, 0x65, 0x00, 0x00] = .error .undefined_behaviour ∧
    (∀ b, Packet.Packet_bytes b ≠ .error .out_of_fuel) ∧
    (∀ b, Packet.parse_multiple b ≠ .error .out_of_fuel) ∧
    (∀ rest, ∃ e, e.is_exception = true ∧ Field.Field_bytes (0 :: 0 :: rest) = .error e) ∧
    (∀ rest, ∃ e, e.is_exception = true ∧ Field.Field_bytes (1 :: 0 :: rest) = .error e) ∧
    (∀ rest, ∃ e, e.is_exception = true ∧ Field.Field_bytes (2 :: 0 :: rest) = .error e) :=
  ⟨by decide, by decide, Packet_bytes_no_fuel, parse_multiple_no_fuel,
    Field_bytes_small_length 0 (by decide), Field_bytes_small_length 1 (by decide),
    Field_bytes_small_length 2 (by decide)⟩

/-! ## Geofence -/

theorem geofence_loop_eq (lats : List F64) :
    ∀ (pre rem : List F64) (payload : List Byte), rem.length = lats.length →
      geofence_loop (pre ++ rem) lats pre.length payload =
        .ok (payload ++ ((interleave lats rem).map double_t.to_memory).flatten) := by
  induction lats with
  | nil =>
    intro pre rem payload _
    simp [geofence_loop, interleave]
  | cons lat lats ih =>
    intro pre rem payload hlen
    match rem, hlen with
    | lon :: rem, hlen =>
      have hat : vector_at (pre ++ lon :: rem) pre.length = .ok lon := by
        simp only [vector_at, List.get?_eq_getElem?, List.getElem?_append_right (Nat.le_refl _),
          Nat.sub_self, List.getElem?_cons_zero]
      have hrec := ih (pre ++ [lon]) rem
        (append (append payload (to_bytes double_t lat false)) (to_bytes double_t lon false))
        (by simpa using hlen)
      simp only [List.append_assoc, List.singleton_append, List.length_append,
        List.length_singleton] at hrec
      simp only [geofence_loop, hat, bind, Except.bind, hrec]
      simp [interleave, append, to_bytes]

theorem interleave_length (lats lons : List F64) (h : lats.length = lons.length) :
    (interleave lats lons).length = 2 * lats.length := by
  induction lats generalizing lons with
  | nil => simp [interleave]
  | cons a as ih =>
    match lons, h with
    | b :: bs, h =>
      have := ih bs (by simpa using h)
      simp only [interleave, List.zip_cons_cons, List.flatMap_cons, List.length_append,
        List.length_cons, List.length_nil] at this ⊢
      omega

/-- C21: for latitude and longitude lists of the same length `n`,
`ACTION_SET_GEOFENCE(lats, lons)` returns a field with descriptor 0x0E whose
data has `16 * n` bytes and which `vector_from_bytes<double>` splits into
`lats[0], lons[0], lats[1], lons[1], ...`; for the latitudes 10, 20, 30 and
the longitudes -70, -71, -72 that is 10, -70, 20, -71, 30, -72. -/
theorem C21_geofence_interleaved (lats lons : List F64) (h : lats.length = lons.length) :
    ∃ f, ACTION_SET_GEOFENCE lats lons = .ok f ∧
      f.get_descriptor = 0x0E ∧
      f.get_data.length = 16 * lats.length ∧
      vector_from_bytes double_t f.get_data false = .ok (interleave lats lons) := by
  have hloop := geofence_loop_eq lats [] lons [] h.symm
  simp only [List.nil_append, List.length_nil] at hloop
  have henc := vector_from_bytes_encoded double_t double_lawful (interleave lats lons)
  refine ⟨Field.Field_desc_data ACTION_SET_GEOFENCE_DESC
      ((interleave lats lons).map double_t.to_memory).flatten,
    by simp only [ACTION_SET_GEOFENCE, hloop, bind, Except.bind, pure, Except.pure],
    rfl, ?_, henc.2⟩
  simp only [Field.get_data, Field.Field_desc_data, henc.1, interleave_length lats lons h]
  show 2 * lats.length * 8 = 16 * lats.length
  omega

/-- Witness of C21: latitudes 10, 20, 30 and longitudes -70, -71, -72, as
bit patterns. -/
theorem C21_geofence_interleaved_witness :
    ∃ f, ACTION_SET_GEOFENCE
          [0x4024000000000000, 0x4034000000000000, 0x403E000000000000]
          [0xC051800000000000, 0xC051C00000000000, 0xC052000000000000] = .ok f ∧
      f.get_descriptor = 0x0E ∧
      f.get_data.length = 16 * 3 ∧
      vector_from_bytes double_t f.get_data false =
        .ok [0x4024000000000000, 0xC051800000000000, 0x4034000000000000, 0xC051C00000000000,
          0x403E000000000000, 0xC052000000000000] :=
  C21_geofence_interleaved
    [0x4024000000000000, 0x4034000000000000, 0x403E000000000000]
    [0xC051800000000000, 0xC051C00000000000, 0xC052000000000000] rfl

/-! ## Round trip of packets whose fields carry data -/

theorem Field_round_trip (f : Field) (hd : f.data ≠ [])
    (hl : f.length.val = 3 + f.data.length) : Field.Field_bytes f.get_bytes = .ok f := by
  rw [Field_get_bytes_cons, Field.Field_bytes, Field_set_bytes_cons, if_neg]
  · match hdata : f.data, hd with
    | w :: tail, _ =>
      simp only
      congr 1
      have : u16 ((u8 f.length.val).val + 256 * (u8 (f.length.val / 256)).val) = f.length := by
        apply Fin.ext
        rw [u16_val, length_bytes_value]
      rw [this, ← hdata]
  · rw [length_bytes_value, hl]
    simp only [List.length_cons, ne_eq, not_not]
    omega

theorem Field_get_bytes_length (f : Field) : f.get_bytes.length = 3 + f.data.length := by
  rw [Field_get_bytes_cons]
  simp only [List.length_cons]
  omega

theorem payload_length_eq (fields : List Field)
    (h : ∀ f ∈ fields, f.data ≠ [] ∧ f.length.val = 3 + f.data.length) :
    ((fields.map Field.get_bytes).flatten).length =
      (fields.map fun f => f.get_length.val).sum := by
  induction fields with
  | nil => rfl
  | cons f fs ih =>
    have hf := h f (List.mem_cons_self f fs)
    have := ih (fun g hg => h g (List.mem_cons_of_mem f hg))
    simp only [List.map_cons, List.flatten_cons, List.length_append, List.sum_cons,
      Field_get_bytes_length, Field.get_length, hf.2, this]

/-- The field loop of `Packet::set_bytes` on the concatenated encodings of
fields that carry data returns those fields. -/
theorem set_bytes_loop_round_trip (fields : List Field) :
    ∀ (acc : List Field) (fuel : Nat),
      (∀ f ∈ fields, f.data ≠ [] ∧ f.length.val = 3 + f.data.length) →
      ((fields.map Field.get_bytes).flatten).length ≤ fuel →
      Packet.set_bytes_loop fuel (fields.map Field.get_bytes).flatten acc =
        .ok (acc ++ fields) := by
  induction fields with
  | nil =>
    intro acc fuel _ _
    cases fuel <;> simp [Packet.set_bytes_loop]
  | cons f fs ih =>
    intro acc fuel h hfuel
    have hf := h f (List.mem_cons_self f fs)
    have hlen := Field_get_bytes_length f
    simp only [List.map_cons, List.flatten_cons, List.length_append] at hfuel ⊢
    cases fuel with
    | zero => omega
    | succ fuel =>
      have hval : (u16 ((u8 f.length.val).val + 256 * (u8 (f.length.val / 256)).val)).val =
          f.get_bytes.length := by
        rw [u16_val, length_bytes_value, hlen, hf.2]
      have htake : (f.get_bytes ++ (fs.map Field.get_bytes).flatten).take f.get_bytes.length =
          f.get_bytes := List.take_left' rfl
      have hdrop : (f.get_bytes ++ (fs.map Field.get_bytes).flatten).drop f.get_bytes.length =
          (fs.map Field.get_bytes).flatten := List.drop_left' rfl
      have h2 : subvector (f.get_bytes ++ (fs.map Field.get_bytes).flatten) 0 2 =
          .ok [u8 f.length.val, u8 (f.length.val / 256)] := by
        rw [subvector_ok _ _ _ (by simp; omega) (by simp; omega), Field_get_bytes_cons]
        rfl
      unfold Packet.set_bytes_loop
      rw [if_pos (by simp; omega)]
      simp only [bind, Except.bind, h2, from_bytes_u16_pair, hval]
      rw [subvector_ok _ _ _ (by simp; omega) (by simp)]
      simp only [List.drop_zero, htake, Field_round_trip f hf.1 hf.2, remove,
        List.length_append, Nat.zero_add, Nat.le_add_right, if_true, List.take_zero,
        List.nil_append, hdrop]
      rw [ih (acc ++ [f]) fuel (fun g hg => h g (List.mem_cons_of_mem f hg)) (by omega)]
      simp

/-- The bytes of `Packet::get_bytes`: header, descriptor, payload length,
the fields, and the checksum of all of these. -/
theorem Packet_get_bytes_eq (p : Packet) :
    p.get_bytes =
      0x75 :: 0x65 :: p.descriptor :: u8 p.payload_length.val ::
        u8 (p.payload_length.val / 256) :: (p.fields.map Field.get_bytes).flatten ++
      Packet.get_checksum
        (0x75 :: 0x65 :: p.descriptor :: u8 p.payload_length.val ::
          u8 (p.payload_length.val / 256) :: (p.fields.map Field.get_bytes).flatten) := by
  simp only [Packet.get_bytes, foldl_append_get_bytes]
  simp [append, AVL_PACKET_HEADER, to_bytes_u16]

theorem Packet_get_bytes_length (p : Packet) :
    p.get_bytes.length = 7 + ((p.fields.map Field.get_bytes).flatten).length := by
  rw [Packet_get_bytes_eq]
  simp only [List.length_append, List.length_cons, get_checksum_length]
  omega

theorem Packet_validate_get_bytes (p : Packet)
    (h : p.payload_length.val = ((p.fields.map Field.get_bytes).flatten).length) :
    Packet.validate_bytes p.get_bytes = .ok () := by
  rw [Packet_validate_ok_iff]
  have hlen := Packet_get_bytes_length p
  refine ⟨by omega, ?_, ?_, ?_⟩
  · rw [Packet_get_bytes_eq]; rfl
  · rw [hlen, Packet_get_bytes_eq]
    simp only [List.cons_append, List.getD_cons_succ, List.getD_cons_zero, u8_val]
    have := p.payload_length.isLt
    omega
  · have h5 : p.get_bytes.length - 2 =
        (0x75 :: 0x65 :: p.descriptor :: u8 p.payload_length.val ::
          u8 (p.payload_length.val / 256) ::
            (p.fields.map Field.get_bytes).flatten).length := by
      rw [hlen]; simp only [List.length_cons]; omega
    rw [h5, Packet_get_bytes_eq, List.take_left' rfl, List.drop_left' rfl]

theorem flatten_get_bytes_nil (fields : List Field)
    (h : ((fields.map Field.get_bytes).flatten).length = 0) : fields = [] := by
  cases fields with
  | nil => rfl
  | cons f fs =>
    have := Field_get_bytes_length f
    simp only [List.map_cons, List.flatten_cons, List.length_append] at h
    omega

/-- Parsing the serialization of an encodable packet returns the packet. -/
theorem Packet_round_trip (p : Packet) (h : p.Encodable) :
    Packet.Packet_bytes p.get_bytes = .ok p := by
  have hP : p.payload_length.val = ((p.fields.map Field.get_bytes).flatten).length := by
    rw [payload_length_eq p.fields h.1]; exact h.2
  have hv := Packet_validate_get_bytes p hP
  have hlen := Packet_get_bytes_length p
  have hd : vector_at p.get_bytes 2 = .ok p.descriptor := by
    rw [Packet_get_bytes_eq]; rfl
  have h32 : subvector p.get_bytes 3 2 =
      .ok [u8 p.payload_length.val, u8 (p.payload_length.val / 256)] := by
    rw [subvector_ok _ _ _ (by omega) (by omega), Packet_get_bytes_eq]
    rfl
  have hu : u16 ((u8 p.payload_length.val).val +
      256 * (u8 (p.payload_length.val / 256)).val) = p.payload_length :=
    Fin.ext (by rw [u16_val, length_bytes_value])
  have hdrop5 : ∃ c, p.get_bytes.drop 5 = (p.fields.map Field.get_bytes).flatten ++ c :=
    ⟨_, by rw [Packet_get_bytes_eq]; rfl⟩
  have hpay : subvector p.get_bytes 5 p.payload_length.val =
      .ok (p.fields.map Field.get_bytes).flatten := by
    obtain ⟨c, hc⟩ := hdrop5
    rw [subvector_ok _ _ _ (by omega) (by omega), hc, hP, List.take_left' rfl]
  unfold Packet.Packet_bytes Packet.set_bytes
  simp only [bind, Except.bind]
  rw [hv]
  simp only [hd, h32, from_bytes_u16_pair, hu, hpay]
  by_cases h0 : p.payload_length.val > 0
  · rw [if_pos h0, set_bytes_loop_round_trip p.fields Packet.Packet_default.fields _ h.1
      (Nat.le_refl _)]
    rfl
  · rw [if_neg h0]
    have : p.fields = [] := flatten_get_bytes_nil p.fields (by omega)
    simp only [pure, Except.pure, Packet.Packet_default, this]
    rw [← this]

/-- Source `Packet::parse_multiple` loop on the concatenated encodings of
encodable packets returns those packets. -/
theorem parse_multiple_loop_round_trip (ps : List Packet) :
    ∀ (acc : List Packet) (fuel : Nat),
      (∀ p ∈ ps, p.Encodable) →
      ((ps.map Packet.get_bytes).flatten).length ≤ fuel →
      Packet.parse_multiple_loop fuel (ps.map Packet.get_bytes).flatten acc =
        .ok (acc ++ ps) := by
  induction ps with
  | nil =>
    intro acc fuel _ _
    cases fuel <;> simp [Packet.parse_multiple_loop]
  | cons p ps ih =>
    intro acc fuel h hfuel
    have hp := h p (List.mem_cons_self p ps)
    have hP : p.payload_length.val = ((p.fields.map Field.get_bytes).flatten).length := by
      rw [payload_length_eq p.fields hp.1]; exact hp.2
    have hlen := Packet_get_bytes_length p
    simp only [List.map_cons, List.flatten_cons, List.length_append] at hfuel ⊢
    cases fuel with
    | zero => omega
    | succ fuel =>
      have hL : 2 + 3 + p.payload_length.val + 2 = p.get_bytes.length := by omega
      have htake : (p.get_bytes ++ (ps.map Packet.get_bytes).flatten).take p.get_bytes.length =
          p.get_bytes := List.take_left' rfl
      have hdrop : (p.get_bytes ++ (ps.map Packet.get_bytes).flatten).drop p.get_bytes.length =
          (ps.map Packet.get_bytes).flatten := List.drop_left' rfl
      have h2 : subvector (p.get_bytes ++ (ps.map Packet.get_bytes).flatten) 3 2 =
          .ok [u8 p.payload_length.val, u8 (p.payload_length.val / 256)] := by
        rw [subvector_ok _ _ _ (by simp; omega) (by simp; omega), Packet_get_bytes_eq]
        rfl
      have hval : (u16 ((u8 p.payload_length.val).val +
          256 * (u8 (p.payload_length.val / 256)).val)).val = p.payload_length.val := by
        rw [u16_val, length_bytes_value]
      unfold Packet.parse_multiple_loop
      rw [if_pos (by simp; omega)]
      simp only [bind, Except.bind, h2, from_bytes_u16_pair, hval, hL]
      rw [subvector_ok _ _ _ (by simp; omega) (by simp)]
      simp only [List.drop_zero, htake, Packet_round_trip p hp, remove,
        List.length_append, Nat.zero_add, Nat.le_add_right, if_true, List.take_zero,
        List.nil_append, hdrop]
      rw [ih (acc ++ [p]) fuel (fun g hg => h g (List.mem_cons_of_mem p hg)) (by omega)]
      simp

theorem Field_reachable_length (f : Field) (h : f.Reachable) :
    f.length.val = (3 + f.data.length) % 65536 := by
  obtain ⟨f0, ops, h0, rfl⟩ := h
  exact Field_run_length ops f0 (Field_constructed_length f0 h0)

theorem Packet_run_field_lengths (ops : List PacketOp) :
    ∀ p : Packet, (∀ op ∈ ops, op.AddsField) →
      (∀ f ∈ p.fields, f.length.val = (3 + f.data.length) % 65536) →
      ∀ f ∈ (p.run ops).fields, f.length.val = (3 + f.data.length) % 65536 := by
  induction ops with
  | nil => intro p _ h; exact h
  | cons op ops ih =>
    intro p hops h
    show ∀ f ∈ ((PacketOp.apply p op).run ops).fields, _
    apply ih _ (fun o ho => hops o (List.mem_cons_of_mem op ho))
    have hop := hops op (List.mem_cons_self op ops)
    cases op with
    | add_field_desc d =>
      intro f hf
      simp only [PacketOp.apply, Packet.add_field_desc, List.mem_append,
        List.mem_singleton] at hf
      rcases hf with hf | hf
      · exact h f hf
      · subst hf; rfl
    | add_field_desc_data d data =>
      intro f hf
      simp only [PacketOp.apply, Packet.add_field_desc_data, List.mem_append,
        List.mem_singleton] at hf
      rcases hf with hf | hf
      · exact h f hf
      · subst hf; rfl
    | add_field field =>
      intro f hf
      simp only [PacketOp.apply, Packet.add_field, List.mem_append,
        List.mem_singleton] at hf
      rcases hf with hf | hf
      · exact h f hf
      · subst hf; exact Field_reachable_length f hop
    | clear_fields => exact hop.elim
    | set_descriptor d => exact hop.elim

theorem mem_le_sum_map {α : Type} (g : α → Nat) (l : List α) (x : α) (h : x ∈ l) :
    g x ≤ (l.map g).sum := by
  induction l with
  | nil => cases h
  | cons a l ih =>
    simp only [List.map_cons, List.sum_cons]
    rcases List.mem_cons.mp h with rfl | h
    · omega
    · have := ih h; omega

/-- A packet built by `add_field` calls whose fields all carry data and
serialize to at most 65535 bytes is encodable. -/
theorem Packet_built_encodable (p : Packet) (hb : p.Built)
    (hne : ∀ f ∈ p.fields, f.get_data ≠ []) (htot : p.fields_size ≤ 65535) :
    p.Encodable := by
  obtain ⟨p0, ops, h0, hops, rfl⟩ := hb
  have hc : p0.Constructed := h0.elim Or.inl (fun h => Or.inr (Or.inl h))
  have hf0 : p0.fields = [] := by
    rcases h0 with h | h
    · subst h; rfl
    · simp only [catalog_packets, List.mem_cons, List.mem_singleton, List.not_mem_nil,
        or_false] at h
      rcases h with h | h | h | h | h | h | h | h | h <;> (subst h; rfl)
  have hpl := Packet_run_payload_length ops p0 (Packet_constructed_payload_length p0 hc)
  have hlen := Packet_run_field_lengths ops p0 hops (by rw [hf0]; intro f hf; cases hf)
  have hfield : ∀ f ∈ (p0.run ops).fields, f.length.val = 3 + f.data.length := by
    intro f hf
    have h1 := hlen f hf
    have h2 := mem_le_sum_map (fun f : Field => 3 + f.get_data.length) _ f hf
    simp only [Packet.fields_size, Field.get_data] at htot h2
    omega
  have hsum : (p0.run ops).fields_length = (p0.run ops).fields_size := by
    simp only [Packet.fields_length, Packet.fields_size, Field.get_length, Field.get_data]
    exact congrArg List.sum (List.map_congr_left hfield)
  refine ⟨fun f hf => ⟨hne f hf, hfield f hf⟩, ?_⟩
  rw [hpl, hsum]
  omega

/-- C25: for every list of packets each built by `add_field` calls (any of
the three overloads) from `Packet()` or a catalog packet constructor, in
which every field has non-empty data and the fields of each packet serialize
to at most 65535 bytes in total, `Packet::parse_multiple` on the
concatenation of their `get_bytes()` outputs succeeds and returns exactly the
original packets in order (same descriptor, same payload length, same fields
with the same descriptor, data and length); and `Packet(p.get_bytes())`
returns `p` for each of them. -/
theorem C25_packets_with_data_round_trip (ps : List Packet)
    (hb : ∀ p ∈ ps, p.Built) (hne : ∀ p ∈ ps, ∀ f ∈ p.fields, f.get_data ≠ [])
    (htot : ∀ p ∈ ps, p.fields_size ≤ 65535) :
    Packet.parse_multiple (ps.map Packet.get_bytes).flatten = .ok ps ∧
    ∀ p ∈ ps, Packet.Packet_bytes p.get_bytes = .ok p := by
  have henc : ∀ p ∈ ps, p.Encodable := fun p hp =>
    Packet_built_encodable p (hb p hp) (hne p hp) (htot p hp)
  refine ⟨?_, fun p hp => Packet_round_trip p (henc p hp)⟩
  unfold Packet.parse_multiple
  rw [parse_multiple_loop_round_trip ps [] _ henc (Nat.le_refl _)]
  rfl

/-- C25 at an action packet with two fields followed by a default packet with
one field. -/
theorem C25_packets_with_data_round_trip_witness :
    Packet.parse_multiple
        (([ACTION_PACKET.run [.add_field (VEHICLE_ID 7), .add_field_desc_data 0xFE [0]],
          Packet.Packet_default.run [.add_field_desc_data 0x10 [1, 2, 3]]].map
            Packet.get_bytes).flatten) =
      .ok [ACTION_PACKET.run [.add_field (VEHICLE_ID 7), .add_field_desc_data 0xFE [0]],
        Packet.Packet_default.run [.add_field_desc_data 0x10 [1, 2, 3]]] ∧
    ∀ p ∈ [ACTION_PACKET.run [.add_field (VEHICLE_ID 7), .add_field_desc_data 0xFE [0]],
        Packet.Packet_default.run [.add_field_desc_data 0x10 [1, 2, 3]]],
      Packet.Packet_bytes p.get_bytes = .ok p :=
  C25_packets_with_data_round_trip
    [ACTION_PACKET.run [.add_field (VEHICLE_ID 7), .add_field_desc_data 0xFE [0]],
      Packet.Packet_default.run [.add_field_desc_data 0x10 [1, 2, 3]]]
    (by
      intro p hp
      simp only [List.mem_cons, List.mem_singleton, List.not_mem_nil, or_false] at hp
      rcases hp with rfl | rfl
      · refine ⟨ACTION_PACKET, [.add_field (VEHICLE_ID 7), .add_field_desc_data 0xFE [0]],
          Or.inr (by decide), ?_, rfl⟩
        intro op hop
        simp only [List.mem_cons, List.mem_singleton, List.not_mem_nil, or_false] at hop
        rcases hop with rfl | rfl
        · exact ⟨VEHICLE_ID 7, [], Or.inr (Or.inr (Or.inl ⟨VEHICLE_ID_DESC, [7], rfl⟩)), rfl⟩
        · exact trivial
      · refine ⟨Packet.Packet_default, [.add_field_desc_data 0x10 [1, 2, 3]], Or.inl rfl, ?_,
          rfl⟩
        intro op hop
        simp only [List.mem_singleton] at hop
        subst hop
        exact trivial)
    (by decide) (by decide)

end avl
